import Mathlib

/-!
Verification of the RL2025OS Instagram fetching scripts against their
natural-language specification.

The Python sources are shallowly embedded: pure data flow becomes Lean
functions over an explicit `JVal` JSON model, exception flow becomes
`Except PyErr`, and outcomes of network / subprocess / filesystem calls
are passed in as explicit environment values.  All definitions are
executable so that concrete runs can be checked by `decide` / `rfl`.
-/

namespace Py

/-- Errors a modelled Python computation can raise.  The constructors
mirror the exception classes that the scripts distinguish in their
`except` clauses. -/
inductive PyErr where
  | requestError   -- requests.exceptions.RequestException (incl. HTTPError, Timeout)
  | timeoutError   -- requests.exceptions.Timeout / subprocess.TimeoutExpired
  | jsonError      -- json.JSONDecodeError
  | keyError       -- KeyError
  | indexError     -- IndexError
  | typeError      -- TypeError
  | attrError      -- AttributeError (e.g. calling a method that does not exist)
  | valueError     -- ValueError
  | otherError     -- anything else
deriving DecidableEq, Repr

/-- JSON values as decoded by `json.loads` / `response.json()`.
Floating point literals keep their lexeme (`jfloat`); none of the
verified code inspects float values. -/
inductive JVal where
  | jnull
  | jbool (b : Bool)
  | jnum (n : Int)
  | jfloat (lexeme : String)
  | jstr (s : String)
  | jarr (xs : List JVal)
  | jobj (fields : List (String × JVal))

namespace JVal

/-- Python truthiness of a JSON value (`if x:`). -/
def truthy : JVal → Bool
  | jnull => false
  | jbool b => b
  | jnum n => n ≠ 0
  | jfloat _ => true          -- the modelled code never branches on float truthiness
  | jstr s => s ≠ ""
  | jarr xs => ¬ xs.isEmpty
  | jobj fs => ¬ fs.isEmpty

end JVal

open JVal

/-- Association-list lookup for JSON objects (first match wins; the
modelled payload dictionaries have distinct keys, as Python dicts do). -/
def lookupField : List (String × JVal) → String → Option JVal
  | [], _ => none
  | (k, v) :: rest, key => if k = key then some v else lookupField rest key

/-- Python `d.get(key, default)`: succeeds on dicts, raises
`AttributeError` on anything else (the scripts rely on the surrounding
`try` for that case). -/
def pyGet (v : JVal) (key : String) (dflt : JVal) : Except PyErr JVal :=
  match v with
  | jobj fields =>
      match lookupField fields key with
      | some w => .ok w
      | none => .ok dflt
  | _ => .error .attrError

/-- Python `d[key]` on a JSON object: `KeyError` when missing,
`TypeError` when the receiver is not a dict. -/
def pyIndexKey (v : JVal) (key : String) : Except PyErr JVal :=
  match v with
  | jobj fields =>
      match lookupField fields key with
      | some w => .ok w
      | none => .error .keyError
  | _ => .error .typeError

/-- Python `xs[0]` on a JSON array. -/
def pyIndex0 (v : JVal) : Except PyErr JVal :=
  match v with
  | jarr (x :: _) => .ok x
  | jarr [] => .error .indexError
  | _ => .error .typeError

/-- Python `xs[:n]` on a JSON array (used as `posts_data[:max_posts]`);
slicing anything that is not a list raises `TypeError` in the scripts'
usage pattern. -/
def pySliceList (v : JVal) (n : Nat) : Except PyErr (List JVal) :=
  match v with
  | jarr xs => .ok (xs.take n)
  | _ => .error .typeError

/-- Decimal digits (as characters, most significant first) of a
nonzero natural number; `fuel` bounds the recursion. -/
def decDigitsAux : Nat → Nat → List Char
  | 0, _ => []
  | fuel + 1, m =>
      if m = 0 then []
      else decDigitsAux fuel (m / 10) ++ [Char.ofNat (48 + m % 10)]

/-- Python `str(n)` for a natural number. -/
def decStr (n : Nat) : String :=
  if n = 0 then "0" else String.mk (decDigitsAux (n + 1) n)

/-- Python `str`/f-string conversion of a JSON value, as used in the
scripts' f-string id synthesis (`f"{post.get('id','')}_{idx}"`). -/
def pyStr : JVal → String
  | jnull => "None"
  | jbool true => "True"
  | jbool false => "False"
  | jnum n => if n < 0 then "-" ++ decStr n.natAbs else decStr n.natAbs
  | jfloat s => s
  | jstr s => s
  | jarr _ => "<list>"   -- repr of containers is never id-relevant in the scripts
  | jobj _ => "<dict>"

/-- Recover a natural number from its decimal digit characters. -/
def undigits (cs : List Char) : Nat :=
  cs.foldl (fun acc c => acc * 10 + (c.toNat - 48)) 0

/-- A Python dict with JSON values (the scripts' post records). -/
abbrev PyDict := List (String × JVal)

/-- Python `d.get(key, dflt)` on a value that is statically a dict. -/
def dget (d : PyDict) (key : String) (dflt : JVal) : JVal :=
  (lookupField d key).getD dflt

/-- Python `s.split(sep)` for a single-character separator: always
returns at least one piece. -/
def splitOnChar (sep : Char) : List Char → List (List Char)
  | [] => [[]]
  | c :: rest =>
      let ps := splitOnChar sep rest
      if c = sep then [] :: ps
      else
        match ps with
        | p :: ps2 => (c :: p) :: ps2
        | [] => [[c]]

/-- Parse an unsigned run of digits with Python's single-underscore
grouping rule (`int("1_000")`); `acc = none` until a digit is seen. -/
def parseDigits : List Char → Option Nat → Option Nat
  | [], acc => acc
  | c :: rest, acc =>
      if c.isDigit then parseDigits rest (some ((acc.getD 0) * 10 + (c.toNat - 48)))
      else if c = '_' then
        match acc, rest with
        | some _, r :: _ => if r.isDigit then parseDigits rest acc else none
        | _, _ => none
      else none

/-- Characters `str.strip()` removes. -/
def isPySpace (c : Char) : Bool :=
  c = ' ' ∨ c = '\t' ∨ c = '\n' ∨ c = '\x0b' ∨ c = '\x0c' ∨ c = '\r'

/-- Does list `p` lead (start) list `s`? -/
def leadsWith [DecidableEq α] : List α → List α → Bool
  | [], _ => true
  | _ :: _, [] => false
  | a :: as, b :: bs => a = b && leadsWith as bs

/-- Is `pat` a contiguous sublist of `s` (Python's `in` on strings)? -/
def hasSubList [DecidableEq α] (pat : List α) : List α → Bool
  | [] => leadsWith pat ([] : List α)
  | c :: rest => leadsWith pat (c :: rest) || hasSubList pat rest

/-- Python `needle in hay` for strings. -/
def strHasSub (needle hay : String) : Bool := hasSubList needle.data hay.data

/-- Python `==` on JSON values.  Booleans equal their numeric values
(`True == 1`); container equality is never exercised by the scripts
(they only ever compare a payload value against a scalar literal), so
it is modelled as `false`. -/
def pyEq : JVal → JVal → Bool
  | jnull, jnull => true
  | jbool a, jbool b => a = b
  | jbool a, jnum n => (if a then (1 : Int) else 0) = n
  | jnum n, jbool a => (if a then (1 : Int) else 0) = n
  | jnum n, jnum m => n = m
  | jfloat s, jfloat t => s = t
  | jstr s, jstr t => s = t
  | _, _ => false

/-- Python `x or y` (value-returning). -/
def pyOr (x y : JVal) : JVal := if x.truthy then x else y

/-- Index of the first occurrence of `pat` at or after position `i`
(Python `s.find(pat, i)`). -/
def findSubFrom [DecidableEq α] (pat : List α) : List α → Nat → Option Nat
  | s, i =>
    let rec go : List α → Nat → Option Nat
      | s, pos =>
        if leadsWith pat s then some pos
        else
          match s with
          | [] => none
          | _ :: rest => go rest (pos + 1)
    go (s.drop i) 0 |>.map (· + i)

/-- Insert a key/value pair into a JSON-object field list the way a
Python dict does: an existing key keeps its position and gets the new
value, a new key is appended. -/
def insertField (fields : List (String × JVal)) (k : String) (v : JVal) :
    List (String × JVal) :=
  if (lookupField fields k).isSome then
    fields.map fun kv => if kv.1 = k then (k, v) else kv
  else fields ++ [(k, v)]

/-- JSON whitespace. -/
def isJsonWs (c : Char) : Bool := c = ' ' ∨ c = '\t' ∨ c = '\n' ∨ c = '\r'

/-- One string-escape step of the JSON string lexer. -/
def jsonEscChar (c : Char) : Option Char :=
  if c = '"' then some '"'
  else if c = '\\' then some '\\'
  else if c = '/' then some '/'
  else if c = 'b' then some '\x08'
  else if c = 'f' then some '\x0c'
  else if c = 'n' then some '\n'
  else if c = 'r' then some '\r'
  else if c = 't' then some '\t'
  else none

/-- Hex digit value. -/
def hexVal (c : Char) : Option Nat :=
  if '0' ≤ c ∧ c ≤ '9' then some (c.toNat - 48)
  else if 'a' ≤ c ∧ c ≤ 'f' then some (c.toNat - 87)
  else if 'A' ≤ c ∧ c ≤ 'F' then some (c.toNat - 55)
  else none

/-- JSON string body lexer (after the opening quote). -/
def jsonStr : Nat → List Char → List Char → Except PyErr (String × List Char)
  | 0, _, _ => .error .jsonError
  | _ + 1, _, [] => .error .jsonError
  | fuel + 1, acc, c :: rest =>
      if c = '"' then .ok (String.mk acc.reverse, rest)
      else if c = '\\' then
        match rest with
        | [] => .error .jsonError
        | e :: rest2 =>
            if e = 'u' then
              match rest2 with
              | h1 :: h2 :: h3 :: h4 :: rest3 =>
                  match hexVal h1, hexVal h2, hexVal h3, hexVal h4 with
                  | some a, some b, some c2, some d =>
                      let n := ((a * 16 + b) * 16 + c2) * 16 + d
                      -- lone surrogates decode to the replacement pattern; the
                      -- scripts never feed surrogate escapes, so map them to it
                      let ch := if n < 0xd800 then Char.ofNat n
                                else if n ≥ 0xe000 then Char.ofNat n
                                else '�'
                      jsonStr fuel (ch :: acc) rest3
                  | _, _, _, _ => .error .jsonError
              | _ => .error .jsonError
            else
              match jsonEscChar e with
              | some ch => jsonStr fuel (ch :: acc) rest2
              | none => .error .jsonError
      else if c.toNat < 0x20 then .error .jsonError   -- strict mode
      else jsonStr fuel (c :: acc) rest

/-- JSON number lexer: returns the value (or float lexeme) and rest. -/
def jsonNum (cs : List Char) : Except PyErr (JVal × List Char) :=
  let (sign, cs1) := match cs with
                     | '-' :: r => (true, r)
                     | _ => (false, cs)
  let intPart := cs1.takeWhile Char.isDigit
  let rest1 := cs1.dropWhile Char.isDigit
  if intPart.isEmpty then .error .jsonError
  else if intPart.length > 1 ∧ intPart.headD '0' = '0' then .error .jsonError
  else
    let (fracPart, rest2) :=
      match rest1 with
      | '.' :: r =>
          let ds := r.takeWhile Char.isDigit
          if ds.isEmpty then ([], rest1) else ('.' :: ds, r.dropWhile Char.isDigit)
      | _ => ([], rest1)
    let (expPart, rest3) :=
      match rest2 with
      | e :: r =>
          if e = 'e' ∨ e = 'E' then
            let (sgn, r2) := match r with
                             | s :: r2 => if s = '+' ∨ s = '-' then ([s], r2) else ([], r)
                             | [] => ([], r)
            let ds := r2.takeWhile Char.isDigit
            if ds.isEmpty then ([], rest2)
            else (e :: (sgn ++ ds), r2.dropWhile Char.isDigit)
          else ([], rest2)
      | [] => ([], rest2)
    if fracPart.isEmpty ∧ expPart.isEmpty then
      let v : Int := (undigits intPart : Int)
      .ok (jnum (if sign then -v else v), rest1)
    else
      let lexeme := (if sign then "-" else "") ++ String.mk (intPart ++ fracPart ++ expPart)
      .ok (jfloat lexeme, rest3)

/-- Parser mode: a single value, the member loop of an object, or the
element loop of an array (`first` is true before any member is read). -/
inductive JPMode where
  | val
  | objItems (acc : List (String × JVal)) (first : Bool)
  | arrItems (acc : List JVal) (first : Bool)

/-- JSON parser (fuel-indexed; `json.loads` grammar with the
`Infinity`/`NaN` extensions Python accepts by default). -/
def jsonParse : Nat → JPMode → List Char → Except PyErr (JVal × List Char)
  | 0, _, _ => .error .jsonError
  | fuel + 1, .val, cs0 =>
      let cs := cs0.dropWhile isJsonWs
      match cs with
      | [] => .error .jsonError
      | c :: rest =>
          if c = '"' then do
            let (s, r) ← jsonStr (rest.length + 1) [] rest
            pure (jstr s, r)
          else if c = '\x7b' then jsonParse fuel (.objItems [] true) rest
          else if c = '[' then jsonParse fuel (.arrItems [] true) rest
          else if leadsWith "true".data cs then pure (jbool true, cs.drop 4)
          else if leadsWith "false".data cs then pure (jbool false, cs.drop 5)
          else if leadsWith "null".data cs then pure (jnull, cs.drop 4)
          else if leadsWith "Infinity".data cs then pure (jfloat "Infinity", cs.drop 8)
          else if leadsWith "-Infinity".data cs then pure (jfloat "-Infinity", cs.drop 9)
          else if leadsWith "NaN".data cs then pure (jfloat "NaN", cs.drop 3)
          else jsonNum cs
  | fuel + 1, .objItems acc first, cs0 =>
      let cs := cs0.dropWhile isJsonWs
      match cs with
      | [] => .error .jsonError
      | c :: rest =>
          if c = '\x7d' ∧ first then pure (jobj acc, rest)
          else do
            let (k, r1) ←
              match cs with
              | '"' :: r => jsonStr (r.length + 1) [] r
              | _ => .error (α := String × List Char) .jsonError
            let r2 := r1.dropWhile isJsonWs
            match r2 with
            | ':' :: r3 => do
                let (v, r4) ← jsonParse fuel .val r3
                let acc2 := insertField acc k v
                let r5 := r4.dropWhile isJsonWs
                match r5 with
                | ',' :: r6 => jsonParse fuel (.objItems acc2 false) r6
                | '\x7d' :: r6 => pure (jobj acc2, r6)
                | _ => .error .jsonError
            | _ => .error .jsonError
  | fuel + 1, .arrItems acc first, cs0 =>
      let cs := cs0.dropWhile isJsonWs
      match cs with
      | [] => .error .jsonError
      | c :: _ =>
          if c = ']' ∧ first then pure (jarr acc, cs.tail)
          else do
            let (v, r1) ← jsonParse fuel .val cs
            let r2 := r1.dropWhile isJsonWs
            match r2 with
            | ',' :: r3 => jsonParse fuel (.arrItems (acc ++ [v]) false) r3
            | ']' :: r3 => pure (jarr (acc ++ [v]), r3)
            | _ => .error .jsonError

/-- Python `json.loads`: parse one value, then only whitespace may
remain. -/
def jsonLoads (s : String) : Except PyErr JVal := do
  let (v, rest) ← jsonParse (4 * s.length + 4) .val s.data
  if (rest.dropWhile isJsonWs).isEmpty then pure v else .error .jsonError

/-- Python iteration over a JSON value (`for x in v`): lists yield
elements, strings yield 1-character strings, dicts yield keys. -/
def pyIter : JVal → Except PyErr (List JVal)
  | jarr xs => .ok xs
  | jstr s => .ok (s.data.map fun c => jstr (String.mk [c]))
  | jobj fs => .ok (fs.map fun kv => jstr kv.1)
  | _ => .error .typeError

/-- Monadic concatenation over a list of payload items. -/
def concatMapM (f : JVal → Except PyErr (List PyDict)) :
    List JVal → Except PyErr (List PyDict)
  | [] => pure []
  | x :: rest => do
      let here ← f x
      let there ← concatMapM f rest
      pure (here ++ there)

/-- Python `key in v` (`in` on dicts, lists and strings; `TypeError`
otherwise). -/
def pyIn (key : String) (v : JVal) : Except PyErr Bool :=
  match v with
  | jobj fields => .ok (lookupField fields key).isSome
  | jarr xs => .ok (xs.any fun x => pyEq x (jstr key))
  | jstr s => .ok (strHasSub key s)
  | _ => .error .typeError

/-- Python `int(s)`: surrounding whitespace, an optional sign, then
decimal digits; anything else raises `ValueError`. -/
def pyInt (s : String) : Except PyErr Int :=
  let cs := (s.data.dropWhile isPySpace).reverse.dropWhile isPySpace |>.reverse
  match cs with
  | '-' :: rest =>
      match parseDigits rest none with
      | some n => .ok (-(n : Int))
      | none => .error .valueError
  | '+' :: rest =>
      match parseDigits rest none with
      | some n => .ok (n : Int)
      | none => .error .valueError
  | _ =>
      match parseDigits cs none with
      | some n => .ok (n : Int)
      | none => .error .valueError

end Py

namespace Utils

/-!
Model of `download_image_with_retry` (src/utils.py, lines 35-88).
The outcome of each `requests.get` attempt is supplied by the
environment; the body write models the `open`/`iter_content` block,
whose failures are either `OSError` (caught by the generic handler) or
a streaming `RequestException` (caught by the retry handler).
-/

open Py

/-- Outcome of writing the response body to `local_path`. -/
inductive BodyWrite where
  | ok
  | osError        -- open()/write() failure: not a RequestException
  | requestError   -- iter_content streaming failure: a RequestException
deriving DecidableEq, Repr

/-- The parts of an HTTP response the function inspects. -/
structure HttpResp where
  status : Nat
  contentType : String          -- headers.get('content-type', '')
  contentLength : Option String -- headers.get('content-length')
  write : BodyWrite


/-- Outcome of one `requests.get` call. -/
inductive GetOutcome where
  | raiseRequest           -- requests.exceptions.RequestException
  | raiseOther             -- any other exception
  | resp (r : HttpResp)


/-- `Config.MAX_IMAGE_SIZE` default (config/config.py line 46). -/
def MAX_IMAGE_SIZE : Int := 10 * 1024 * 1024

/-- The post-header part of a successful attempt: content-type check,
content-length check, body write. -/
def finishAttempt (r : HttpResp) (retryRemaining : Nat) (retry : Bool → Bool) : Bool :=
  if ¬ leadsWith "image/".data r.contentType.data then false
  else
    let proceed : Bool :=
      match r.contentLength with
      | none => true
      | some cl =>
          if cl = "" then true     -- falsy header value skips the size check
          else
            match pyInt cl with
            | .ok n => decide (n ≤ MAX_IMAGE_SIZE)
            | .error _ => false    -- int() ValueError -> generic except -> False
    if ¬ proceed then
      -- either the size check tripped or int() raised; both return False
      match r.contentLength with
      | some cl =>
          if cl = "" then false
          else
            match pyInt cl with
            | .ok _ => false       -- size > MAX_IMAGE_SIZE
            | .error _ => false    -- ValueError path
      | none => false
    else
      match r.write with
      | .ok => true
      | .osError => false                      -- generic except -> False
      | .requestError => retry (retryRemaining = 0)

/-- One attempt of the retry loop; `retryRemaining` counts the attempts
still ahead (so `attempt == max_retries - 1` is `retryRemaining = 0`). -/
def attemptStep (out : GetOutcome) (retryRemaining : Nat) (retry : Bool → Bool) : Bool :=
  match out with
  | .raiseRequest => retry (retryRemaining = 0)
  | .raiseOther => false
  | .resp r =>
      if r.status = 403 then false
      else if r.status = 404 then false
      else if 400 ≤ r.status ∧ r.status < 600 then
        -- raise_for_status(): HTTPError is a RequestException
        retry (retryRemaining = 0)
      else finishAttempt r retryRemaining retry

/-- The retry loop: `i` is the current attempt index, `remaining` the
number of loop iterations left (initially `max_retries`). -/
def retryLoop (env : Nat → GetOutcome) : Nat → Nat → Bool
  | _, 0 => false
  | i, remaining + 1 =>
      attemptStep (env i) remaining
        (fun isLast => if isLast then false else retryLoop env (i + 1) remaining)

/-- `download_image_with_retry(url, local_path, max_retries=3)`:
`env i` is the outcome of the `requests.get` on attempt `i`. -/
def download_image_with_retry (env : Nat → GetOutcome) (maxRetries : Nat := 3) : Bool :=
  retryLoop env 0 maxRetries

end Utils

namespace Batch

/-!
Model of `BatchDownloader.download_from_accounts`
(src/batch_downloader.py, lines 25-107).  Each account's
`subprocess.run` outcome and glob-counted image total come from the
environment, indexed by the account's position in the input list.
-/

open Py

/-- Outcome of the per-account `subprocess.run` call. -/
inductive RunOutcome where
  | timeout                                    -- subprocess.TimeoutExpired
  | raised                                     -- any other exception in the try
  | completed (returncode : Int) (stderr : String)

/-- Per-account environment: the subprocess outcome and the number of
image files the glob counts on success. -/
structure AcctEnv where
  run : RunOutcome
  imageCount : Nat

/-- Entry appended to `self.failed_downloads`. -/
structure FailEntry where
  username : JVal
  fullName : JVal
  error : String


/-- Entry appended to `self.successful_downloads`. -/
structure SuccessEntry where
  username : JVal
  fullName : JVal
  followersCount : JVal
  imageCount : Nat


/-- The downloader's mutable state. -/
structure BatchState where
  successfulDownloads : List SuccessEntry := []
  failedDownloads : List FailEntry := []
  totalAccounts : Nat := 0
  successfulAccounts : Nat := 0
  failedAccounts : Nat := 0
  totalImages : Nat := 0

/-- `result.stderr.split('\n')[-2] if result.stderr else "Unknown error"`;
a one-line stderr makes the `[-2]` raise `IndexError`, which the
generic handler converts into a failed entry with `str(e)`. -/
def errorMsgOf (stderr : String) : Except PyErr String :=
  if stderr = "" then .ok "Unknown error"
  else
    let parts := splitOnChar '\n' stderr.data
    if h : parts.length ≥ 2 then
      .ok (String.mk (parts.get ⟨parts.length - 2, by omega⟩))
    else .error .indexError

/-- Process one account (the body of the `for` loop). -/
def processAccount (acct : PyDict) (env : AcctEnv) (st : BatchState) : BatchState :=
  let username := dget acct "username" .jnull
  if ¬ username.truthy then st
  else
    let fullName := dget acct "full_name" (.jstr "")
    let failWith (msg : String) : BatchState :=
      { st with failedDownloads := st.failedDownloads ++ [⟨username, fullName, msg⟩],
                failedAccounts := st.failedAccounts + 1 }
    match env.run with
    | .completed rc stderr =>
        if rc = 0 then
          { st with
              successfulDownloads := st.successfulDownloads ++
                [⟨username, fullName, dget acct "followers_count" (.jnum 0), env.imageCount⟩],
              successfulAccounts := st.successfulAccounts + 1,
              totalImages := st.totalImages + env.imageCount }
        else
          match errorMsgOf stderr with
          | .ok msg => failWith msg
          | .error _ => failWith "list index out of range"   -- str(IndexError)
    | .timeout => failWith "Timeout"
    | .raised => failWith "error"

/-- `download_from_accounts(accounts, ...)`: fold the loop body over the
indexed account list, then set `total_accounts = len(accounts)`. -/
def download_from_accounts (accounts : List PyDict) (envs : Nat → AcctEnv) : BatchState :=
  let final := accounts.enum.foldl (fun st (p : Nat × PyDict) => processAccount p.2 (envs p.1) st) {}
  { final with totalAccounts := accounts.length }

end Batch

namespace RapidAPI

/-!
Model of `InstagramRapidAPI.get_posts` (src/instagram_rapidapi.py,
lines 73-292).  The response-parsing block (lines 153-256) is
`parsePosts`; the surrounding endpoint/attempt loop threads HTTP
outcomes supplied by the environment.
-/

open Py Py.JVal

/-- `media_type in [1, 'IMAGE', 'GraphImage']`. -/
def isImageTag (t : JVal) : Bool :=
  pyEq t (jnum 1) || pyEq t (jstr "IMAGE") || pyEq t (jstr "GraphImage")

/-- `media_type in [2, 'VIDEO', 'GraphVideo']`. -/
def isVideoTag (t : JVal) : Bool :=
  pyEq t (jnum 2) || pyEq t (jstr "VIDEO") || pyEq t (jstr "GraphVideo")

/-- One carousel child of the list-of-items shape (lines 164-194):
returns the 0 or 1 posts the child contributes. -/
def expandChild (post_data : JVal) (total : Nat) (idx : Nat) (child : JVal) :
    Except PyErr (List PyDict) := do
  let child_node ← pyGet child "node" child
  let tn ← pyGet child_node "__typename" (jstr "")
  let media_type ← pyGet child_node "media_type" tn
  let is_image := isImageTag media_type
  let is_video := isVideoTag media_type
  if is_image || is_video then
    let iu ← pyGet child_node "image_url" (jstr "")
    let mu ← pyGet child_node "media_url" iu
    let media_url ← pyGet child_node "display_url" mu
    let video_url ← if is_video then pyGet child_node "video_url" (jstr "") else pure (jstr "")
    let pid ← pyGet post_data "id" (jstr "")
    let shortcode ← pyGet post_data "shortcode" (jstr "")
    let caption ← pyGet post_data "caption" (jstr "")
    let likes ← pyGet post_data "like_count" (jnum 0)
    let comments ← pyGet post_data "comment_count" (jnum 0)
    let ts ← pyGet post_data "taken_at_timestamp" (jstr "")
    let sc2 ← pyGet post_data "shortcode" (jstr "")
    let duration ← if is_video then pyGet child_node "video_duration" (jnum 0) else pure jnull
    let view_count ← if is_video then pyGet child_node "video_view_count" (jnum 0) else pure jnull
    pure [[("id", jstr (pyStr pid ++ "_" ++ decStr idx)),
           ("shortcode", shortcode),
           ("caption", caption),
           ("image_url", media_url),
           ("video_url", video_url),
           ("likes_count", likes),
           ("comments_count", comments),
           ("timestamp", ts),
           ("permalink", jstr ("https://www.instagram.com/p/" ++ pyStr sc2 ++ "/")),
           ("media_type", jstr (if is_video then "carousel_video" else "carousel")),
           ("content_type", jstr (if is_video then "video" else "image")),
           ("carousel_index", jnum (idx + 1)),
           ("carousel_total", jnum total),
           ("duration", duration),
           ("view_count", view_count)]]
  else pure []

/-- The post dictionary produced for a recognized carousel child whose
resolved node is `jobj cfs`, inside parent fields `pf`. -/
def childPost (pf cfs : List (String × JVal)) (total idx : Nat) : PyDict :=
  let tn := dget cfs "__typename" (jstr "")
  let media_type := dget cfs "media_type" tn
  let is_video := isVideoTag media_type
  let iu := dget cfs "image_url" (jstr "")
  let mu := dget cfs "media_url" iu
  let media_url := dget cfs "display_url" mu
  let video_url := if is_video then dget cfs "video_url" (jstr "") else jstr ""
  let pid := dget pf "id" (jstr "")
  let shortcode := dget pf "shortcode" (jstr "")
  let caption := dget pf "caption" (jstr "")
  let likes := dget pf "like_count" (jnum 0)
  let comments := dget pf "comment_count" (jnum 0)
  let ts := dget pf "taken_at_timestamp" (jstr "")
  let sc2 := dget pf "shortcode" (jstr "")
  let duration := if is_video then dget cfs "video_duration" (jnum 0) else jnull
  let view_count := if is_video then dget cfs "video_view_count" (jnum 0) else jnull
  [("id", jstr (pyStr pid ++ "_" ++ decStr idx)),
   ("shortcode", shortcode),
   ("caption", caption),
   ("image_url", media_url),
   ("video_url", video_url),
   ("likes_count", likes),
   ("comments_count", comments),
   ("timestamp", ts),
   ("permalink", jstr ("https://www.instagram.com/p/" ++ pyStr sc2 ++ "/")),
   ("media_type", jstr (if is_video then "carousel_video" else "carousel")),
   ("content_type", jstr (if is_video then "video" else "image")),
   ("carousel_index", jnum (idx + 1)),
   ("carousel_total", jnum total),
   ("duration", duration),
   ("view_count", view_count)]

/-- Monadic indexed expansion of a child list. -/
def expandChildren (post_data : JVal) (total : Nat) :
    Nat → List JVal → Except PyErr (List PyDict)
  | _, [] => pure []
  | i, c :: rest => do
      let here ← expandChild post_data total i c
      let there ← expandChildren post_data total (i + 1) rest
      pure (here ++ there)

/-- One item of the list-of-items shape (lines 158-213). -/
def itemPosts (post_data : JVal) : Except PyErr (List PyDict) := do
  let ch ← pyGet post_data "children" jnull
  let guard1 ←
    if ch.truthy then pure true
    else do
      let sc ← pyGet post_data "edge_sidecar_to_children" jnull
      pure sc.truthy
  if guard1 then
    let c1o ← pyGet post_data "children" (jobj [])
    let c1 ← pyGet c1o "data" (jarr [])
    let children ←
      if c1.truthy then pure c1
      else do
        let c2o ← pyGet post_data "edge_sidecar_to_children" (jobj [])
        pyGet c2o "edges" (jarr [])
    let childList ← pyIter children
    expandChildren post_data childList.length 0 childList
  else
    let mt ← pyGet post_data "media_type" jnull
    if pyEq mt (jnum 1) || pyEq mt (jnum 2) then
      let is_video := pyEq mt (jnum 2)
      let iu ← pyGet post_data "image_url" (jstr "")
      let image_url ← pyGet post_data "display_url" iu
      let video_url ← if is_video then pyGet post_data "video_url" (jstr "") else pure (jstr "")
      let pid ← pyGet post_data "id" (jstr "")
      let shortcode ← pyGet post_data "shortcode" (jstr "")
      let caption ← pyGet post_data "caption" (jstr "")
      let likes ← pyGet post_data "like_count" (jnum 0)
      let comments ← pyGet post_data "comment_count" (jnum 0)
      let ts ← pyGet post_data "taken_at_timestamp" (jstr "")
      let sc2 ← pyGet post_data "shortcode" (jstr "")
      let duration ← if is_video then pyGet post_data "video_duration" (jnum 0) else pure jnull
      let view_count ← if is_video then pyGet post_data "video_view_count" (jnum 0) else pure jnull
      pure [[("id", pid),
             ("shortcode", shortcode),
             ("caption", caption),
             ("image_url", image_url),
             ("video_url", video_url),
             ("likes_count", likes),
             ("comments_count", comments),
             ("timestamp", ts),
             ("permalink", jstr ("https://www.instagram.com/p/" ++ pyStr sc2 ++ "/")),
             ("media_type", mt),
             ("content_type", jstr (if is_video then "video" else "image")),
             ("duration", duration),
             ("view_count", view_count)]]
    else pure []

/-- Caption extraction chain used by the GraphQL shape:
`node.get('edge_media_to_caption', {}).get('edges', [{}])[0].get('node', {}).get('text', '')`. -/
def captionChain (node : JVal) : Except PyErr JVal := do
  let e1 ← pyGet node "edge_media_to_caption" (jobj [])
  let e2 ← pyGet e1 "edges" (jarr [jobj []])
  let e3 ← pyIndex0 e2
  let e4 ← pyGet e3 "node" (jobj [])
  pyGet e4 "text" (jstr "")

/-- `node.get(k, {}).get('count', 0)`. -/
def countChain (node : JVal) (k : String) : Except PyErr JVal := do
  let e1 ← pyGet node k (jobj [])
  pyGet e1 "count" (jnum 0)

/-- One carousel child of the GraphQL shape (lines 226-243): only
`GraphImage` children are kept. -/
def sidecarChild (node : JVal) (total : Nat) (idx : Nat) (child_edge : JVal) :
    Except PyErr (List PyDict) := do
  let child_node ← pyGet child_edge "node" (jobj [])
  let tn ← pyGet child_node "__typename" jnull
  if pyEq tn (jstr "GraphImage") then
    let pid ← pyGet node "id" (jstr "")
    let shortcode ← pyGet node "shortcode" (jstr "")
    let caption ← captionChain node
    let image_url ← pyGet child_node "display_url" (jstr "")
    let likes ← countChain node "edge_liked_by"
    let comments ← countChain node "edge_media_to_comment"
    let ts ← pyGet node "taken_at_timestamp" (jstr "")
    let sc2 ← pyGet node "shortcode" (jstr "")
    pure [[("id", jstr (pyStr pid ++ "_" ++ decStr idx)),
           ("shortcode", shortcode),
           ("caption", caption),
           ("image_url", image_url),
           ("likes_count", likes),
           ("comments_count", comments),
           ("timestamp", ts),
           ("permalink", jstr ("https://www.instagram.com/p/" ++ pyStr sc2 ++ "/")),
           ("media_type", jstr "carousel"),
           ("carousel_index", jnum (idx + 1)),
           ("carousel_total", jnum total)]]
  else pure []

/-- Monadic indexed expansion of the sidecar children. -/
def sidecarChildren (node : JVal) (total : Nat) :
    Nat → List JVal → Except PyErr (List PyDict)
  | _, [] => pure []
  | i, c :: rest => do
      let here ← sidecarChild node total i c
      let there ← sidecarChildren node total (i + 1) rest
      pure (here ++ there)

/-- One edge of the GraphQL shape (lines 218-256). -/
def edgePosts (edge : JVal) : Except PyErr (List PyDict) := do
  let node ← pyIndexKey edge "node"
  let tn ← pyGet node "__typename" jnull
  if pyEq tn (jstr "GraphSidecar") then
    let c1 ← pyGet node "edge_sidecar_to_children" (jobj [])
    let children ← pyGet c1 "edges" (jarr [])
    let childList ← pyIter children
    sidecarChildren node childList.length 0 childList
  else if pyEq tn (jstr "GraphImage") then
    let pid ← pyGet node "id" (jstr "")
    let shortcode ← pyGet node "shortcode" (jstr "")
    let caption ← captionChain node
    let image_url ← pyGet node "display_url" (jstr "")
    let likes ← countChain node "edge_liked_by"
    let comments ← countChain node "edge_media_to_comment"
    let ts ← pyGet node "taken_at_timestamp" (jstr "")
    let sc2 ← pyGet node "shortcode" (jstr "")
    pure [[("id", pid),
           ("shortcode", shortcode),
           ("caption", caption),
           ("image_url", image_url),
           ("likes_count", likes),
           ("comments_count", comments),
           ("timestamp", ts),
           ("permalink", jstr ("https://www.instagram.com/p/" ++ pyStr sc2 ++ "/")),
           ("media_type", jnum 1)]]
  else pure []

/-- The response-parsing block of `get_posts` (lines 153-256): turns a
decoded 200-response body into the normalized post list. -/
def parsePosts (data : JVal) (max_posts : Nat) : Except PyErr (List PyDict) := do
  let hasData ← pyIn "data" data
  let isList ←
    if hasData then do
      let d ← pyIndexKey data "data"
      pure (match d with | jarr _ => true | _ => false)
    else pure false
  if hasData ∧ isList then
    let d ← pyIndexKey data "data"
    let items ← pySliceList d max_posts
    concatMapM itemPosts items
  else
    let hasTimeline ←
      if hasData then do
        let d ← pyIndexKey data "data"
        pyIn "edge_owner_to_timeline_media" d
      else pure false
    if hasData ∧ hasTimeline then
      let d ← pyIndexKey data "data"
      let tl ← pyIndexKey d "edge_owner_to_timeline_media"
      let edgesV ← pyIndexKey tl "edges"
      let edges ← pySliceList edgesV max_posts
      concatMapM edgePosts edges
    else pure []

/-- Outcome of one `requests.get` against one endpoint. -/
inductive ReqOutcome where
  | timeout                                   -- requests.exceptions.Timeout
  | exc                                       -- any other exception during the call
  | resp (status : Nat) (body : Except PyErr JVal)  -- status plus `response.json()` result

/-- Environment of `get_posts`: the outcome for each
(attempt, username-variant, endpoint) triple. -/
def RapidEnv := Nat → Nat → Nat → ReqOutcome

/-- The body of the innermost `try` (lines 129-280) for one endpoint:
`.ok (some posts)` models `return posts`, `.ok none` models falling
through to the next endpoint, `.error e` models an exception reaching
the per-endpoint `except` handlers. -/
def perEndpointE (max_posts : Nat) (out : ReqOutcome) : Except PyErr (Option (List PyDict)) :=
  match out with
  | .timeout => .error .timeoutError
  | .exc => .error .otherError
  | .resp status body =>
      if status = 200 then do
        let data ← body
        let posts ← parsePosts data max_posts
        if posts.isEmpty then pure none else pure (some posts)
      else pure none   -- 403 / 429 / other statuses all continue to the next endpoint

/-- A concrete two-child carousel: an image child and a video child,
both of a recognized media type. -/
def c3children : List JVal :=
  [jobj [("media_type", jnum 1), ("display_url", jstr "https://cdn.example/one.jpg")],
   jobj [("media_type", jnum 2), ("display_url", jstr "https://cdn.example/two.jpg"),
         ("video_url", jstr "https://cdn.example/two.mp4")]]

/-- A concrete parent item carrying `c3children` as its carousel. -/
def c3parent : List (String × JVal) :=
  [("id", jstr "p1"), ("children", jobj [("data", jarr c3children)])]

/-- One endpoint with its `except Timeout` / `except Exception`
handlers applied: exceptions become "continue". -/
def perEndpoint (max_posts : Nat) (out : ReqOutcome) : Option (List PyDict) :=
  match perEndpointE max_posts out with
  | .ok r => r
  | .error _ => none

/-- Scan the (attempt, username-variant, endpoint) triples in loop
order and return the first endpoint's returned posts, if any. -/
def scanEndpoints (max_posts : Nat) (env : RapidEnv) :
    List (Nat × Nat × Nat) → Option (List PyDict)
  | [] => none
  | (a, u, e) :: rest =>
      match perEndpoint max_posts (env a u e) with
      | some posts => some posts
      | none => scanEndpoints max_posts env rest

/-- Loop order of `get_posts`: 2 attempts x 2 username variants x the
3 "reliable" endpoints. -/
def loopOrder : List (Nat × Nat × Nat) :=
  (List.range 2).flatMap fun a =>
    (List.range 2).flatMap fun u =>
      (List.range 3).map fun e => (a, u, e)

/-- `get_posts` with exception propagation made explicit: every
statement of the outer `try` either returns or is consumed by the
per-endpoint handlers, so the result is always `ok`; the outer
`except Exception` (lines 290-292) would map a propagated error to
`[]`. -/
def get_postsE (max_posts : Nat) (env : RapidEnv) : Except PyErr (List PyDict) :=
  .ok (match scanEndpoints max_posts env loopOrder with
       | some posts => posts
       | none => [])

/-- `InstagramRapidAPI.get_posts(username, max_posts)`. -/
def get_posts (max_posts : Nat) (env : RapidEnv) : List PyDict :=
  match get_postsE max_posts env with
  | .ok posts => posts
  | .error _ => []

end RapidAPI

namespace PublicAPI

/-!
Model of `InstagramPublicAPI.get_public_posts`
(src/instagram_public_api.py, lines 65-125).
-/

open Py Py.JVal

/-- Rendering of `datetime.fromtimestamp(...).isoformat()`: the string
depends on the machine's local timezone, so it is an environment
function; non-numeric arguments raise `TypeError` (booleans count as
integers in Python). -/
structure Clock where
  ofInt : Int → String
  ofFloat : String → String

/-- `datetime.fromtimestamp(v).isoformat()` on a JSON value. -/
def fromTs (clock : Clock) (v : JVal) : Except PyErr String :=
  match v with
  | jnum n => .ok (clock.ofInt n)
  | jbool b => .ok (clock.ofInt (if b then 1 else 0))
  | jfloat s => .ok (clock.ofFloat s)
  | _ => .error .typeError

/-- Environment: the one HTTP call plus the clock. -/
structure PubEnv where
  get : RapidAPI.ReqOutcome
  clock : Clock

/-- The shared tail of the loop body after the type-tag dispatch
(lines 97-116): skip when `image_url` is falsy, else build the post. -/
def keptPost (clock : Clock) (node : JVal) (image_url : JVal) :
    Except PyErr (List PyDict) :=
  if ¬ image_url.truthy then pure []   -- `if not image_url: continue`
  else do
    let cap1 ← pyGet node "edge_media_to_caption" (jobj [])
    let caption_edges ← pyGet cap1 "edges" (jarr [])
    let caption ←
      if caption_edges.truthy then do
        let c1 ← pyIndex0 caption_edges
        let c2 ← pyIndexKey c1 "node"
        pyIndexKey c2 "text"
      else pure (jstr "")
    let pid ← pyGet node "id" (jstr "")
    let shortcode ← pyGet node "shortcode" (jstr "")
    let likes ← RapidAPI.countChain node "edge_liked_by"
    let comments ← RapidAPI.countChain node "edge_media_to_comment"
    let tsv ← pyGet node "taken_at_timestamp" (jnum 0)
    let ts ← fromTs clock tsv
    let sc2 ← pyGet node "shortcode" (jstr "")
    let mt ← pyGet node "__typename" (jstr "")
    pure [[("id", pid),
           ("shortcode", shortcode),
           ("caption", caption),
           ("image_url", image_url),
           ("likes_count", likes),
           ("comments_count", comments),
           ("timestamp", jstr ts),
           ("permalink", jstr ("https://www.instagram.com/p/" ++ pyStr sc2 ++ "/")),
           ("media_type", mt)]]

/-- One timeline node (the loop body, lines 84-116): contributes zero
or one posts. -/
def nodePosts (clock : Clock) (post : JVal) : Except PyErr (List PyDict) := do
  let node ← pyIndexKey post "node"
  let tn1 ← pyGet node "__typename" jnull
  if pyEq tn1 (jstr "GraphImage") then do
    let u ← pyGet node "display_url" (jstr "")
    keptPost clock node u
  else do
    let tn2 ← pyGet node "__typename" jnull
    if pyEq tn2 (jstr "GraphVideo") then do
      let u ← pyGet node "display_url" (jstr "")
      keptPost clock node u
    else do
      let tn3 ← pyGet node "__typename" jnull
      if pyEq tn3 (jstr "GraphSidecar") then do
        let u ← pyGet node "display_url" (jstr "")
        keptPost clock node u
      else pure []   -- unrecognized type tag: continue

/-- The `try` body of `get_public_posts`. -/
def get_public_postsE (max_posts : Nat) (env : PubEnv) : Except PyErr (List PyDict) :=
  match env.get with
  | .timeout => .error .timeoutError
  | .exc => .error .otherError
  | .resp status body =>
      if status = 200 then do
        let data ← body
        let d1 ← pyIndexKey data "data"
        let user_data ← pyIndexKey d1 "user"
        let priv ← pyGet user_data "is_private" (jbool true)
        if priv.truthy then pure []
        else do
          let t1 ← pyGet user_data "edge_owner_to_timeline_media" (jobj [])
          let posts_data ← pyGet t1 "edges" (jarr [])
          let items ← pySliceList posts_data max_posts
          concatMapM (nodePosts env.clock) items
      else pure []

/-- `InstagramPublicAPI.get_public_posts`: the `except` handler maps
any exception to `[]`. -/
def get_public_posts (max_posts : Nat) (env : PubEnv) : List PyDict :=
  match get_public_postsE max_posts env with
  | .ok posts => posts
  | .error _ => []

end PublicAPI

namespace Scraper

/-!
Model of `InstagramScraper.get_public_posts`
(src/instagram_scraper.py, lines 105-199).  Its `except` clause prints
and then RE-RAISES, so this function propagates errors to its caller.
-/

open Py Py.JVal PublicAPI

/-- Outcome of `self.session.get(url)` returning an HTML page. -/
inductive TextOutcome where
  | exc (e : PyErr)                     -- the call itself raised
  | resp (status : Nat) (text : String)

/-- Environment: the profile-page fetch plus the clock. -/
structure ScrEnv where
  get : TextOutcome
  clock : Clock

/-- Caption with bracket access:
`node['edge_media_to_caption']['edges'][0]['node']['text'] if node['edge_media_to_caption']['edges'] else ''`. -/
def captionBracket (node : JVal) : Except PyErr JVal := do
  let c1 ← pyIndexKey node "edge_media_to_caption"
  let edges ← pyIndexKey c1 "edges"
  if edges.truthy then do
    let e0 ← pyIndex0 edges
    let en ← pyIndexKey e0 "node"
    pyIndexKey en "text"
  else pure (jstr "")

/-- `node[k]['count']`. -/
def countBracket (node : JVal) (k : String) : Except PyErr JVal := do
  let c ← pyIndexKey node k
  pyIndexKey c "count"

/-- Shared tail of the single-image / single-video branches
(lines 164-193). -/
def singleNodePost (clock : Clock) (node : JVal) : Except PyErr (List PyDict) := do
  let image_url ← pyIndexKey node "display_url"
  let pid ← pyIndexKey node "id"
  let shortcode ← pyIndexKey node "shortcode"
  let caption ← captionBracket node
  let likes ← countBracket node "edge_liked_by"
  let comments ← countBracket node "edge_media_to_comment"
  let tsv ← pyIndexKey node "taken_at_timestamp"
  let ts ← fromTs clock tsv
  let sc2 ← pyIndexKey node "shortcode"
  let tn ← pyIndexKey node "__typename"
  pure [[("id", pid),
         ("shortcode", shortcode),
         ("caption", caption),
         ("image_url", image_url),
         ("likes_count", likes),
         ("comments_count", comments),
         ("timestamp", jstr ts),
         ("permalink", jstr ("https://www.instagram.com/p/" ++ pyStr sc2 ++ "/")),
         ("media_type", tn)]]

/-- One sidecar child (lines 143-161). -/
def scraperChild (clock : Clock) (node : JVal) (total : Nat) (idx : Nat) (child_edge : JVal) :
    Except PyErr (List PyDict) := do
  let child_node ← pyGet child_edge "node" (jobj [])
  let tn ← pyGet child_node "__typename" jnull
  if pyEq tn (jstr "GraphImage") then do
    let pid ← pyIndexKey node "id"
    let shortcode ← pyIndexKey node "shortcode"
    let caption ← captionBracket node
    let image_url ← pyGet child_node "display_url" (jstr "")
    let likes ← countBracket node "edge_liked_by"
    let comments ← countBracket node "edge_media_to_comment"
    let tsv ← pyIndexKey node "taken_at_timestamp"
    let ts ← fromTs clock tsv
    let sc2 ← pyIndexKey node "shortcode"
    pure [[("id", jstr (pyStr pid ++ "_" ++ decStr idx)),
           ("shortcode", shortcode),
           ("caption", caption),
           ("image_url", image_url),
           ("likes_count", likes),
           ("comments_count", comments),
           ("timestamp", jstr ts),
           ("permalink", jstr ("https://www.instagram.com/p/" ++ pyStr sc2 ++ "/")),
           ("media_type", jstr "carousel"),
           ("carousel_index", jnum (idx + 1)),
           ("carousel_total", jnum total)]]
  else pure []

/-- Indexed expansion of the sidecar children. -/
def scraperChildren (clock : Clock) (node : JVal) (total : Nat) :
    Nat → List JVal → Except PyErr (List PyDict)
  | _, [] => pure []
  | i, c :: rest => do
      let here ← scraperChild clock node total i c
      let there ← scraperChildren clock node total (i + 1) rest
      pure (here ++ there)

/-- One timeline edge (lines 136-193). -/
def scraperNode (clock : Clock) (post : JVal) : Except PyErr (List PyDict) := do
  let node ← pyIndexKey post "node"
  let tn ← pyIndexKey node "__typename"
  if pyEq tn (jstr "GraphSidecar") then do
    let c1 ← pyGet node "edge_sidecar_to_children" (jobj [])
    let children ← pyGet c1 "edges" (jarr [])
    let childList ← pyIter children
    scraperChildren clock node childList.length 0 childList
  else do
    let tn2 ← pyIndexKey node "__typename"
    if pyEq tn2 (jstr "GraphImage") then singleNodePost clock node
    else do
      let tn3 ← pyIndexKey node "__typename"
      if pyEq tn3 (jstr "GraphVideo") then singleNodePost clock node
      else pure []

/-- The marker preceding the embedded JSON blob. -/
def sharedDataMarker : String := "window._sharedData = "

/-- `InstagramScraper.get_public_posts`: errors PROPAGATE (the handler
re-raises). -/
def get_public_posts (max_posts : Nat) (env : ScrEnv) : Except PyErr (List PyDict) :=
  match env.get with
  | .exc e => .error e
  | .resp status text =>
      if 400 ≤ status ∧ status < 600 then .error .requestError  -- raise_for_status()
      else do
        let content := text.data
        -- start = content.find(marker) + len(marker): a failed find gives -1,
        -- so start is never -1 and the `if start == -1` guard cannot fire
        let fidx := findSubFrom sharedDataMarker.data content 0
        let startIdx : Int := (match fidx with | some i => (i : Int) | none => -1) + 21
        let start : Nat := startIdx.toNat
        let eidx := findSubFrom ";</script>".data content start
        match eidx with
        | none => .error .otherError       -- raise Exception(...)
        | some endIdx => do
            let json_str := String.mk ((content.take endIdx).drop start)
            let data ← jsonLoads json_str
            let e1 ← pyIndexKey data "entry_data"
            let e2 ← pyIndexKey e1 "ProfilePage"
            let e3 ← pyIndex0 e2
            let e4 ← pyIndexKey e3 "graphql"
            let e5 ← pyIndexKey e4 "user"
            let e6 ← pyIndexKey e5 "edge_owner_to_timeline_media"
            let posts_data ← pyIndexKey e6 "edges"
            let items ← pySliceList posts_data max_posts
            concatMapM (scraperNode env.clock) items

end Scraper

namespace UrlQ

/-!
Byte-level model of `enhance_image_url_quality`
(src/instagram_rapidapi.py lines 454-493; the identical
`InstagramNodeScraper._enhance_image_url_quality` is
src/instagram_node_scraper.py lines 278-317), together with the parts
of CPython's `urllib.parse` (3.11 semantics) that it calls: `urlparse`,
`parse_qs`, `urlencode(..., doseq=True)` with `quote_plus`, and
`urlunparse`.  Strings are byte lists (`Fin 256`), exact for the ASCII
URLs the transform manipulates.
-/

open Py

abbrev Byte := Fin 256

abbrev BStr := List Byte

/-- Bytes of an ASCII string literal. -/
def bytesOfAscii (s : String) : BStr :=
  s.data.map fun c => (⟨c.toNat % 256, Nat.mod_lt _ (by norm_num)⟩ : Byte)

/-- Byte from an arbitrary natural (reduced mod 256). -/
def mkByte (k : Nat) : Byte := ⟨k % 256, Nat.mod_lt _ (by norm_num)⟩

def isUpperB (b : Byte) : Bool := 65 ≤ b.val && b.val ≤ 90

def isLowerB (b : Byte) : Bool := 97 ≤ b.val && b.val ≤ 122

def isAlphaB (b : Byte) : Bool := isUpperB b || isLowerB b

def isDigitB (b : Byte) : Bool := 48 ≤ b.val && b.val ≤ 57

/-- ASCII lowercasing (`str.lower` on scheme bytes). -/
def lowerByte (b : Byte) : Byte :=
  if h : (65 ≤ b.val && b.val ≤ 90) = true then
    ⟨b.val + 32, by simp at h; omega⟩
  else b

/-- `scheme_chars`: letters, digits and `+`, `-`, `.`. -/
def isSchemeChar (b : Byte) : Bool :=
  isAlphaB b || isDigitB b || b = 43 || b = 45 || b = 46

/-- CPython removes `\t`, `\r`, `\n` from the url before splitting. -/
def cleanUrl (s : BStr) : BStr :=
  s.filter fun b => ¬ (b = 9 ∨ b = 10 ∨ b = 13)

/-- Split at the first occurrence of byte `d` (delimiter removed). -/
def splitFirstB (d : Byte) : BStr → Option (BStr × BStr)
  | [] => none
  | c :: rest =>
      if c = d then some ([], rest)
      else (splitFirstB d rest).map fun p => (c :: p.1, p.2)

/-- Split at the last occurrence of byte `d` (delimiter removed). -/
def lastSplitB (d : Byte) : BStr → Option (BStr × BStr)
  | [] => none
  | c :: rest =>
      match lastSplitB d rest with
      | some p => some (c :: p.1, p.2)
      | none => if c = d then some ([], rest) else none

/-- The six components `urlparse` produces. -/
structure UrlParts where
  scheme : BStr
  netloc : BStr
  path : BStr
  params : BStr
  query : BStr
  fragment : BStr

/-- Scheme extraction: first `:` with a nonempty all-`scheme_chars`
prefix starting with an ASCII letter; the scheme is lowercased. -/
def schemeSplit (url : BStr) : BStr × BStr :=
  match splitFirstB 58 url with
  | none => ([], url)
  | some (pre, post) =>
      match pre with
      | [] => ([], url)
      | h :: t =>
          if isAlphaB h && t.all isSchemeChar then ((h :: t).map lowerByte, post)
          else ([], url)

/-- `_splitparams`: split params off the last path segment. -/
def splitParams (u : BStr) : BStr × BStr :=
  match lastSplitB 47 u with
  | some (before, lastSeg) =>
      match splitFirstB 59 lastSeg with
      | none => (u, [])
      | some (a, b) => (before ++ [(47 : Byte)] ++ a, b)
  | none =>
      match splitFirstB 59 u with
      | none => (u, [])
      | some (a, b) => (a, b)

/-- Is `b` one of the netloc delimiters `/`, `?`, `#`? -/
def isNetlocDelim (b : Byte) : Bool := b = 47 || b = 63 || b = 35

/-- The params step of `urlparse`: split params off `u4` only when a
`;` is present. -/
def resplit (u4 : BStr) : BStr × BStr :=
  if 59 ∈ u4 then splitParams u4 else (u4, [])

/-- The tail of `urlparse` after the scheme and netloc extraction:
the IPv6 bracket check, then the fragment, query and params splits. -/
def parseRest (scheme netloc u2 : BStr) : Except Unit UrlParts :=
  if (91 ∈ netloc) ≠ (93 ∈ netloc) then .error ()   -- "Invalid IPv6 URL"
  else
    let (u3, fragment) :=
      match splitFirstB 35 u2 with
      | some p => p
      | none => (u2, [])
    let (u4, query) :=
      match splitFirstB 63 u3 with
      | some p => p
      | none => (u3, [])
    let (path, params) := resplit u4
    .ok ⟨scheme, netloc, path, params, query, fragment⟩

/-- CPython 3.11 `urlparse` (scheme, then `//netloc`, then fragment,
then query, then params); raises `ValueError` on an unbalanced-bracket
netloc. -/
def urlparseE (url0 : BStr) : Except Unit UrlParts :=
  let url1 := cleanUrl url0
  let (scheme, u1) := schemeSplit url1
  let (netloc, u2) :=
    if leadsWith [(47 : Byte), 47] u1 then
      let t := u1.drop 2
      let nl := t.takeWhile fun b => ¬ isNetlocDelim b
      (nl, t.drop nl.length)
    else ([], u1)
  parseRest scheme netloc u2

/-- Rejoin path and params (`urlunparse` first step). -/
def joinParams (path params : BStr) : BStr :=
  if params.isEmpty then path else path ++ [(59 : Byte)] ++ params

/-- CPython `urlunsplit`. -/
def urlunsplit (scheme netloc u0 query fragment : BStr) : BStr :=
  let u1 :=
    if ¬ netloc.isEmpty ∨ (¬ u0.isEmpty ∧ leadsWith [(47 : Byte), 47] u0) then
      let u := if ¬ u0.isEmpty ∧ ¬ leadsWith [(47 : Byte)] u0 then (47 : Byte) :: u0 else u0
      [(47 : Byte), 47] ++ netloc ++ u
    else u0
  let u2 := if scheme.isEmpty then u1 else scheme ++ [(58 : Byte)] ++ u1
  let u3 := if query.isEmpty then u2 else u2 ++ [(63 : Byte)] ++ query
  if fragment.isEmpty then u3 else u3 ++ [(35 : Byte)] ++ fragment

/-- `urlunparse` on parts with a replacement query. -/
def urlunparseQ (p : UrlParts) (newQuery : BStr) : BStr :=
  urlunsplit p.scheme p.netloc (joinParams p.path p.params) newQuery p.fragment

/-- `quote_plus` safe bytes: letters, digits, `_`, `.`, `-`, `~`. -/
def isSafeByte (b : Byte) : Bool :=
  isAlphaB b || isDigitB b || b = 95 || b = 46 || b = 45 || b = 126

/-- The bytes `quote_plus` can emit: safe bytes, `+`, `%`, and hex
digits. -/
def qByteOk (b : Byte) : Bool :=
  isSafeByte b || b = 43 || b = 37 || isDigitB b || (65 ≤ b.val && b.val ≤ 70)

/-- The bytes an `urlencode(..., doseq=True)` result can contain:
`quote_plus` output plus the separators `&` and `=`. -/
def queryByteOk (b : Byte) : Bool :=
  qByteOk b || b = 38 || b = 61

/-- Uppercase hex digit of a value below 16. -/
def hexUC (n : Nat) : Byte :=
  if h : n < 10 then ⟨48 + n, by omega⟩ else ⟨55 + n % 16, by omega⟩

/-- Value of a hex digit byte. -/
def hexValB (b : Byte) : Option Nat :=
  if 48 ≤ b.val ∧ b.val ≤ 57 then some (b.val - 48)
  else if 65 ≤ b.val ∧ b.val ≤ 70 then some (b.val - 55)
  else if 97 ≤ b.val ∧ b.val ≤ 102 then some (b.val - 87)
  else none

/-- `quote_plus` with `safe=''` (as `urlencode` calls it). -/
def quotePlusB (s : BStr) : BStr :=
  s.flatMap fun b =>
    if isSafeByte b then [b]
    else if b = 32 then [(43 : Byte)]
    else [(37 : Byte), hexUC (b.val / 16), hexUC (b.val % 16)]

/-- The `+` to space step of `unquote_plus`. -/
def plusToSpace (s : BStr) : BStr :=
  s.map fun b => if b = 43 then (32 : Byte) else b

/-- Percent-decoding (`unquote`): a `%` followed by two hex digits
becomes the byte; anything else is literal. -/
def unquoteB : BStr → BStr
  | [] => []
  | c :: h1 :: h2 :: rest2 =>
      if c = 37 then
        match hexValB h1, hexValB h2 with
        | some a, some b2 => mkByte (a * 16 + b2) :: unquoteB rest2
        | _, _ => c :: unquoteB (h1 :: h2 :: rest2)
      else c :: unquoteB (h1 :: h2 :: rest2)
  | c :: rest => c :: unquoteB rest

/-- `unquote_plus` as `parse_qsl` applies it (`replace('+',' ')` then
`unquote`). -/
def decodeStr (s : BStr) : BStr := unquoteB (plusToSpace s)

/-- Python `s.split(sep)` on bytes: all pieces, in order. -/
def splitAllB (d : Byte) : BStr → List BStr
  | [] => [[]]
  | c :: rest =>
      let ps := splitAllB d rest
      if c = d then [] :: ps
      else
        match ps with
        | p :: ps2 => (c :: p) :: ps2
        | [] => [[c]]

/-- `sep.join(pieces)`. -/
def joinAllB (d : Byte) : List BStr → BStr
  | [] => []
  | [p] => p
  | p :: rest => p ++ [d] ++ joinAllB d rest

/-- `parse_qsl(qs)` with default arguments: split on `&`, drop empty
fields, fields without `=` and fields with an empty value, decode
names and values. -/
def parseQsl (qs : BStr) : List (BStr × BStr) :=
  (splitAllB 38 qs).filterMap fun nv =>
    if nv.isEmpty then none
    else
      match splitFirstB 61 nv with
      | none => none
      | some (n, v) => if v.isEmpty then none else some (decodeStr n, decodeStr v)

/-- Ordered-dict state of `parse_qs`: key order is first occurrence,
values accumulate in order. -/
def insertAppend (d : List (BStr × List BStr)) (k : BStr) (v : BStr) :
    List (BStr × List BStr) :=
  if (d.find? fun kv => kv.1 = k).isSome then
    d.map fun kv => if kv.1 = k then (kv.1, kv.2 ++ [v]) else kv
  else d ++ [(k, [v])]

/-- `parse_qs(qs)`. -/
def parseQs (qs : BStr) : List (BStr × List BStr) :=
  (parseQsl qs).foldl (fun d p => insertAppend d p.1 p.2) []

/-- Assoc lookup on the parse_qs dict. -/
def lookupQ (d : List (BStr × List BStr)) (k : BStr) : Option (List BStr) :=
  (d.find? fun kv => kv.1 = k).map (·.2)

/-- Assignment to an existing key (`query_params['stp'] = [v]`). -/
def setVal (d : List (BStr × List BStr)) (k : BStr) (vs : List BStr) :
    List (BStr × List BStr) :=
  d.map fun kv => if kv.1 = k then (kv.1, vs) else kv

/-- Python `s.replace(pat, rep)`: left-to-right, non-overlapping. -/
def replB (pat rep : BStr) : BStr → BStr
  | [] => []
  | c :: rest =>
      if h : pat ≠ [] ∧ leadsWith pat (c :: rest) = true then
        rep ++ replB pat rep ((c :: rest).drop pat.length)
      else c :: replB pat rep rest
  termination_by s => s.length
  decreasing_by
  · simp only [List.length_drop, List.length_cons]
    have : pat.length ≠ 0 := by
      intro hn
      exact h.1 (List.eq_nil_of_length_eq_zero hn)
    omega
  · simp

/-- `urlencode(query_params, doseq=True)` for list-of-strings values. -/
def urlencodeDoseq (d : List (BStr × List BStr)) : BStr :=
  joinAllB 38 (d.flatMap fun kv =>
    kv.2.map fun v => quotePlusB kv.1 ++ [(61 : Byte)] ++ quotePlusB v)

def scB : BStr := bytesOfAscii "scontent"

def igB : BStr := bytesOfAscii "instagram.com"

def e15B : BStr := bytesOfAscii "e15"

def e35B : BStr := bytesOfAscii "e35"

def djB : BStr := bytesOfAscii "dst-jpg"

def djE35B : BStr := bytesOfAscii "dst-jpg_e35"

def stpK : BStr := bytesOfAscii "stp"

def efgK : BStr := bytesOfAscii "efg"

def efgV : BStr := bytesOfAscii "eyJ2ZW5jb2RlX3RhZyI6IkNBUk9VU0VMX0lURU0uaW1hZ2VfdXJsZ2VuLjE0NDB4MTgwMC5zZHIuZjgyNzg3LmRlZmF1bHRfaW1hZ2UuYzIifQ"

/-- The `stp` rewriting (lines 467-477): `e15 -> e35`, else add
`_e35` to `dst-jpg` when no `e35` marker is present. -/
def stpTransform (v : BStr) : BStr :=
  if hasSubList e15B v then replB e15B e35B v
  else if hasSubList e35B v then v
  else replB djB djE35B v

/-- Query rewriting plus URL reassembly (lines 464-486), after a
successful parse. -/
def finishQuery (p : UrlParts) : BStr :=
  let qp := parseQs p.query
  let qp2 :=
    match lookupQ qp stpK with
    | some (v :: _) => setVal qp stpK [stpTransform v]
    | _ => qp
  let qp3 := if (lookupQ qp2 efgK).isSome then qp2 else qp2 ++ [(efgK, [efgV])]
  urlunparseQ p (urlencodeDoseq qp3)

/-- `enhance_image_url_quality(image_url)`: act only on URLs carrying
both provider markers; any parse failure returns the input unchanged
(the function never raises). -/
def enhance_image_url_quality (u : BStr) : BStr :=
  if ¬ (hasSubList scB u ∧ hasSubList igB u) then u
  else
    match urlparseE u with
    | .error _ => u
    | .ok p =>
        match lookupQ (parseQs p.query) stpK with
        | some [] => u   -- `['stp'][0]` would raise IndexError (unreachable: parse_qs values are nonempty)
        | _ => finishQuery p

end UrlQ

namespace NodeScraper

/-!
Model of `InstagramNodeScraper.scrape_user_posts`
(src/instagram_node_scraper.py, lines 21-276) and its URL-enhancing
post-processing.  The subprocess outcome is supplied by the
environment.  NOTE: the class defines no `_check_image_resolution`
method, so the brace-matching recovery path raises `AttributeError` as
soon as it iterates a non-empty post list; the outer `except
Exception` turns that into `[]`.
-/

open Py Py.JVal

/-- UTF-8 encoding of one character (glue between `String` posts and
the byte-level URL transform). -/
def utf8Char (c : Char) : List UrlQ.Byte :=
  let n := c.toNat
  if n < 0x80 then [UrlQ.mkByte n]
  else if n < 0x800 then [UrlQ.mkByte (0xc0 + n / 64), UrlQ.mkByte (0x80 + n % 64)]
  else if n < 0x10000 then
    [UrlQ.mkByte (0xe0 + n / 4096), UrlQ.mkByte (0x80 + (n / 64) % 64),
     UrlQ.mkByte (0x80 + n % 64)]
  else
    [UrlQ.mkByte (0xf0 + n / 262144), UrlQ.mkByte (0x80 + (n / 4096) % 64),
     UrlQ.mkByte (0x80 + (n / 64) % 64), UrlQ.mkByte (0x80 + n % 64)]

/-- UTF-8 encoding of a string. -/
def utf8Enc (s : String) : UrlQ.BStr := s.data.flatMap utf8Char

/-- Is `n` a unicode scalar value? -/
def validCp (n : Nat) : Bool := n < 0xd800 ∨ (0xe000 ≤ n ∧ n < 0x110000)

/-- Is `b` a UTF-8 continuation byte? -/
def isCont (b : UrlQ.Byte) : Bool := 0x80 ≤ b.val ∧ b.val < 0xc0

/-- UTF-8 decoding (strict). -/
def utf8Dec : UrlQ.BStr → Option (List Char)
  | [] => some []
  | b :: rest =>
      if b.val < 0x80 then (utf8Dec rest).map (Char.ofNat b.val :: ·)
      else if b.val < 0xe0 then
        match rest with
        | b2 :: rest2 =>
            if 0xc2 ≤ b.val ∧ isCont b2 then
              (utf8Dec rest2).map (Char.ofNat ((b.val - 0xc0) * 64 + (b2.val - 0x80)) :: ·)
            else none
        | _ => none
      else if b.val < 0xf0 then
        match rest with
        | b2 :: b3 :: rest2 =>
            let n := (b.val - 0xe0) * 4096 + (b2.val - 0x80) * 64 + (b3.val - 0x80)
            if isCont b2 ∧ isCont b3 ∧ n ≥ 0x800 ∧ validCp n then
              (utf8Dec rest2).map (Char.ofNat n :: ·)
            else none
        | _ => none
      else
        match rest with
        | b2 :: b3 :: b4 :: rest2 =>
            let n := (b.val - 0xf0) * 262144 + (b2.val - 0x80) * 4096 +
                     (b3.val - 0x80) * 64 + (b4.val - 0x80)
            if isCont b2 ∧ isCont b3 ∧ isCont b4 ∧ n ≥ 0x10000 ∧ n < 0x110000 then
              (utf8Dec rest2).map (Char.ofNat n :: ·)
            else none
        | _ => none

/-- `_enhance_image_url_quality` on a Lean string (byte transform plus
UTF-8 glue; the transform maps valid UTF-8 to valid UTF-8, so the
fallback arm is unreachable). -/
def enhanceUrlStr (s : String) : String :=
  match utf8Dec (UrlQ.enhance_image_url_quality (utf8Enc s)) with
  | some cs => String.mk cs
  | none => s

/-- The enhancer applied to a post value: on a non-string the first
`in` test raises `TypeError`, which the enhancer's own handler turns
into "return the input unchanged". -/
def enhanceVal (v : JVal) : JVal :=
  match v with
  | jstr s => jstr (enhanceUrlStr s)
  | _ => v

/-- `_enhance_image_urls(post)` (lines 319-332): on a non-dict the
subscript assignment (or the int `in`) raises and the handler returns
the post unchanged. -/
def enhanceImageUrls (post : JVal) : JVal :=
  match post with
  | jobj fields =>
      let f1 :=
        match lookupField fields "display_url" with
        | some v => insertField fields "display_url" (enhanceVal v)
        | none => fields
      let f2 :=
        match lookupField f1 "thumbnail_src" with
        | some v => insertField f1 "thumbnail_src" (enhanceVal v)
        | none => f1
      jobj f2
  | _ => post

/-- Outcome of `subprocess.run(['node', script], ...)`. -/
inductive SubprocOutcome where
  | timeout                                     -- subprocess.TimeoutExpired
  | raised                                      -- any other exception
  | completed (returncode : Int) (stdout : String)

/-- Environment of `scrape_user_posts`. -/
structure NodeEnv where
  scriptWriteOk : Bool         -- the temp-script write can raise OSError
  subproc : SubprocOutcome

/-- Balanced-brace scan (lines 209-218): absolute index of the brace
closing the object opened at the scan start, if any. -/
def braceScanAux : List Char → Nat → Int → Option Nat
  | [], _, _ => none
  | c :: rest, i, depth =>
      let depth2 := if c = '\x7b' then depth + 1
                    else if c = '\x7d' then depth - 1
                    else depth
      if c = '\x7d' ∧ depth2 = 0 then some i
      else braceScanAux rest (i + 1) depth2

/-- Python `line.strip()`. -/
def stripChars (l : List Char) : List Char :=
  ((l.dropWhile isPySpace).reverse.dropWhile isPySpace).reverse

/-- Does `l` end with `c`? -/
def endsWithChar (l : List Char) (c : Char) : Bool :=
  match l.reverse with
  | [] => false
  | d :: _ => d = c

/-- The line scan for a `'{'... 'method'` start line and a later
`...'}'` end line (lines 195-200); returns (json_start, json_end). -/
def lineScan : List (List Char) → Nat → Option Nat → Option Nat × Option Nat
  | [], _, js => (js, none)
  | l :: rest, i, js =>
      if leadsWith ['\x7b'] (stripChars l) ∧ hasSubList "method".data l then
        lineScan rest (i + 1) (some i)
      else if endsWithChar (stripChars l) '\x7d' ∧ js.isSome then
        (js, some i)                                   -- break
      else lineScan rest (i + 1) js

/-- `'\n'.join(lines[a:b+1])`. -/
def joinLines : List (List Char) → List Char
  | [] => []
  | [l] => l
  | l :: rest => l ++ '\n' :: joinLines rest

/-- The parsing of `result.stdout` (lines 188-269), with exceptions
explicit; every handler in the source returns `[]`. -/
def parseStdoutE (stdout : String) : Except PyErr (List JVal) := do
  let lines := splitOnChar '\n' stdout.data
  let (jsOpt, jeOpt) := lineScan lines 0 none
  match jsOpt with
  | none =>
      let full := stdout.data
      (match findSubFrom ['\x7b'] full 0 with
       | none => pure []    -- falls through to "Could not find valid JSON output"
       | some si =>
           let ei := (braceScanAux (full.drop si) si 0).getD si
           if ei > si then do
             let json_text := String.mk ((full.take (ei + 1)).drop si)
             match jsonLoads json_text with
             | .error _ => pure []          -- except json.JSONDecodeError: return []
             | .ok scraped => do
                 let postsV ← pyGet scraped "posts" (jarr [])
                 let posts ← pyIter postsV
                 match posts with
                 | [] => pure []            -- empty loop: filtered_posts = []
                 | _ :: _ =>
                     -- self._check_image_resolution does not exist:
                     -- the first iteration raises AttributeError
                     .error .attrError
           else pure [])
  | some js =>
      match jeOpt with
      | some je => do
          let json_text := String.mk (stripChars (joinLines ((lines.take (je + 1)).drop js)))
          match jsonLoads json_text with
          | .error _ => pure []             -- except json.JSONDecodeError: return []
          | .ok scraped => do
              let postsV ← pyGet scraped "posts" (jarr [])
              let posts ← pyIter postsV
              pure (posts.map enhanceImageUrls)
      | none => pure []                     -- "Could not find valid JSON output"

/-- `scrape_user_posts`: the outer handlers map a timeout or any other
exception to `[]`. -/
def scrape_user_posts (env : NodeEnv) : List JVal :=
  if ¬ env.scriptWriteOk then []
  else
    match env.subproc with
    | .timeout => []
    | .raised => []
    | .completed rc stdout =>
        if rc ≠ 0 then []
        else
          match parseStdoutE stdout with
          | .ok posts => posts
          | .error _ => []

end NodeScraper

namespace WebApp

/-!
Model of `scrape_instagram_alternative` (src/web_app.py lines
247-405), `discover_instagram_account` (lines 201-245) and the
strategy loop of `fetch_images` (lines 485-770).  The three regex
extractions are implemented with the exact backtracking semantics the
concrete patterns have.
-/

open Py Py.JVal

/-- `re.findall(r'<open>(.*?)</close>', text, re.DOTALL)` for literal
delimiters: lazy capture up to the first close tag. -/
def findAllDelim (openT closeT : List Char) : Nat → List Char → List (List Char)
  | 0, _ => []
  | fuel + 1, cs =>
      match findSubFrom openT cs 0 with
      | none => []
      | some i =>
          let after := cs.drop (i + openT.length)
          match findSubFrom closeT after 0 with
          | none => []
          | some j =>
              after.take j :: findAllDelim openT closeT fuel (after.drop (j + closeT.length))

/-- `re.findall(r'<lit>([^"]+)"', text)`: nonempty capture up to the
next quote, which must exist. -/
def metaScan (lit : List Char) : Nat → List Char → List (List Char)
  | 0, _ => []
  | fuel + 1, cs =>
      match findSubFrom lit cs 0 with
      | none => []
      | some i =>
          let after := cs.drop (i + lit.length)
          let cap := after.takeWhile (· ≠ '"')
          if cap.isEmpty then metaScan lit fuel (cs.drop (i + 1))
          else if (after.drop cap.length).isEmpty then []
          else cap :: metaScan lit fuel (cs.drop (i + lit.length + cap.length + 1))

/-- The backtracking attempt of `<img[^>]+src="([^"]+)"[^>]*>` right
after a literal `<img`: `[^>]+` greedy (longest first).  Returns the
capture and the number of bytes the whole match consumes after
`<img`. -/
def imgTryA (rest : List Char) : Nat → Option (List Char × Nat)
  | 0 => none
  | al + 1 =>
      let afterA := rest.drop (al + 1)
      if leadsWith ['s', 'r', 'c', '=', '"'] afterA then
        let afterSrc := afterA.drop 5
        let cap := afterSrc.takeWhile (· ≠ '"')
        if ¬ cap.isEmpty ∧ leadsWith ['"'] (afterSrc.drop cap.length) then
          let afterQ := afterSrc.drop (cap.length + 1)
          let cRun := afterQ.takeWhile (· ≠ '>')
          if leadsWith ['>'] (afterQ.drop cRun.length) then
            some (cap, al + 1 + 5 + cap.length + 1 + cRun.length + 1)
          else imgTryA rest al
        else imgTryA rest al
      else imgTryA rest al

/-- `re.findall(r'<img[^>]+src="([^"]+)"[^>]*>', text)`. -/
def imgScan : Nat → List Char → List (List Char)
  | 0, _ => []
  | fuel + 1, cs =>
      match findSubFrom ['<', 'i', 'm', 'g'] cs 0 with
      | none => []
      | some i =>
          let rest := cs.drop (i + 4)
          let run := rest.takeWhile (· ≠ '>')
          match imgTryA rest run.length with
          | some (cap, consumed) => cap :: imgScan fuel (rest.drop consumed)
          | none => imgScan fuel (cs.drop (i + 1))

/-- One timeline edge of method 1 (the public web-profile API, lines
272-286): `none` = skipped, errors reach method 1's handler. -/
def m1Post (username : String) (i : Nat) (post_edge : JVal) :
    Except PyErr (Option PyDict) := do
  let post ← pyGet post_edge "node" (jobj [])
  let tn ← pyGet post "__typename" jnull
  if pyEq tn (jstr "GraphImage") then
    let display_url ← pyGet post "display_url" (jstr "")
    if display_url.truthy then do
      let pid ← pyGet post "id" (jstr (username ++ "_api_" ++ decStr i))
      let sc ← pyGet post "shortcode" (jstr (username ++ "_api_" ++ decStr i))
      let d1 ← pyGet post "edge_media_to_caption" (jobj [])
      let d2 ← pyGet d1 "edges" (jarr [jobj []])
      let d3 ← pyIndex0 d2
      let d4 ← pyGet d3 "node" (jobj [])
      let desc ← pyGet d4 "text" (jstr "")
      let l1 ← pyGet post "edge_media_preview_like" (jobj [])
      let likes ← pyGet l1 "count" (jnum 0)
      let c1 ← pyGet post "edge_media_to_comment" (jobj [])
      let comments ← pyGet c1 "count" (jnum 0)
      pure (some [("id", pid),
                  ("shortcode", sc),
                  ("display_url", display_url),
                  ("thumbnail_src", display_url),
                  ("description", desc),
                  ("likes", likes),
                  ("comments", comments),
                  ("owner", jstr username)])
    else pure none
  else pure none

/-- The method-1 post loop: appends survive an exception (the shared
`posts` list is mutated in place). -/
def m1Loop (username : String) : Nat → List JVal → List PyDict →
    List PyDict × Option PyErr
  | _, [], acc => (acc, none)
  | i, e :: rest, acc =>
      match m1Post username i e with
      | .error err => (acc, some err)
      | .ok none => m1Loop username (i + 1) rest acc
      | .ok (some p) => m1Loop username (i + 1) rest (acc ++ [p])

/-- Method 1 (lines 251-296): result plus whether it returned. -/
def method1 (username : String) (out : RapidAPI.ReqOutcome) : List PyDict × Bool :=
  match out with
  | .timeout => ([], false)
  | .exc => ([], false)
  | .resp status body =>
      if status = 200 then
        match (do
            let data ← body
            let d1 ← pyGet data "data" (jobj [])
            pyGet d1 "user" (jobj [])) with
        | .error _ => ([], false)
        | .ok user_data =>
            match pyGet user_data "is_private" (jbool true) with
            | .error _ => ([], false)
            | .ok priv =>
                if ¬ priv.truthy then
                  match (do
                      let t ← pyGet user_data "edge_owner_to_timeline_media" (jobj [])
                      let edges ← pyGet t "edges" (jarr [])
                      pySliceList edges 25) with
                  | .error _ => ([], false)
                  | .ok sliced =>
                      match m1Loop username 0 sliced [] with
                      | (ps, some _) => (ps, false)  -- exception mid-loop: partial posts kept
                      | (ps, none) => (ps, true)     -- `return posts` (even when empty)
                else ([], false)   -- private account: fall through to the next method
      else ([], false)

def jsonLdOpen : String := "<script type=\"application/ld+json\">"

def metaLit : String := "<meta property=\"og:image\" content=\""

/-- One JSON-LD block (lines 327-344): `json.JSONDecodeError` is the
only exception this loop can raise, and it is caught with `continue`. -/
def jsonLdPost (username : String) (acc : List PyDict) (json_str : List Char) :
    List PyDict :=
  match jsonLoads (String.mk json_str) with
  | .error _ => acc
  | .ok data =>
      match data with
      | jobj fields =>
          if (lookupField fields "image").isSome then
            match lookupField fields "image" with
            | some (jstr image_url) =>
                if leadsWith "http".data image_url.data then
                  acc ++ [[("id", jstr (username ++ "_jsonld_" ++ decStr acc.length)),
                           ("shortcode", jstr (username ++ "_jsonld_" ++ decStr acc.length)),
                           ("display_url", jstr image_url),
                           ("thumbnail_src", jstr image_url),
                           ("description", dget fields "description" (jstr "")),
                           ("likes", jnum 0),
                           ("comments", jnum 0),
                           ("owner", jstr username)]]
                else acc
            | _ => acc
          else acc
      | _ => acc

/-- One `og:image` capture (lines 350-361): the dedup list
comprehension uses bracket access, so a post without `display_url`
raises `KeyError`. -/
def metaPost (username : String) (acc : List PyDict) (image_url : List Char) :
    Except PyErr (List PyDict) := do
  let durls ← acc.mapM fun p =>
    match lookupField p "display_url" with
    | some v => Except.ok v
    | none => Except.error PyErr.keyError
  if durls.any (fun v => pyEq (jstr (String.mk image_url)) v) then pure acc
  else
    pure (acc ++ [[("id", jstr (username ++ "_meta_" ++ decStr acc.length)),
                   ("shortcode", jstr (username ++ "_meta_" ++ decStr acc.length)),
                   ("display_url", jstr (String.mk image_url)),
                   ("thumbnail_src", jstr (String.mk image_url)),
                   ("description", jstr ""),
                   ("likes", jnum 0),
                   ("comments", jnum 0),
                   ("owner", jstr username)]])

/-- Fold of the meta captures, stopping at the first exception
(partial appends survive). -/
def metaFold (username : String) : List (List Char) → List PyDict →
    List PyDict × Option PyErr
  | [], acc => (acc, none)
  | m :: rest, acc =>
      match metaPost username acc m with
      | .error e => (acc, some e)
      | .ok acc2 => metaFold username rest acc2

/-- Method 2, HTML scraping (lines 298-368). -/
def method2 (username : String) (out : Scraper.TextOutcome) (posts0 : List PyDict) :
    List PyDict × Bool :=
  match out with
  | .exc _ => (posts0, false)
  | .resp status text =>
      if 400 ≤ status ∧ status < 600 then (posts0, false)   -- raise_for_status()
      else
        let spans := findAllDelim jsonLdOpen.data "</script>".data (text.length + 1) text.data
        let posts1 := spans.foldl (jsonLdPost username) posts0
        let metas := metaScan metaLit.data (text.length + 1) text.data
        match metaFold username metas posts1 with
        | (ps, some _) => (ps, false)       -- exception: fall to method 3 with partial posts
        | (ps, none) => if ¬ ps.isEmpty then (ps.take 25, true) else (ps, false)

/-- One embed image capture (lines 387-396); posts from this method
carry `image_url` but no `display_url`/`thumbnail_src`. -/
def embedPost (username : String) (acc : List PyDict) (img_url : List Char) :
    List PyDict :=
  let s := String.mk img_url
  if strHasSub "instagram" s ∧
      ¬ acc.any (fun p => pyEq (jstr s) (dget p "image_url" (jstr ""))) then
    acc ++ [[("id", jstr (username ++ "_embed_" ++ decStr acc.length)),
             ("image_url", jstr s),
             ("caption", jstr ("Embedded image from @" ++ username)),
             ("likes", jnum 0),
             ("comments", jnum 0),
             ("owner", jstr username)]]
  else acc

/-- Method 3, the embed endpoint (lines 370-403). -/
def method3 (username : String) (out : Scraper.TextOutcome) (posts0 : List PyDict) :
    List PyDict × Bool :=
  match out with
  | .exc _ => (posts0, false)
  | .resp status text =>
      if status = 200 then
        let imgs := imgScan (text.length + 1) text.data
        let posts1 := imgs.foldl (embedPost username) posts0
        if ¬ posts1.isEmpty then (posts1.take 15, true) else (posts1, false)
      else (posts0, false)

/-- Environment of `scrape_instagram_alternative`: the three HTTP
calls. -/
structure AltEnv where
  m1 : RapidAPI.ReqOutcome
  m2 : Scraper.TextOutcome
  m3 : Scraper.TextOutcome

/-- `scrape_instagram_alternative(username)`: methods share one
`posts` list; the first method that returns wins, otherwise the final
`return posts` yields whatever accumulated. -/
def scrape_instagram_alternative (username : String) (env : AltEnv) : List PyDict :=
  let (p1, h1) := method1 username env.m1
  if h1 then p1
  else
    let (p2, h2) := method2 username env.m2 p1
    if h2 then p2
    else
      let (p3, h3) := method3 username env.m3 p2
      if h3 then p3 else p3

/-- Environment of `discover_instagram_account`. -/
structure DiscEnv where
  get : Scraper.TextOutcome
  nowIso : String              -- datetime.now().isoformat()

/-- `discover_instagram_account(username)` (lines 201-245): a
reachable profile page yields one sentinel post with empty
`image_url`. -/
def discover_instagram_account (username : String) (env : DiscEnv) : List PyDict :=
  match env.get with
  | .exc _ => []
  | .resp status _ =>
      if status = 200 then
        [[("id", jstr (username ++ "_manual_discovery")),
          ("shortcode", jstr (username ++ "_manual")),
          ("caption", jstr ("Manual upload option for @" ++ username)),
          ("image_url", jstr ""),
          ("likes_count", jnum 0),
          ("comments_count", jnum 0),
          ("timestamp", jstr env.nowIso),
          ("permalink", jstr ("https://www.instagram.com/" ++ username ++ "/")),
          ("media_type", jstr "manual_upload"),
          ("content_type", jstr "manual"),
          ("is_manual", jbool true),
          ("profile_url", jstr ("https://www.instagram.com/" ++ username ++ "/")),
          ("username", jstr username)]]
      else []

/-- Environment of the `fetch_images` strategy loop: each strategy's
outcome (`.error` = the lambda raised, caught by the per-method
handler) and the success predicate of
`process_image_with_upscaling`. -/
structure FetchEnv where
  rapidapiAvailable : Bool
  rapidapiContent : Except PyErr (List (String × List PyDict))
  nodejsPosts : Except PyErr (List JVal)
  altPosts : Except PyErr (List PyDict)
  manualPosts : Except PyErr (List PyDict)
  processOk : JVal → Bool

/-- What `fetch_images` returns (the fields the claims are about). -/
structure FetchResult where
  success : Bool
  method : Option String
  images : List JVal

/-- Image processing of the `rapidapi_enhanced` branch (lines
556-620): the processed `image_url` values, in order. -/
def rapidImages (processOk : JVal → Bool) (content : List (String × List PyDict)) :
    List JVal :=
  content.flatMap fun kv => kv.2.filterMap fun post =>
    let iu := pyOr (dget post "image_url" (jstr "")) (dget post "display_url" (jstr ""))
    if iu.truthy ∧ processOk iu then some iu else none

/-- Image processing of the `nodejs_scraper` / `alternative_scraper`
branch (lines 658-685); the per-post `try` eats any error. -/
def scraperImages (processOk : JVal → Bool) (posts : List JVal) : List JVal :=
  posts.filterMap fun post =>
    match pyGet post "display_url" jnull with
    | .error _ => none
    | .ok du =>
        match (if du.truthy then Except.ok du else pyGet post "thumbnail_src" (jstr "")) with
        | .error _ => none
        | .ok iu => if iu.truthy ∧ processOk iu then some iu else none

/-- The tail of the strategy loop starting at `manual_discovery`. -/
def fromManual (env : FetchEnv) : FetchResult :=
  match env.manualPosts with
  | .ok ps => if ¬ ps.isEmpty then ⟨true, some "manual_discovery", []⟩
              else ⟨false, none, []⟩
  | .error _ => ⟨false, none, []⟩

/-- The tail of the strategy loop starting at `alternative_scraper`. -/
def fromAlt (env : FetchEnv) : FetchResult :=
  match env.altPosts with
  | .ok ps => if ¬ ps.isEmpty then
                ⟨true, some "alternative_scraper", scraperImages env.processOk (ps.map jobj)⟩
              else fromManual env
  | .error _ => fromManual env

/-- The tail of the strategy loop starting at `nodejs_scraper`. -/
def fromNodejs (env : FetchEnv) : FetchResult :=
  match env.nodejsPosts with
  | .ok ps => if ¬ ps.isEmpty then
                ⟨true, some "nodejs_scraper", scraperImages env.processOk ps⟩
              else fromAlt env
  | .error _ => fromAlt env

/-- The strategy loop of `fetch_images` (lines 514-770). -/
def fetch_images (env : FetchEnv) : FetchResult :=
  if env.rapidapiAvailable then
    match env.rapidapiContent with
    | .error _ => fromNodejs env
    | .ok content =>
        if ¬ content.isEmpty ∧ content.any (fun kv => ¬ kv.2.isEmpty) then
          let images := rapidImages env.processOk content
          if ¬ images.isEmpty then ⟨true, some "rapidapi_enhanced", images⟩
          else fromNodejs env
        else fromNodejs env
  else fromNodejs env

end WebApp

namespace Utils

/-- Three-attempt environment constructor (attempt 2's outcome repeats
beyond index 2, which the loop never reaches). -/
def mkEnv3 (o0 o1 o2 : GetOutcome) : Nat → GetOutcome
  | 0 => o0
  | 1 => o1
  | _ => o2

end Utils

namespace Batch

open Py

/-- The failure message the loop records for a run outcome, if the
outcome is a failure. -/
def failMsg (run : RunOutcome) : Option String :=
  match run with
  | .timeout => some "Timeout"
  | .raised => some "error"
  | .completed rc stderr =>
      if rc = 0 then none
      else some (match errorMsgOf stderr with
                 | .ok m => m
                 | .error _ => "list index out of range")

/-- The failed entry one account contributes, if any. -/
def failOfA (a : PyDict) (e : AcctEnv) : Option FailEntry :=
  let username := dget a "username" .jnull
  if ¬ username.truthy then none
  else (failMsg e.run).map fun msg =>
    ⟨username, dget a "full_name" (.jstr ""), msg⟩

/-- The successful entry one account contributes, if any. -/
def succOfA (a : PyDict) (e : AcctEnv) : Option SuccessEntry :=
  let username := dget a "username" .jnull
  if ¬ username.truthy then none
  else
    match e.run with
    | .completed rc _ =>
        if rc = 0 then
          some ⟨username, dget a "full_name" (.jstr ""),
                dget a "followers_count" (.jnum 0), e.imageCount⟩
        else none
    | _ => none

/-- Indexed variants. -/
def failOf (envs : Nat → AcctEnv) (p : Nat × PyDict) : Option FailEntry :=
  failOfA p.2 (envs p.1)

def succOf (envs : Nat → AcctEnv) (p : Nat × PyDict) : Option SuccessEntry :=
  succOfA p.2 (envs p.1)

end Batch

namespace PublicAPI

/-- A concrete environment for exercising `get_public_posts`: a 200
response whose single `GraphImage` node carries a `display_url`. -/
def c2env : PubEnv :=
  ⟨.resp 200 (.ok (.jobj [("data", .jobj [("user", .jobj
      [("is_private", .jbool false),
       ("edge_owner_to_timeline_media", .jobj [("edges", .jarr
         [.jobj [("node", .jobj [("__typename", .jstr "GraphImage"),
                                 ("display_url", .jstr "https://x/a.jpg")])]])])])])])),
   ⟨fun _ => "1970-01-01T00:00:00", fun _ => "1970-01-01T00:00:00"⟩⟩

end PublicAPI

/-! ## Theorems -/

namespace Py

theorem digitChar_toNat (d : Nat) (h : d < 10) :
    (Char.ofNat (48 + d)).toNat = 48 + d := by
  interval_cases d <;> decide

theorem undigits_append_digit (cs : List Char) (c : Char) :
    undigits (cs ++ [c]) = undigits cs * 10 + (c.toNat - 48) := by
  simp [undigits]

theorem undigits_decDigitsAux (fuel : Nat) :
    ∀ m, m < fuel → undigits (decDigitsAux fuel m) = m := by
  induction fuel with
  | zero => intro m h; omega
  | succ fuel ih =>
      intro m h
      by_cases hm : m = 0
      · simp [decDigitsAux, hm, undigits]
      · have hdiv : m / 10 < fuel := by omega
        simp only [decDigitsAux, hm, if_false, undigits_append_digit, ih _ hdiv]
        rw [digitChar_toNat _ (Nat.mod_lt m (by norm_num))]
        omega

theorem decStr_injective : Function.Injective decStr := by
  intro m n h
  have hm := undigits_decDigitsAux (m + 1) m (Nat.lt_succ_self m)
  have hn := undigits_decDigitsAux (n + 1) n (Nat.lt_succ_self n)
  by_cases h0 : m = 0 <;> by_cases h1 : n = 0
  · omega
  · exfalso
    simp only [decStr, h0, h1, if_true, if_false] at h
    have hd : (String.mk ['0']).data = (String.mk (decDigitsAux (n + 1) n)).data := by
      rw [show String.mk ['0'] = "0" from rfl, h]
    simp only [String.data] at hd
    have : undigits (decDigitsAux (n + 1) n) = undigits ['0'] := by rw [← hd]
    rw [hn] at this
    simp [undigits] at this
    omega
  · exfalso
    simp only [decStr, h0, h1, if_true, if_false] at h
    have hd : (String.mk (decDigitsAux (m + 1) m)).data = (String.mk ['0']).data := by
      rw [show String.mk ['0'] = "0" from rfl, h]
    simp only [String.data] at hd
    have : undigits (decDigitsAux (m + 1) m) = undigits ['0'] := by rw [hd]
    rw [hm] at this
    simp [undigits] at this
    omega
  · simp only [decStr, h0, h1, if_false] at h
    have hd := congrArg String.data h
    simp only [String.data] at hd
    rw [← hm, ← hn, hd]

end Py

namespace Batch

open Py

theorem processAccount_spec (a : PyDict) (e : AcctEnv) (st : BatchState) :
    (processAccount a e st).failedDownloads = st.failedDownloads ++ (failOfA a e).toList ∧
    (processAccount a e st).successfulDownloads =
      st.successfulDownloads ++ (succOfA a e).toList ∧
    (processAccount a e st).failedAccounts =
      st.failedAccounts + (failOfA a e).toList.length ∧
    (processAccount a e st).successfulAccounts =
      st.successfulAccounts + (succOfA a e).toList.length ∧
    (processAccount a e st).totalAccounts = st.totalAccounts := by
  by_cases hu : (dget a "username" JVal.jnull).truthy = true
  · cases hrun : e.run with
    | timeout => simp [processAccount, failOfA, succOfA, failMsg, hu, hrun]
    | raised => simp [processAccount, failOfA, succOfA, failMsg, hu, hrun]
    | completed rc stderr =>
        by_cases hrc : rc = 0
        · simp [processAccount, failOfA, succOfA, failMsg, hu, hrun, hrc]
        · cases hmsg : errorMsgOf stderr with
          | ok m =>
              simp [processAccount, failOfA, succOfA, failMsg, hu, hrun, hrc, hmsg]
          | error e2 =>
              simp [processAccount, failOfA, succOfA, failMsg, hu, hrun, hrc, hmsg]
  · simp [processAccount, failOfA, succOfA, hu]

theorem foldl_processAccount_spec (envs : Nat → AcctEnv) (l : List (Nat × PyDict)) :
    ∀ st : BatchState,
      (l.foldl (fun st p => processAccount p.2 (envs p.1) st) st).failedDownloads =
        st.failedDownloads ++ l.filterMap (failOf envs) ∧
      (l.foldl (fun st p => processAccount p.2 (envs p.1) st) st).successfulDownloads =
        st.successfulDownloads ++ l.filterMap (succOf envs) ∧
      (l.foldl (fun st p => processAccount p.2 (envs p.1) st) st).failedAccounts =
        st.failedAccounts + (l.filterMap (failOf envs)).length ∧
      (l.foldl (fun st p => processAccount p.2 (envs p.1) st) st).successfulAccounts =
        st.successfulAccounts + (l.filterMap (succOf envs)).length ∧
      (l.foldl (fun st p => processAccount p.2 (envs p.1) st) st).totalAccounts =
        st.totalAccounts := by
  induction l with
  | nil => intro st; simp
  | cons p rest ih =>
      intro st
      obtain ⟨h1, h2, h3, h4, h5⟩ := processAccount_spec p.2 (envs p.1) st
      obtain ⟨i1, i2, i3, i4, i5⟩ := ih (processAccount p.2 (envs p.1) st)
      refine ⟨?_, ?_, ?_, ?_, ?_⟩ <;>
        simp only [List.foldl_cons, List.filterMap_cons, i1, i2, i3, i4, i5,
          h1, h2, h3, h4, h5, failOf, succOf] <;>
        first
        | (cases failOfA p.2 (envs p.1) <;> simp <;> omega)
        | (cases succOfA p.2 (envs p.1) <;> simp <;> omega)

theorem download_from_accounts_spec (accounts : List PyDict) (envs : Nat → AcctEnv) :
    (download_from_accounts accounts envs).failedDownloads =
      accounts.enum.filterMap (failOf envs) ∧
    (download_from_accounts accounts envs).successfulDownloads =
      accounts.enum.filterMap (succOf envs) ∧
    (download_from_accounts accounts envs).failedAccounts =
      (accounts.enum.filterMap (failOf envs)).length ∧
    (download_from_accounts accounts envs).successfulAccounts =
      (accounts.enum.filterMap (succOf envs)).length ∧
    (download_from_accounts accounts envs).totalAccounts = accounts.length := by
  obtain ⟨h1, h2, h3, h4, _⟩ :=
    foldl_processAccount_spec envs accounts.enum ({} : BatchState)
  refine ⟨?_, ?_, ?_, ?_, rfl⟩ <;>
    simp [download_from_accounts, h1, h2, h3, h4]

end Batch

/-- C9: for every input account list, a per-account subprocess timeout
is recorded as a failed entry (`failed_downloads` gains the entry and
`failed_accounts` counts it) instead of crashing the run, accounts
with a successful subprocess are still processed into
`successful_downloads` regardless of position, and the final summary's
`total_accounts` equals the number of input accounts. -/
theorem batch_timeout_is_recorded_and_run_continues
    (accounts : List Py.PyDict) (envs : Nat → Batch.AcctEnv) (i : Nat) (a : Py.PyDict)
    (ha : accounts.get? i = some a)
    (hu : (Py.dget a "username" .jnull).truthy = true)
    (ht : (envs i).run = .timeout) :
    (Batch.download_from_accounts accounts envs).totalAccounts = accounts.length ∧
    (⟨Py.dget a "username" .jnull, Py.dget a "full_name" (.jstr ""), "Timeout"⟩ :
        Batch.FailEntry) ∈ (Batch.download_from_accounts accounts envs).failedDownloads ∧
    1 ≤ (Batch.download_from_accounts accounts envs).failedAccounts ∧
    (∀ j b rc se, accounts.get? j = some b →
      (Py.dget b "username" .jnull).truthy = true →
      (envs j).run = .completed rc se → rc = 0 →
      (⟨Py.dget b "username" .jnull, Py.dget b "full_name" (.jstr ""),
        Py.dget b "followers_count" (.jnum 0), (envs j).imageCount⟩ :
          Batch.SuccessEntry) ∈
        (Batch.download_from_accounts accounts envs).successfulDownloads) := by
  obtain ⟨h1, h2, h3, h4, h5⟩ := Batch.download_from_accounts_spec accounts envs
  refine ⟨h5, ?_, ?_, ?_⟩
  · rw [h1]
    refine List.mem_filterMap.mpr ⟨(i, a), List.mk_mem_enum_iff_get?.mpr ha, ?_⟩
    simp [Batch.failOf, Batch.failOfA, Batch.failMsg, hu, ht]
  · rw [h3]
    have : (⟨Py.dget a "username" .jnull, Py.dget a "full_name" (.jstr ""), "Timeout"⟩ :
        Batch.FailEntry) ∈ accounts.enum.filterMap (Batch.failOf envs) := by
      refine List.mem_filterMap.mpr ⟨(i, a), List.mk_mem_enum_iff_get?.mpr ha, ?_⟩
      simp [Batch.failOf, Batch.failOfA, Batch.failMsg, hu, ht]
    exact List.length_pos.mpr (List.ne_nil_of_mem this)
  · intro j b rc se hb hub hrun hrc
    rw [h2]
    refine List.mem_filterMap.mpr ⟨(j, b), List.mk_mem_enum_iff_get?.mpr hb, ?_⟩
    simp [Batch.succOf, Batch.succOfA, hub, hrun, hrc]

/-- Witness for C9: three accounts, the second times out, the first
and third exit 0; the summary counts all three accounts, records the
timeout failure, and both healthy accounts appear in the successes. -/
theorem batch_timeout_is_recorded_and_run_continues_witness :
    ∃ accounts envs,
      (Batch.download_from_accounts accounts envs).totalAccounts = 3 ∧
      (⟨.jstr "acct2", .jstr "", "Timeout"⟩ : Batch.FailEntry) ∈
        (Batch.download_from_accounts accounts envs).failedDownloads ∧
      (⟨.jstr "acct3", .jstr "", .jnum 0, 4⟩ : Batch.SuccessEntry) ∈
        (Batch.download_from_accounts accounts envs).successfulDownloads := by
  refine ⟨[[("username", .jstr "acct1")], [("username", .jstr "acct2")],
           [("username", .jstr "acct3")]],
          fun i => if i = 1 then ⟨.timeout, 0⟩ else ⟨.completed 0 "", 4⟩, ?_, ?_, ?_⟩
  · exact (batch_timeout_is_recorded_and_run_continues _ _ 1 [("username", .jstr "acct2")]
      (by rfl) (by decide) (by rfl)).1
  · exact (batch_timeout_is_recorded_and_run_continues _ _ 1 [("username", .jstr "acct2")]
      (by rfl) (by decide) (by rfl)).2.1
  · exact (batch_timeout_is_recorded_and_run_continues _ _ 1 [("username", .jstr "acct2")]
      (by rfl) (by decide) (by rfl)).2.2.2 2 [("username", .jstr "acct3")] 0 ""
      (by rfl) (by decide) (by rfl) (by rfl)

/-- C10: `download_image_with_retry` always returns a boolean and
never raises; HTTP 403, HTTP 404, a non-image Content-Type, and an
oversized Content-Length each return `False` immediately (later
attempts cannot change the result), while transport-level request
exceptions are retried and only after the third failed attempt does
the function return `False`. -/
theorem download_image_with_retry_spec :
    (∀ (r : Utils.HttpResp) o1 o2, r.status = 403 →
      Utils.download_image_with_retry (Utils.mkEnv3 (.resp r) o1 o2) = false) ∧
    (∀ (r : Utils.HttpResp) o1 o2, r.status = 404 →
      Utils.download_image_with_retry (Utils.mkEnv3 (.resp r) o1 o2) = false) ∧
    (∀ (r : Utils.HttpResp) o1 o2, r.status = 200 →
      Py.leadsWith "image/".data r.contentType.data = false →
      Utils.download_image_with_retry (Utils.mkEnv3 (.resp r) o1 o2) = false) ∧
    (∀ (r : Utils.HttpResp) o1 o2 cl n, r.status = 200 →
      Py.leadsWith "image/".data r.contentType.data = true →
      r.contentLength = some cl → Py.pyInt cl = .ok n → n > Utils.MAX_IMAGE_SIZE →
      Utils.download_image_with_retry (Utils.mkEnv3 (.resp r) o1 o2) = false) ∧
    (Utils.download_image_with_retry
        (Utils.mkEnv3 .raiseRequest .raiseRequest .raiseRequest) = false) ∧
    (∀ (r : Utils.HttpResp), r.status = 200 →
      Py.leadsWith "image/".data r.contentType.data = true →
      r.contentLength = none → r.write = .ok →
      Utils.download_image_with_retry
        (Utils.mkEnv3 .raiseRequest .raiseRequest (.resp r)) = true) := by
  refine ⟨?_, ?_, ?_, ?_, ?_, ?_⟩
  · intro r o1 o2 h
    simp [Utils.download_image_with_retry, Utils.retryLoop, Utils.mkEnv3,
      Utils.attemptStep, h]
  · intro r o1 o2 h
    simp [Utils.download_image_with_retry, Utils.retryLoop, Utils.mkEnv3,
      Utils.attemptStep, h]
  · intro r o1 o2 h hct
    simp [Utils.download_image_with_retry, Utils.retryLoop, Utils.mkEnv3,
      Utils.attemptStep, Utils.finishAttempt, h, hct]
  · intro r o1 o2 cl n h hct hcl hint hn
    have hclne : cl ≠ "" := by
      intro hceq
      rw [hceq] at hint
      simp [Py.pyInt, Py.parseDigits] at hint
    simp only [Utils.download_image_with_retry, Utils.retryLoop, Utils.mkEnv3,
      Utils.attemptStep, Utils.finishAttempt, h, hct, hcl, hint, hclne]
    simp
    omega
  · rfl
  · intro r h hct hcl hw
    simp [Utils.download_image_with_retry, Utils.retryLoop, Utils.mkEnv3,
      Utils.attemptStep, Utils.finishAttempt, h, hct, hcl, hw]

/-- Witness for C10: a concrete 403 response returns `False`
immediately, and a concrete oversized Content-Length returns `False`. -/
theorem download_image_with_retry_spec_witness :
    Utils.download_image_with_retry
      (Utils.mkEnv3 (.resp ⟨403, "image/jpeg", none, .ok⟩)
        (.resp ⟨200, "image/jpeg", none, .ok⟩) (.resp ⟨200, "image/jpeg", none, .ok⟩)) =
      false ∧
    Utils.download_image_with_retry
      (Utils.mkEnv3 (.resp ⟨200, "image/jpeg", some "99999999", .ok⟩)
        .raiseRequest .raiseRequest) = false := by
  constructor
  · exact download_image_with_retry_spec.1 ⟨403, "image/jpeg", none, .ok⟩ _ _ rfl
  · exact download_image_with_retry_spec.2.2.2.1 ⟨200, "image/jpeg", some "99999999", .ok⟩
      _ _ "99999999" 99999999 rfl (by decide) rfl (by rfl) (by decide)

namespace Py

theorem bindE_ok_iff {α β : Type} {a : Except PyErr α} {f : α → Except PyErr β} {l : β} :
    (a >>= f) = .ok l ↔ ∃ x, a = .ok x ∧ f x = .ok l := by
  cases a with
  | error e => simp [Bind.bind, Except.bind]
  | ok x => simp [Bind.bind, Except.bind]

theorem pureE_ok_iff {α : Type} {x l : α} :
    (pure x : Except PyErr α) = .ok l ↔ x = l := by
  simp [pure, Except.pure]

end Py

namespace PublicAPI

open Py Py.JVal

theorem keptPost_image_url (clock : Clock) (node image_url : JVal) (l : List PyDict)
    (h : keptPost clock node image_url = .ok l) :
    ∀ p ∈ l, (dget p "image_url" jnull).truthy = true := by
  unfold keptPost at h
  by_cases htr : image_url.truthy = true
  · rw [if_neg (by simp [htr])] at h
    simp only [bindE_ok_iff, pureE_ok_iff] at h
    obtain ⟨cap1, -, ces, -, h⟩ := h
    split at h
    · simp only [bindE_ok_iff, pureE_ok_iff] at h
      obtain ⟨c1, -, c2, -, cap, -, pid, -, sc, -, lk, -, cm, -, tsv, -, ts, -,
        sc2, -, mt, -, h⟩ := h
      subst h
      intro p hp
      simp only [List.mem_singleton] at hp
      subst hp
      simpa [dget, lookupField] using htr
    · simp only [bindE_ok_iff, pureE_ok_iff] at h
      obtain ⟨y, -, pid, -, sc, -, lk, -, cm, -, tsv, -, ts, -, sc2, -, mt, -, h⟩ := h
      subst h
      intro p hp
      simp only [List.mem_singleton] at hp
      subst hp
      simpa [dget, lookupField] using htr
  · rw [if_pos (by simp [htr])] at h
    simp only [pureE_ok_iff] at h
    subst h
    intro p hp
    cases hp

theorem nodePosts_image_url_truthy (clock : Clock) (post : JVal) (l : List PyDict)
    (h : nodePosts clock post = .ok l) :
    ∀ p ∈ l, (dget p "image_url" jnull).truthy = true := by
  unfold nodePosts at h
  simp only [bindE_ok_iff, pureE_ok_iff] at h
  obtain ⟨node, -, tn1, -, h⟩ := h
  split at h
  · simp only [bindE_ok_iff] at h
    obtain ⟨u, -, h⟩ := h
    exact keptPost_image_url clock node u l h
  · simp only [bindE_ok_iff, pureE_ok_iff] at h
    obtain ⟨tn2, -, h⟩ := h
    split at h
    · simp only [bindE_ok_iff] at h
      obtain ⟨u, -, h⟩ := h
      exact keptPost_image_url clock node u l h
    · simp only [bindE_ok_iff, pureE_ok_iff] at h
      obtain ⟨tn3, -, h⟩ := h
      split at h
      · simp only [bindE_ok_iff] at h
        obtain ⟨u, -, h⟩ := h
        exact keptPost_image_url clock node u l h
      · simp only [pureE_ok_iff] at h
        subst h
        intro p hp
        cases hp

theorem concatMapM_mem {f : JVal → Except PyErr (List PyDict)} {items : List JVal}
    {l : List PyDict} (h : concatMapM f items = .ok l) :
    ∀ p ∈ l, ∃ x ∈ items, ∃ lx, f x = .ok lx ∧ p ∈ lx := by
  induction items generalizing l with
  | nil =>
      simp only [concatMapM, pureE_ok_iff] at h
      subst h; intro p hp; cases hp
  | cons x rest ih =>
      simp only [concatMapM, bindE_ok_iff, pureE_ok_iff] at h
      obtain ⟨here, hhere, there, hthere, hl⟩ := h
      subst hl
      intro p hp
      rcases List.mem_append.mp hp with hp1 | hp2
      · exact ⟨x, List.mem_cons_self x rest, here, hhere, hp1⟩
      · obtain ⟨y, hy, ly, hly, hpy⟩ := ih hthere p hp2
        exact ⟨y, List.mem_cons_of_mem x hy, ly, hly, hpy⟩

end PublicAPI

/-- C2 counterexample: the rapidapi normalizer does NOT drop entries
without a resolvable media URL.  The payload
`{"data": [{"media_type": 1}]}` yields one Post whose `image_url` is
the empty string, and `get_posts` returns it. -/
theorem rapid_get_posts_emits_empty_media_url :
    (RapidAPI.get_posts 12
        (fun _ _ _ => .resp 200 (.ok
          (.jobj [("data", .jarr [.jobj [("media_type", .jnum 1)]])])))).length = 1 ∧
    Py.dget ((RapidAPI.get_posts 12
        (fun _ _ _ => .resp 200 (.ok
          (.jobj [("data", .jarr [.jobj [("media_type", .jnum 1)]])])))).headD [])
      "image_url" .jnull = .jstr "" := by
  constructor <;> rfl

/-- C2 amended: the dropping invariant holds for
`InstagramPublicAPI.get_public_posts` (every returned Post has a
truthy `image_url`; entries without one are skipped), but
`InstagramRapidAPI.get_posts` can emit Posts whose `image_url` is
empty (see the counterexample). -/
theorem public_api_posts_have_media_url (max_posts : Nat) (env : PublicAPI.PubEnv)
    (p : Py.PyDict) (hp : p ∈ PublicAPI.get_public_posts max_posts env) :
    (Py.dget p "image_url" .jnull).truthy = true := by
  revert hp
  unfold PublicAPI.get_public_posts
  cases hE : PublicAPI.get_public_postsE max_posts env with
  | error e => intro hp; cases hp
  | ok posts =>
      intro hp
      unfold PublicAPI.get_public_postsE at hE
      iterate 12 (all_goals try split at hE)
      all_goals try exact absurd hE (by simp)
      all_goals try (simp only [Py.pureE_ok_iff] at hE; subst hE; cases hp)
      all_goals simp only [Py.bindE_ok_iff, Py.pureE_ok_iff] at hE
      all_goals obtain ⟨data, -, d1, -, user_data, -, priv, -, hE⟩ := hE
      all_goals split at hE
      all_goals try (simp only [Py.pureE_ok_iff] at hE; subst hE; cases hp)
      all_goals simp only [Py.bindE_ok_iff] at hE
      all_goals obtain ⟨t1, -, pd, -, items, -, hE⟩ := hE
      all_goals obtain ⟨x, hx, lx, hlx, hplx⟩ := PublicAPI.concatMapM_mem hE p hp
      all_goals
        exact PublicAPI.nodePosts_image_url_truthy env.clock x lx hlx p hplx

/-- Witness for the amended C2 theorem: a concrete env whose single
GraphImage node yields one post with a truthy `image_url`. -/
theorem public_api_posts_have_media_url_witness :
    (Py.dget ((PublicAPI.get_public_posts 12 PublicAPI.c2env).headD [])
      "image_url" .jnull).truthy = true := by
  refine public_api_posts_have_media_url 12 PublicAPI.c2env _ ?_
  constructor

namespace Py

theorem pyGet_jobj (fs : List (String × JVal)) (k : String) (d : JVal) :
    pyGet (JVal.jobj fs) k d = .ok (dget fs k d) := by
  simp only [pyGet, dget]
  cases lookupField fs k <;> simp [Option.getD]

end Py

namespace RapidAPI

open Py Py.JVal

/-- A recognized carousel child: its `node` resolves to a dict whose
media tag is an image or video tag. -/
def Recognized (c : JVal) : Prop :=
  ∃ cfs, pyGet c "node" c = .ok (jobj cfs) ∧
    (isImageTag (dget cfs "media_type" (dget cfs "__typename" (jstr ""))) ||
     isVideoTag (dget cfs "media_type" (dget cfs "__typename" (jstr "")))) = true

theorem expandChild_eq (pf cfs : List (String × JVal)) (c : JVal) (N i : Nat)
    (hc : pyGet c "node" c = .ok (jobj cfs))
    (hrec : (isImageTag (dget cfs "media_type" (dget cfs "__typename" (jstr ""))) ||
             isVideoTag (dget cfs "media_type" (dget cfs "__typename" (jstr "")))) = true) :
    expandChild (jobj pf) N i c = .ok [childPost pf cfs N i] := by
  unfold expandChild childPost
  rw [hc]
  simp only [Bind.bind, Except.bind, pyGet_jobj, hrec, if_true]
  split <;> rfl

theorem childPost_carousel_index (pf cfs : List (String × JVal)) (N i : Nat) :
    dget (childPost pf cfs N i) "carousel_index" jnull = jnum (i + 1) := rfl

theorem childPost_carousel_total (pf cfs : List (String × JVal)) (N i : Nat) :
    dget (childPost pf cfs N i) "carousel_total" jnull = jnum N := rfl

theorem childPost_id (pf cfs : List (String × JVal)) (N i : Nat) :
    dget (childPost pf cfs N i) "id" jnull =
      jstr (pyStr (dget pf "id" (jstr "")) ++ "_" ++ decStr i) := rfl

theorem expandChildren_spec (pf : List (String × JVal)) (N : Nat) :
    ∀ (cs : List JVal) (i : Nat), (∀ c ∈ cs, Recognized c) →
    ∃ ps, expandChildren (jobj pf) N i cs = .ok ps ∧
      ps.length = cs.length ∧
      ∀ j (hj : j < ps.length),
        dget (ps.get ⟨j, hj⟩) "carousel_index" jnull = jnum (i + j + 1) ∧
        dget (ps.get ⟨j, hj⟩) "carousel_total" jnull = jnum N ∧
        dget (ps.get ⟨j, hj⟩) "id" jnull =
          jstr (pyStr (dget pf "id" (jstr "")) ++ "_" ++ decStr (i + j)) := by
  intro cs
  induction cs with
  | nil =>
      intro i h
      exact ⟨[], rfl, rfl, fun j hj => absurd hj (by simp)⟩
  | cons c rest ih =>
      intro i h
      obtain ⟨cfs, hc, hrec⟩ := h c (List.mem_cons_self _ _)
      obtain ⟨ps, hps, hlen, hfields⟩ :=
        ih (i + 1) (fun c hc => h c (List.mem_cons_of_mem _ hc))
      refine ⟨childPost pf cfs N i :: ps, ?_, ?_, ?_⟩
      · show expandChildren (jobj pf) N i (c :: rest) = _
        simp only [expandChildren, Bind.bind, Except.bind,
          expandChild_eq pf cfs c N i hc hrec, hps]
        rfl
      · simp [hlen]
      · intro j hj
        cases j with
        | zero =>
            refine ⟨?_, ?_, ?_⟩
            · show dget (childPost pf cfs N i) "carousel_index" jnull = _
              rw [childPost_carousel_index]
              norm_num
            · exact childPost_carousel_total pf cfs N i
            · show dget (childPost pf cfs N i) "id" jnull = _
              rw [childPost_id]
              norm_num
        | succ j' =>
            have hj' : j' < ps.length := by
              simpa using Nat.lt_of_succ_lt_succ hj
            obtain ⟨h1, h2, h3⟩ := hfields j' hj'
            refine ⟨?_, ?_, ?_⟩
            · show dget (ps.get ⟨j', hj'⟩) "carousel_index" jnull = _
              rw [h1]
              congr 1
              push_cast
              ring
            · exact h2
            · show dget (ps.get ⟨j', hj'⟩) "id" jnull = _
              rw [h3]
              congr 3
              omega

theorem append_decStr_inj (P : String) (a b : Nat)
    (h : P ++ decStr a = P ++ decStr b) : a = b := by
  apply decStr_injective
  have hd := congrArg String.data h
  simp only [String.data_append] at hd
  exact String.ext (List.append_cancel_left hd)

theorem itemPosts_carousel (pf : List (String × JVal)) (cs : List JVal)
    (hch : lookupField pf "children" = some (jobj [("data", jarr cs)]))
    (hrec : ∀ c ∈ cs, Recognized c) (hne : cs ≠ []) :
    ∃ ps, itemPosts (jobj pf) = .ok ps ∧ ps.length = cs.length ∧
      (∀ j (hj : j < ps.length),
        dget (ps.get ⟨j, hj⟩) "carousel_index" jnull = jnum (j + 1) ∧
        dget (ps.get ⟨j, hj⟩) "carousel_total" jnull = jnum cs.length ∧
        dget (ps.get ⟨j, hj⟩) "id" jnull =
          jstr (pyStr (dget pf "id" (jstr "")) ++ "_" ++ decStr j)) ∧
      ∀ j k (hj : j < ps.length) (hk : k < ps.length), j ≠ k →
        dget (ps.get ⟨j, hj⟩) "id" jnull ≠ dget (ps.get ⟨k, hk⟩) "id" jnull := by
  have hdg : ∀ d, dget pf "children" d = jobj [("data", jarr cs)] := by
    intro d
    unfold dget
    rw [hch]
    rfl
  obtain ⟨ps, hps, hlen, hfields⟩ := expandChildren_spec pf cs.length cs 0 hrec
  have hcs : cs.isEmpty = false := by
    cases cs with
    | nil => exact absurd rfl hne
    | cons a l => rfl
  have hlen2 : cs.length = ps.length := hlen.symm
  refine ⟨ps, ?_, hlen, ?_, ?_⟩
  · obtain ⟨a, l, rfl⟩ : ∃ a l, cs = a :: l := by
      cases cs with
      | nil => exact absurd rfl hne
      | cons a l => exact ⟨a, l, rfl⟩
    unfold itemPosts
    simp only [pyGet_jobj, hdg]
    exact hps
  · intro j hj
    obtain ⟨h1, h2, h3⟩ := hfields j hj
    refine ⟨?_, ?_, ?_⟩
    · rw [h1]
      norm_num
    · exact h2
    · rw [h3]
      norm_num
  · intro j k hj hk hjk
    obtain ⟨-, -, h3j⟩ := hfields j hj
    obtain ⟨-, -, h3k⟩ := hfields k hk
    rw [h3j, h3k]
    intro h
    apply hjk
    have hs := JVal.jstr.inj h
    have := append_decStr_inj (pyStr (dget pf "id" (jstr "")) ++ "_") (0 + j) (0 + k) hs
    omega

end RapidAPI

/-- C3 (amended): for a parent item whose `children.data` collection
holds N recognized children (each child's node has an image/video
media tag), normalization yields exactly N Posts, with
`carousel_index` = 1..N in order, `carousel_total` = N, and pairwise
distinct synthetic ids `{parent_id}_{index}`.  The original claim
fails for unrecognized children, which are skipped (see the
counterexample): the "exactly N" count holds only for recognized
children. -/
theorem rapid_carousel_expansion_exact (pf : List (String × Py.JVal)) (cs : List Py.JVal)
    (hch : Py.lookupField pf "children" = some (.jobj [("data", .jarr cs)]))
    (hrec : ∀ c ∈ cs, RapidAPI.Recognized c) (hne : cs ≠ []) :
    ∃ ps, RapidAPI.itemPosts (.jobj pf) = .ok ps ∧ ps.length = cs.length ∧
      (∀ j (hj : j < ps.length),
        Py.dget (ps.get ⟨j, hj⟩) "carousel_index" .jnull = .jnum (j + 1) ∧
        Py.dget (ps.get ⟨j, hj⟩) "carousel_total" .jnull = .jnum cs.length ∧
        Py.dget (ps.get ⟨j, hj⟩) "id" .jnull =
          .jstr (Py.pyStr (Py.dget pf "id" (.jstr "")) ++ "_" ++ Py.decStr j)) ∧
      ∀ j k (hj : j < ps.length) (hk : k < ps.length), j ≠ k →
        Py.dget (ps.get ⟨j, hj⟩) "id" .jnull ≠ Py.dget (ps.get ⟨k, hk⟩) "id" .jnull :=
  RapidAPI.itemPosts_carousel pf cs hch hrec hne

/-- C3 witness: the amended theorem applied to the concrete two-child
carousel `c3parent` (an image child and a video child). -/
theorem rapid_carousel_expansion_exact_witness :
    ∃ ps, RapidAPI.itemPosts (.jobj RapidAPI.c3parent) = .ok ps ∧
      ps.length = RapidAPI.c3children.length ∧
      (∀ j (hj : j < ps.length),
        Py.dget (ps.get ⟨j, hj⟩) "carousel_index" .jnull = .jnum (j + 1) ∧
        Py.dget (ps.get ⟨j, hj⟩) "carousel_total" .jnull = .jnum RapidAPI.c3children.length ∧
        Py.dget (ps.get ⟨j, hj⟩) "id" .jnull =
          .jstr (Py.pyStr (Py.dget RapidAPI.c3parent "id" (.jstr "")) ++ "_" ++ Py.decStr j)) ∧
      ∀ j k (hj : j < ps.length) (hk : k < ps.length), j ≠ k →
        Py.dget (ps.get ⟨j, hj⟩) "id" .jnull ≠ Py.dget (ps.get ⟨k, hk⟩) "id" .jnull := by
  refine rapid_carousel_expansion_exact RapidAPI.c3parent RapidAPI.c3children rfl ?_ ?_
  · intro c hc
    simp only [RapidAPI.c3children, List.mem_cons, List.not_mem_nil, or_false] at hc
    rcases hc with rfl | rfl
    · exact ⟨_, rfl, rfl⟩
    · exact ⟨_, rfl, rfl⟩
  · simp [RapidAPI.c3children]

/-- C3 counterexample: a parent carrying a two-child carousel where the
second child has the unrecognized media_type 7 yields only ONE post
(the claim demands exactly two), and that post still reports
`carousel_total` = 2. -/
theorem rapid_carousel_drops_unrecognized_child :
    (RapidAPI.get_posts 12 (fun _ _ _ => .resp 200 (.ok (.jobj [("data", .jarr
      [.jobj [("id", .jstr "p1"), ("children", .jobj [("data", .jarr
        [.jobj [("media_type", .jnum 1), ("display_url", .jstr "https://cdn.example/one.jpg")],
         .jobj [("media_type", .jnum 7)]])])]])])))).length = 1 ∧
    Py.dget ((RapidAPI.get_posts 12 (fun _ _ _ => .resp 200 (.ok (.jobj [("data", .jarr
      [.jobj [("id", .jstr "p1"), ("children", .jobj [("data", .jarr
        [.jobj [("media_type", .jnum 1), ("display_url", .jstr "https://cdn.example/one.jpg")],
         .jobj [("media_type", .jnum 7)]])])]])])))).headD [])
      "carousel_total" .jnull = .jnum 2 := by
  constructor <;> rfl

/-- C4 counterexample: `InstagramScraper.get_public_posts` does NOT
convert exceptions to a failure value; its `except` handler re-raises,
so a transport error propagates to the caller. -/
theorem scraper_propagates_request_error :
    Scraper.get_public_posts 12
      ⟨.exc .requestError, ⟨fun _ => "", fun _ => ""⟩⟩ = .error .requestError := rfl

/-- C4 (amended): the rapidapi, public-api and node-scraper strategies
never propagate an exception: `InstagramRapidAPI.get_posts`'s try body
always returns, and the other two convert every internal error to the
empty list.  `InstagramScraper.get_public_posts`, however, re-raises
(see the counterexample). -/
theorem strategies_never_propagate (max_posts : Nat) (renv : RapidAPI.RapidEnv)
    (penv : PublicAPI.PubEnv) (nenv : NodeScraper.NodeEnv) :
    (∃ ps, RapidAPI.get_postsE max_posts renv = .ok ps ∧
        RapidAPI.get_posts max_posts renv = ps) ∧
    (∀ e, PublicAPI.get_public_postsE max_posts penv = .error e →
        PublicAPI.get_public_posts max_posts penv = []) ∧
    (∀ ps, PublicAPI.get_public_postsE max_posts penv = .ok ps →
        PublicAPI.get_public_posts max_posts penv = ps) ∧
    (∀ rc stdout e, nenv = ⟨true, .completed rc stdout⟩ → rc = 0 →
        NodeScraper.parseStdoutE stdout = .error e →
        NodeScraper.scrape_user_posts nenv = []) := by
  refine ⟨⟨_, rfl, rfl⟩, ?_, ?_, ?_⟩
  · intro e h
    unfold PublicAPI.get_public_posts
    rw [h]
  · intro ps h
    unfold PublicAPI.get_public_posts
    rw [h]
  · intro rc stdout e hn hrc hp
    subst hn
    subst hrc
    unfold NodeScraper.scrape_user_posts
    simp [hp]

/-- C4 witness: the amended theorem at concrete environments — a
public-api fetch that raises yields `[]`, and a node-scraper run whose
stdout parse raises an AttributeError yields `[]`. -/
theorem strategies_never_propagate_witness :
    PublicAPI.get_public_posts 12 ⟨.exc, ⟨fun _ => "", fun _ => ""⟩⟩ = [] ∧
    NodeScraper.scrape_user_posts
      ⟨true, .completed 0 "\x7b\"posts\": [\x7b\"shortcode\": \"abc\"\x7d]\x7d"⟩ = [] := by
  have h := strategies_never_propagate 12 (fun _ _ _ => .resp 500 (.error .otherError))
      ⟨.exc, ⟨fun _ => "", fun _ => ""⟩⟩
      ⟨true, .completed 0 "\x7b\"posts\": [\x7b\"shortcode\": \"abc\"\x7d]\x7d"⟩
  exact ⟨h.2.1 .otherError rfl,
         h.2.2.2 0 "\x7b\"posts\": [\x7b\"shortcode\": \"abc\"\x7d]\x7d" .attrError rfl rfl rfl⟩


/-- C8: the subprocess JSON recovery path is broken.  For a
subprocess that exits 0 with stdout holding exactly a recoverable JSON
object whose `posts` list is non-empty, `json.loads` succeeds on the
recovered text, yet `scrape_user_posts` returns `[]`: the per-post
filter calls `self._check_image_resolution`, which is never defined,
so the loop raises AttributeError and the outer handler swallows the
recovered posts. -/
theorem node_scraper_recovery_returns_empty :
    Py.jsonLoads "\x7b\"posts\": [\x7b\"shortcode\": \"abc\"\x7d]\x7d" =
      .ok (.jobj [("posts", .jarr [.jobj [("shortcode", .jstr "abc")]])]) ∧
    NodeScraper.parseStdoutE "\x7b\"posts\": [\x7b\"shortcode\": \"abc\"\x7d]\x7d" =
      .error .attrError ∧
    NodeScraper.scrape_user_posts
      ⟨true, .completed 0 "\x7b\"posts\": [\x7b\"shortcode\": \"abc\"\x7d]\x7d"⟩ = [] := by
  refine ⟨rfl, rfl, rfl⟩

namespace WebApp

open Py Py.JVal

theorem fromManual_shape (env : FetchEnv) :
    (∃ ps, env.manualPosts = .ok ps ∧ ps ≠ [] ∧
      fromManual env = ⟨true, some "manual_discovery", []⟩) ∨
    fromManual env = ⟨false, none, []⟩ := by
  unfold fromManual
  cases h : env.manualPosts with
  | error e => exact Or.inr rfl
  | ok ps =>
      cases hps : ps.isEmpty with
      | false => exact Or.inl ⟨ps, rfl, by simp_all, by simp [hps]⟩
      | true => exact Or.inr (by simp [hps])

theorem fromAlt_shape (env : FetchEnv) :
    (∃ ps, env.altPosts = .ok ps ∧ ps ≠ [] ∧
      fromAlt env = ⟨true, some "alternative_scraper",
        scraperImages env.processOk (ps.map jobj)⟩) ∨
    fromAlt env = fromManual env := by
  unfold fromAlt
  cases h : env.altPosts with
  | error e => exact Or.inr rfl
  | ok ps =>
      cases hps : ps.isEmpty with
      | false => exact Or.inl ⟨ps, rfl, by simp_all, by simp [hps]⟩
      | true => exact Or.inr (by simp [hps])

theorem fromNodejs_shape (env : FetchEnv) :
    (∃ ps, env.nodejsPosts = .ok ps ∧ ps ≠ [] ∧
      fromNodejs env = ⟨true, some "nodejs_scraper", scraperImages env.processOk ps⟩) ∨
    fromNodejs env = fromAlt env := by
  unfold fromNodejs
  cases h : env.nodejsPosts with
  | error e => exact Or.inr rfl
  | ok ps =>
      cases hps : ps.isEmpty with
      | false => exact Or.inl ⟨ps, rfl, by simp_all, by simp [hps]⟩
      | true => exact Or.inr (by simp [hps])

theorem fetch_images_shape (env : FetchEnv) :
    (∃ c, env.rapidapiAvailable = true ∧ env.rapidapiContent = .ok c ∧
      rapidImages env.processOk c ≠ [] ∧
      fetch_images env = ⟨true, some "rapidapi_enhanced", rapidImages env.processOk c⟩) ∨
    fetch_images env = fromNodejs env := by
  unfold fetch_images
  cases ha : env.rapidapiAvailable with
  | false => exact Or.inr rfl
  | true =>
      cases hc : env.rapidapiContent with
      | error e => exact Or.inr rfl
      | ok c =>
          dsimp only
          by_cases hg : (¬ c.isEmpty ∧ c.any (fun kv => ¬ kv.2.isEmpty))
          · rw [if_pos hg]
            cases hi : (rapidImages env.processOk c).isEmpty with
            | false =>
                refine Or.inl ⟨c, rfl, rfl, by simp_all, ?_⟩
                split
                · rfl
                · simp_all
            | true =>
                refine Or.inr ?_
                split
                · simp_all
                · rfl
          · exact Or.inr (by rw [if_neg hg]; rfl)

theorem fetch_images_cases (env : FetchEnv) :
    fetch_images env = ⟨false, none, []⟩ ∨
    (∃ c, env.rapidapiAvailable = true ∧ env.rapidapiContent = .ok c ∧
      rapidImages env.processOk c ≠ [] ∧
      fetch_images env = ⟨true, some "rapidapi_enhanced", rapidImages env.processOk c⟩) ∨
    (∃ ps, env.nodejsPosts = .ok ps ∧ ps ≠ [] ∧
      fetch_images env = ⟨true, some "nodejs_scraper", scraperImages env.processOk ps⟩) ∨
    (∃ ps, env.altPosts = .ok ps ∧ ps ≠ [] ∧
      fetch_images env = ⟨true, some "alternative_scraper",
        scraperImages env.processOk (ps.map jobj)⟩) ∨
    (∃ ps, env.manualPosts = .ok ps ∧ ps ≠ [] ∧
      fetch_images env = ⟨true, some "manual_discovery", []⟩) := by
  rcases fetch_images_shape env with h | h
  · exact Or.inr (Or.inl h)
  · rcases fromNodejs_shape env with ⟨ps, h1, h2, h3⟩ | h2
    · exact Or.inr (Or.inr (Or.inl ⟨ps, h1, h2, h.trans h3⟩))
    · rcases fromAlt_shape env with ⟨ps, h1, h3, h4⟩ | h3
      · exact Or.inr (Or.inr (Or.inr (Or.inl ⟨ps, h1, h3, (h.trans h2).trans h4⟩)))
      · rcases fromManual_shape env with ⟨ps, h1, h4, h5⟩ | h4
        · exact Or.inr (Or.inr (Or.inr (Or.inr
            ⟨ps, h1, h4, ((h.trans h2).trans h3).trans h5⟩)))
        · exact Or.inl (((h.trans h2).trans h3).trans h4)

end WebApp

/-- C1 counterexample: the loop does NOT halt on
`succeeded_with_content`.  With the alternative scraper returning one
raw post that yields no usable image URL (no `display_url` /
`thumbnail_src`) and manual discovery available afterwards, the loop
halts at `alternative_scraper` with `success = True` and zero images:
the halting test is raw-post non-emptiness, not content success. -/
theorem fetch_images_halts_without_content :
    WebApp.fetch_images ⟨false, .ok [], .ok [],
        .ok [[("image_url", .jstr "https://instagram.example/a.jpg")]],
        .ok [[("id", .jstr "m1")]], fun _ => true⟩ =
      ⟨true, some "alternative_scraper", []⟩ := rfl

/-- C1 (amended): the strategy loop tries rapidapi_enhanced, then
nodejs_scraper, then alternative_scraper, then manual_discovery, and
returns the images of at most ONE strategy (never merged).  The
rapidapi branch halts only when its processed image list is non-empty,
but the nodejs/alternative branches halt as soon as their RAW post
list is non-empty — even when that yields zero usable images — and
once a strategy halts the chain, the later strategies' outcomes are
irrelevant to the result. -/
theorem fetch_images_halt_discipline (env : WebApp.FetchEnv) :
    (WebApp.fetch_images env = ⟨false, none, []⟩ ∨
     (∃ c, env.rapidapiAvailable = true ∧ env.rapidapiContent = .ok c ∧
       WebApp.rapidImages env.processOk c ≠ [] ∧
       WebApp.fetch_images env =
         ⟨true, some "rapidapi_enhanced", WebApp.rapidImages env.processOk c⟩) ∨
     (∃ ps, env.nodejsPosts = .ok ps ∧ ps ≠ [] ∧
       WebApp.fetch_images env =
         ⟨true, some "nodejs_scraper", WebApp.scraperImages env.processOk ps⟩) ∨
     (∃ ps, env.altPosts = .ok ps ∧ ps ≠ [] ∧
       WebApp.fetch_images env =
         ⟨true, some "alternative_scraper",
           WebApp.scraperImages env.processOk (ps.map Py.JVal.jobj)⟩) ∨
     (∃ ps, env.manualPosts = .ok ps ∧ ps ≠ [] ∧
       WebApp.fetch_images env = ⟨true, some "manual_discovery", []⟩)) ∧
    (env.rapidapiAvailable = false →
      ∀ ps, env.nodejsPosts = .ok ps → ps ≠ [] →
      ∀ alt man,
        WebApp.fetch_images
          ⟨false, env.rapidapiContent, .ok ps, alt, man, env.processOk⟩ =
          ⟨true, some "nodejs_scraper", WebApp.scraperImages env.processOk ps⟩) := by
  refine ⟨WebApp.fetch_images_cases env, ?_⟩
  intro ha ps hps hne alt man
  have hpe : ps.isEmpty = false := by
    cases ps with
    | nil => exact absurd rfl hne
    | cons a l => rfl
  unfold WebApp.fetch_images WebApp.fromNodejs
  simp [hpe]

/-- C1 witness: the amended theorem's halt-independence clause at a
concrete environment — a non-empty nodejs raw-post list halts the
chain regardless of the later strategies' outcomes. -/
theorem fetch_images_halt_discipline_witness :
    WebApp.fetch_images ⟨false, .ok [], .ok [.jobj []], .error .otherError,
        .error .otherError, fun _ => false⟩ =
      ⟨true, some "nodejs_scraper", []⟩ := by
  have h := fetch_images_halt_discipline ⟨false, .ok [], .ok [.jobj []],
      .error .otherError, .error .otherError, fun _ => false⟩
  exact h.2 rfl [.jobj []] rfl (by simp) (.error .otherError) (.error .otherError)

/-- C5 counterexample: a private-account signal is NOT terminal.
Method 1 sees `is_private: true` in a 200 response and contributes
nothing, but `scrape_instagram_alternative` continues to method 2,
which scrapes one post from an `og:image` meta tag. -/
theorem private_account_chain_continues :
    WebApp.method1 "u" (.resp 200 (.ok (.jobj [("data", .jobj [("user",
        .jobj [("is_private", .jbool true)])])]))) = ([], false) ∧
    (WebApp.scrape_instagram_alternative "u"
      ⟨.resp 200 (.ok (.jobj [("data", .jobj [("user",
          .jobj [("is_private", .jbool true)])])])),
       .resp 200 "<meta property=\"og:image\" content=\"https://scontent.example/p.jpg\">",
       .exc .otherError⟩).length = 1 := by
  constructor <;> rfl

/-- C5 (amended): the private-account signal is handled exactly like a
method-1 failure, not as a terminal state: whenever the 200-response
payload resolves to a user object whose `is_private` flag is truthy,
`scrape_instagram_alternative` behaves identically to a run in which
method 1 raised — the lower-priority methods 2 and 3 still run. -/
theorem private_signal_equals_method1_failure (username : String)
    (body : Except Py.PyErr Py.JVal) (m2 m3 : Scraper.TextOutcome)
    (user_data priv : Py.JVal)
    (h1 : (do let data ← body
              let d1 ← Py.pyGet data "data" (.jobj [])
              Py.pyGet d1 "user" (.jobj [])) = .ok user_data)
    (h2 : Py.pyGet user_data "is_private" (.jbool true) = .ok priv)
    (h3 : priv.truthy = true) :
    WebApp.scrape_instagram_alternative username ⟨.resp 200 body, m2, m3⟩ =
      WebApp.scrape_instagram_alternative username ⟨.exc, m2, m3⟩ := by
  have hm : WebApp.method1 username (.resp 200 body) = ([], false) := by
    unfold WebApp.method1
    dsimp only
    rw [if_pos rfl, h1]
    dsimp only
    rw [h2]
    dsimp only
    simp [h3]
  unfold WebApp.scrape_instagram_alternative
  rw [hm]
  rfl

/-- C5 witness: the amended theorem at the concrete private-account
payload — the run with the private 200 response equals the run where
method 1 raised. -/
theorem private_signal_equals_method1_failure_witness :
    WebApp.scrape_instagram_alternative "u" ⟨.resp 200 (.ok (.jobj [("data",
        .jobj [("user", .jobj [("is_private", .jbool true)])])])),
      .resp 200 "<meta property=\"og:image\" content=\"https://scontent.example/p.jpg\">",
      .exc .otherError⟩ =
    WebApp.scrape_instagram_alternative "u" ⟨.exc,
      .resp 200 "<meta property=\"og:image\" content=\"https://scontent.example/p.jpg\">",
      .exc .otherError⟩ :=
  private_signal_equals_method1_failure "u" _ _ _
    (.jobj [("is_private", .jbool true)]) (.jbool true) rfl rfl rfl

/-- C7: the URL quality enhancer is total and acts only on matching
URLs: any input without both provider markers (`scontent` and
`instagram.com`) is returned unchanged, and any input whose parse
fails is returned unchanged — no input raises. -/
theorem enhance_total_and_guarded (u : UrlQ.BStr) :
    (¬ (Py.hasSubList UrlQ.scB u ∧ Py.hasSubList UrlQ.igB u) →
      UrlQ.enhance_image_url_quality u = u) ∧
    (∀ e, UrlQ.urlparseE u = .error e →
      UrlQ.enhance_image_url_quality u = u) := by
  constructor
  · intro h
    unfold UrlQ.enhance_image_url_quality
    rw [if_pos h]
  · intro e he
    unfold UrlQ.enhance_image_url_quality
    split
    · rfl
    · rw [he]

/-- C7 witness: a URL without the provider markers passes through the
enhancer unchanged. -/
theorem enhance_total_and_guarded_witness :
    UrlQ.enhance_image_url_quality (UrlQ.bytesOfAscii "https://example.com/pic.jpg") =
      UrlQ.bytesOfAscii "https://example.com/pic.jpg" :=
  (enhance_total_and_guarded (UrlQ.bytesOfAscii "https://example.com/pic.jpg")).1
    (by decide)

namespace UrlQ

open Py

theorem hexValB_hexUC (n : Nat) (h : n < 16) : hexValB (hexUC n) = some n := by
  interval_cases n <;> rfl

theorem qByteOk_hexUC (n : Nat) (h : n < 16) : qByteOk (hexUC n) = true := by
  interval_cases n <;> rfl

theorem hexUC_ne_43 (n : Nat) (h : n < 16) : hexUC n ≠ (43 : Byte) := by
  interval_cases n <;> decide

theorem hexUC_ne_37 (n : Nat) (h : n < 16) : hexUC n ≠ (37 : Byte) := by
  interval_cases n <;> decide

theorem safe_ne_43 (b : Byte) (h : isSafeByte b = true) : b ≠ (43 : Byte) := by
  intro he
  subst he
  exact absurd h (by decide)

theorem safe_ne_37 (b : Byte) (h : isSafeByte b = true) : b ≠ (37 : Byte) := by
  intro he
  subst he
  exact absurd h (by decide)

theorem mem_quotePlusB (x : BStr) (b : Byte) (hb : b ∈ quotePlusB x) :
    qByteOk b = true := by
  induction x with
  | nil => cases hb
  | cons a t ih =>
      rw [quotePlusB, List.flatMap_cons] at hb
      rcases List.mem_append.mp hb with h1 | h2
      · by_cases hs : isSafeByte a
        · simp only [hs, if_true] at h1
          rcases List.mem_singleton.mp h1 with rfl
          simp [qByteOk, hs]
        · by_cases h32 : a = (32 : Byte)
          · simp only [hs, if_false, h32, if_pos rfl] at h1
            rcases List.mem_singleton.mp h1 with rfl
            decide
          · simp only [hs, h32, if_false] at h1
            rcases List.mem_cons.mp h1 with rfl | h1
            · decide
            · rcases List.mem_cons.mp h1 with rfl | h1
              · exact qByteOk_hexUC _ (Nat.div_lt_of_lt_mul (by omega))
              · rcases List.mem_singleton.mp h1 with rfl
                exact qByteOk_hexUC _ (Nat.mod_lt _ (by norm_num))
      · exact ih h2

theorem unquote_cons_notpct (b : Byte) (t : BStr) (hb : b ≠ (37 : Byte)) :
    unquoteB (b :: t) = b :: unquoteB t := by
  match t with
  | [] => rfl
  | [x] => rfl
  | x :: y :: t2 => rw [unquoteB, if_neg hb]

theorem unquote_pct (h1 h2 : Byte) (t : BStr) (a c : Nat)
    (ha : hexValB h1 = some a) (hc : hexValB h2 = some c) :
    unquoteB ((37 : Byte) :: h1 :: h2 :: t) = mkByte (a * 16 + c) :: unquoteB t := by
  rw [unquoteB, if_pos rfl, ha, hc]

theorem decodeStr_quotePlusB (x : BStr) : decodeStr (quotePlusB x) = x := by
  unfold decodeStr
  induction x with
  | nil => rfl
  | cons a t ih =>
      have hQ : quotePlusB (a :: t) =
          (if isSafeByte a then [a]
           else if a = (32 : Byte) then [(43 : Byte)]
           else [(37 : Byte), hexUC (a.val / 16), hexUC (a.val % 16)]) ++
            quotePlusB t := by
        rw [quotePlusB, List.flatMap_cons]
        rfl
      rw [hQ]
      unfold plusToSpace at ih ⊢
      rw [List.map_append]
      by_cases hs : isSafeByte a
      · rw [if_pos hs]
        have h43 : a ≠ (43 : Byte) := safe_ne_43 a hs
        simp only [List.map_cons, List.map_nil, List.singleton_append]
        rw [if_neg h43, unquote_cons_notpct a _ (safe_ne_37 a hs), ih]
      · rw [if_neg hs]
        by_cases h32 : a = (32 : Byte)
        · rw [if_pos h32]
          simp only [List.map_cons, List.map_nil, List.singleton_append]
          rw [if_pos trivial, unquote_cons_notpct _ _ (by decide), ih, h32]
        · rw [if_neg h32]
          have hd : a.val / 16 < 16 := Nat.div_lt_of_lt_mul (by omega)
          have hm : a.val % 16 < 16 := Nat.mod_lt _ (by norm_num)
          simp only [List.map_cons, List.map_nil, List.cons_append,
            List.nil_append]
          rw [if_neg (by decide : ¬ ((37 : Byte) = 43)),
            if_neg (hexUC_ne_43 _ hd), if_neg (hexUC_ne_43 _ hm),
            unquote_pct _ _ _ _ _ (hexValB_hexUC _ hd) (hexValB_hexUC _ hm), ih]
          congr 1
          apply Fin.ext
          have ha := a.isLt
          dsimp only [mkByte]
          omega

end UrlQ

namespace UrlQ

open Py

set_option maxRecDepth 8192 in
theorem qByteOk_excl : ∀ b : Byte, qByteOk b = true →
    b ≠ 9 ∧ b ≠ 10 ∧ b ≠ 13 ∧ b ≠ 35 ∧ b ≠ 38 ∧ b ≠ 47 ∧
    b ≠ 58 ∧ b ≠ 59 ∧ b ≠ 61 ∧ b ≠ 63 := by decide

theorem quotePlusB_not_38 (x : BStr) : (38 : Byte) ∉ quotePlusB x := fun h =>
  absurd rfl (mem_quotePlusB x _ h |> qByteOk_excl _ |>.2.2.2.2.1)

theorem quotePlusB_not_61 (x : BStr) : (61 : Byte) ∉ quotePlusB x := fun h =>
  absurd rfl (mem_quotePlusB x _ h |> qByteOk_excl _ |>.2.2.2.2.2.2.2.2.1)

theorem quotePlusB_ne_nil (x : BStr) (hx : x ≠ []) : quotePlusB x ≠ [] := by
  cases x with
  | nil => exact absurd rfl hx
  | cons a t =>
      rw [quotePlusB, List.flatMap_cons]
      apply List.append_ne_nil_of_ne_nil_left
      by_cases hs : isSafeByte a
      · simp [hs]
      · by_cases h32 : a = (32 : Byte)
        · subst h32
          decide
        · simp [hs, h32]

theorem splitAllB_no_delim (d : Byte) (p : BStr) (hp : d ∉ p) :
    splitAllB d p = [p] := by
  induction p with
  | nil => rfl
  | cons c t ih =>
      have hc : c ≠ d := fun h => hp (h ▸ List.mem_cons_self c t)
      have ht : d ∉ t := fun h => hp (List.mem_cons_of_mem _ h)
      rw [splitAllB, ih ht, if_neg hc]

theorem splitAllB_append (d : Byte) (p t : BStr) (hp : d ∉ p) :
    splitAllB d (p ++ d :: t) = p :: splitAllB d t := by
  induction p with
  | nil => simp [splitAllB]
  | cons c p' ih =>
      have hc : c ≠ d := fun h => hp (h ▸ List.mem_cons_self c p')
      have hp' : d ∉ p' := fun h => hp (List.mem_cons_of_mem _ h)
      rw [List.cons_append, splitAllB, ih hp', if_neg hc]

theorem splitAllB_joinAllB (d : Byte) (ps : List BStr) (hne : ps ≠ [])
    (hfree : ∀ p ∈ ps, d ∉ p) :
    splitAllB d (joinAllB d ps) = ps := by
  induction ps with
  | nil => exact absurd rfl hne
  | cons p rest ih =>
      cases rest with
      | nil => exact splitAllB_no_delim d p (hfree p (List.mem_cons_self _ _))
      | cons q rest2 =>
          have hj : joinAllB d (p :: q :: rest2) =
              p ++ d :: joinAllB d (q :: rest2) := by
            show p ++ [d] ++ joinAllB d (q :: rest2) = _
            simp
          have hih := ih (List.cons_ne_nil q rest2)
            (fun r hr => hfree r (List.mem_cons_of_mem _ hr))
          rw [hj, splitAllB_append d p _ (hfree p (List.mem_cons_self _ _)), hih]

theorem splitFirstB_not_mem (d : Byte) (s : BStr) (hs : d ∉ s) :
    splitFirstB d s = none := by
  induction s with
  | nil => rfl
  | cons c t ih =>
      have hc : c ≠ d := fun h => hs (h ▸ List.mem_cons_self c t)
      have ht : d ∉ t := fun h => hs (List.mem_cons_of_mem _ h)
      rw [splitFirstB, if_neg hc, ih ht]
      rfl

theorem splitFirstB_append (d : Byte) (a b : BStr) (ha : d ∉ a) :
    splitFirstB d (a ++ d :: b) = some (a, b) := by
  induction a with
  | nil => simp [splitFirstB]
  | cons c a' ih =>
      have hc : c ≠ d := fun h => ha (h ▸ List.mem_cons_self c a')
      have ha' : d ∉ a' := fun h => ha (List.mem_cons_of_mem _ h)
      rw [List.cons_append, splitFirstB, if_neg hc, ih ha']
      rfl

theorem unquoteB_ne_nil (s : BStr) (hs : s ≠ []) : unquoteB s ≠ [] := by
  match s with
  | [] => exact absurd rfl hs
  | [c] => simp [unquoteB]
  | [c, h1] => simp [unquoteB]
  | c :: h1 :: h2 :: t =>
      rw [unquoteB]
      split
      · split <;> simp
      · simp

theorem decodeStr_ne_nil (s : BStr) (hs : s ≠ []) : decodeStr s ≠ [] := by
  apply unquoteB_ne_nil
  unfold plusToSpace
  simpa using hs

end UrlQ

namespace UrlQ

open Py

theorem piece_ne_nil (k qv : BStr) :
    (quotePlusB k ++ [(61 : Byte)] ++ qv).isEmpty = false := by
  rw [List.append_assoc, List.singleton_append]
  cases quotePlusB k <;> rfl

theorem filterMap_piece_one (k : BStr) (vs : List BStr) (hvs : ∀ v ∈ vs, v ≠ []) :
    ((vs.map fun v => quotePlusB k ++ [(61 : Byte)] ++ quotePlusB v).filterMap fun nv =>
      if nv.isEmpty then none
      else
        match splitFirstB 61 nv with
        | none => none
        | some (n, v) => if v.isEmpty then none else some (decodeStr n, decodeStr v))
    = vs.map fun v => (k, v) := by
  induction vs with
  | nil => rfl
  | cons v vs ih =>
      rw [List.map_cons, List.filterMap_cons, List.map_cons]
      have hv : v ≠ [] := hvs v (List.mem_cons_self _ _)
      have hqv : quotePlusB v ≠ [] := quotePlusB_ne_nil v hv
      have hqvE : (quotePlusB v).isEmpty = false := by
        cases h : quotePlusB v with
        | nil => exact absurd h hqv
        | cons a t => rfl
      have hsplit : splitFirstB 61 (quotePlusB k ++ [(61 : Byte)] ++ quotePlusB v)
          = some (quotePlusB k, quotePlusB v) := by
        rw [List.append_assoc, List.singleton_append]
        exact splitFirstB_append _ _ _ (quotePlusB_not_61 k)
      simp only [piece_ne_nil, Bool.false_eq_true, if_false, hsplit, hqvE,
        decodeStr_quotePlusB]
      rw [ih (fun w hw => hvs w (List.mem_cons_of_mem _ hw))]

theorem filterMap_pieces (d : List (BStr × List BStr))
    (hvals : ∀ kv ∈ d, ∀ v ∈ kv.2, v ≠ []) :
    ((d.flatMap fun kv => kv.2.map fun v =>
        quotePlusB kv.1 ++ [(61 : Byte)] ++ quotePlusB v).filterMap fun nv =>
      if nv.isEmpty then none
      else
        match splitFirstB 61 nv with
        | none => none
        | some (n, v) => if v.isEmpty then none else some (decodeStr n, decodeStr v))
    = d.flatMap fun kv => kv.2.map fun v => (kv.1, v) := by
  induction d with
  | nil => rfl
  | cons kv rest ih =>
      rw [List.flatMap_cons, List.flatMap_cons, List.filterMap_append,
        ih (fun kv' h => hvals kv' (List.mem_cons_of_mem _ h)),
        filterMap_piece_one kv.1 kv.2
          (fun v hv => hvals kv (List.mem_cons_self _ _) v hv)]

theorem pieces_38_free (d : List (BStr × List BStr)) :
    ∀ p ∈ (d.flatMap fun kv => kv.2.map fun v =>
      quotePlusB kv.1 ++ [(61 : Byte)] ++ quotePlusB v), (38 : Byte) ∉ p := by
  intro p hp
  rcases List.mem_flatMap.mp hp with ⟨kv, hkv, hp2⟩
  rcases List.mem_map.mp hp2 with ⟨v, hv, rfl⟩
  intro h38
  rw [List.append_assoc, List.singleton_append] at h38
  rcases List.mem_append.mp h38 with h | h
  · exact quotePlusB_not_38 _ h
  · rcases List.mem_cons.mp h with h61 | h
    · cases h61
    · exact quotePlusB_not_38 _ h

theorem parseQsl_urlencodeDoseq (d : List (BStr × List BStr))
    (hvals : ∀ kv ∈ d, ∀ v ∈ kv.2, v ≠ [])
    (hne : (d.flatMap fun kv => kv.2.map fun v =>
      quotePlusB kv.1 ++ [(61 : Byte)] ++ quotePlusB v) ≠ []) :
    parseQsl (urlencodeDoseq d) = d.flatMap fun kv => kv.2.map fun v => (kv.1, v) := by
  unfold parseQsl urlencodeDoseq
  rw [splitAllB_joinAllB 38 _ hne (pieces_38_free d), filterMap_pieces d hvals]

end UrlQ

namespace UrlQ

open Py

theorem find?_key_append (acc : List (BStr × List BStr)) (k : BStr) (vs : List BStr)
    (hk : ∀ kv ∈ acc, kv.1 ≠ k) :
    ((acc ++ [(k, vs)]).find? fun kv => kv.1 = k) = some (k, vs) := by
  induction acc with
  | nil => simp [List.find?]
  | cons a acc ih =>
      rw [List.cons_append, List.find?,
        decide_eq_false (hk a (List.mem_cons_self _ _))]
      exact ih (fun kv h => hk kv (List.mem_cons_of_mem _ h))

theorem find?_key_none (acc : List (BStr × List BStr)) (k : BStr)
    (hk : ∀ kv ∈ acc, kv.1 ≠ k) :
    (acc.find? fun kv => kv.1 = k) = none := by
  induction acc with
  | nil => rfl
  | cons a acc ih =>
      rw [List.find?, decide_eq_false (hk a (List.mem_cons_self _ _))]
      exact ih (fun kv h => hk kv (List.mem_cons_of_mem _ h))

theorem map_setkey_append (acc : List (BStr × List BStr)) (k : BStr)
    (vs ws : List BStr) (hk : ∀ kv ∈ acc, kv.1 ≠ k) :
    ((acc ++ [(k, vs)]).map fun kv => if kv.1 = k then (kv.1, kv.2 ++ ws) else kv)
      = acc ++ [(k, vs ++ ws)] := by
  induction acc with
  | nil => simp
  | cons a acc ih =>
      rw [List.cons_append, List.map_cons, if_neg (hk a (List.mem_cons_self _ _)),
        ih (fun kv h => hk kv (List.mem_cons_of_mem _ h)), List.cons_append]

theorem foldl_insertAppend_values (k : BStr) (ws : List BStr) :
    ∀ (acc : List (BStr × List BStr)) (vs : List BStr),
      (∀ kv ∈ acc, kv.1 ≠ k) →
      List.foldl (fun d p => insertAppend d p.1 p.2) (acc ++ [(k, vs)])
        (ws.map fun v => (k, v)) = acc ++ [(k, vs ++ ws)] := by
  induction ws with
  | nil =>
      intro acc vs hk
      simp
  | cons w ws ih =>
      intro acc vs hk
      rw [List.map_cons, List.foldl_cons]
      have hstep : insertAppend (acc ++ [(k, vs)]) k w = acc ++ [(k, vs ++ [w])] := by
        unfold insertAppend
        rw [if_pos (by rw [find?_key_append acc k vs hk]; rfl),
          map_setkey_append acc k vs [w] hk]
      rw [hstep, ih acc (vs ++ [w]) hk, List.append_assoc]
      rfl

theorem foldl_insertAppend_flatten (d : List (BStr × List BStr)) :
    ∀ (acc : List (BStr × List BStr)),
      (∀ kv ∈ acc, ∀ kv' ∈ d, kv.1 ≠ kv'.1) →
      List.Pairwise (fun a b => a.1 ≠ b.1) d →
      (∀ kv ∈ d, kv.2 ≠ []) →
      List.foldl (fun dd p => insertAppend dd p.1 p.2) acc
        (d.flatMap fun kv => kv.2.map fun v => (kv.1, v)) = acc ++ d := by
  induction d with
  | nil =>
      intro acc _ _ _
      simp
  | cons kv rest ih =>
      intro acc hdisj hpw hnev
      obtain ⟨k, vs⟩ := kv
      rw [List.flatMap_cons, List.foldl_append]
      have hk : ∀ kv ∈ acc, kv.1 ≠ k :=
        fun kv h => hdisj kv h (k, vs) (List.mem_cons_self _ _)
      cases vs with
      | nil => exact absurd rfl (hnev (k, []) (List.mem_cons_self _ _))
      | cons v0 vs' =>
          rw [List.map_cons, List.foldl_cons]
          have hstep : insertAppend acc k v0 = acc ++ [(k, [v0])] := by
            unfold insertAppend
            rw [if_neg (by rw [find?_key_none acc k hk]; simp)]
          have hpw' := List.pairwise_cons.mp hpw
          rw [hstep, foldl_insertAppend_values k vs' acc [v0] hk,
            ih (acc ++ [(k, [v0] ++ vs')])
              (by
                intro kv h kv' h'
                rcases List.mem_append.mp h with h | h
                · exact hdisj kv h kv' (List.mem_cons_of_mem _ h')
                · rcases List.mem_singleton.mp h with rfl
                  exact hpw'.1 kv' h')
              hpw'.2
              (fun kv h => hnev kv (List.mem_cons_of_mem _ h))]
          simp

theorem parseQs_urlencodeDoseq (d : List (BStr × List BStr))
    (hvals : ∀ kv ∈ d, ∀ v ∈ kv.2, v ≠ [])
    (hnev : ∀ kv ∈ d, kv.2 ≠ [])
    (hpw : List.Pairwise (fun a b => a.1 ≠ b.1) d)
    (hne : (d.flatMap fun kv => kv.2.map fun v =>
      quotePlusB kv.1 ++ [(61 : Byte)] ++ quotePlusB v) ≠ []) :
    parseQs (urlencodeDoseq d) = d := by
  unfold parseQs
  rw [parseQsl_urlencodeDoseq d hvals hne]
  have := foldl_insertAppend_flatten d [] (by intro kv h; cases h) hpw hnev
  simpa using this

theorem parseQsl_values (qs : BStr) :
    ∀ p ∈ parseQsl qs, p.2 ≠ [] := by
  intro p hp
  unfold parseQsl at hp
  rcases List.mem_filterMap.mp hp with ⟨nv, hnv, heq⟩
  split at heq
  · cases heq
  · split at heq
    · cases heq
    · rename_i n v heqs
      split at heq
      · cases heq
      · rename_i hvE
        rcases Option.some.inj heq with rfl
        show decodeStr v ≠ []
        apply decodeStr_ne_nil
        intro hnil
        subst hnil
        simp at hvE

end UrlQ

namespace UrlQ

open Py

theorem insertAppend_inv (acc : List (BStr × List BStr)) (k v : BStr)
    (hv : v ≠ [])
    (hpw : List.Pairwise (fun a b => a.1 ≠ b.1) acc)
    (hvals : ∀ kv ∈ acc, kv.2 ≠ [] ∧ ∀ w ∈ kv.2, w ≠ []) :
    List.Pairwise (fun a b => a.1 ≠ b.1) (insertAppend acc k v) ∧
    ∀ kv ∈ insertAppend acc k v, kv.2 ≠ [] ∧ ∀ w ∈ kv.2, w ≠ [] := by
  unfold insertAppend
  split
  · constructor
    · refine (List.pairwise_map).mpr (hpw.imp ?_)
      intro a b hab
      split <;> split <;> exact hab
    · intro kv hkv
      rcases List.mem_map.mp hkv with ⟨kv0, hkv0, rfl⟩
      obtain ⟨h1, h2⟩ := hvals kv0 hkv0
      split
      · refine ⟨by simp, ?_⟩
        intro w hw
        rcases List.mem_append.mp hw with hw | hw
        · exact h2 w hw
        · rcases List.mem_singleton.mp hw with rfl
          exact hv
      · exact ⟨h1, h2⟩
  · rename_i hnone
    have hfk : ∀ kv ∈ acc, kv.1 ≠ k := by
      have hn : acc.find? (fun kv => kv.1 = k) = none := by
        cases h : acc.find? (fun kv => kv.1 = k) with
        | none => rfl
        | some x =>
            rw [h] at hnone
            exact absurd rfl hnone
      intro kv hkv he
      have := List.find?_eq_none.mp hn kv hkv
      simp [he] at this
    constructor
    · rw [List.pairwise_append]
      refine ⟨hpw, List.pairwise_singleton _ _, ?_⟩
      intro a ha b hb
      rcases List.mem_singleton.mp hb with rfl
      exact hfk a ha
    · intro kv hkv
      rcases List.mem_append.mp hkv with h | h
      · exact hvals kv h
      · rcases List.mem_singleton.mp h with rfl
        exact ⟨by simp, by
          intro w hw
          rcases List.mem_singleton.mp hw with rfl
          exact hv⟩

theorem foldl_insertAppend_inv (ps : List (BStr × BStr))
    (hv : ∀ p ∈ ps, p.2 ≠ []) :
    ∀ acc, List.Pairwise (fun a b => a.1 ≠ b.1) acc →
      (∀ kv ∈ acc, kv.2 ≠ [] ∧ ∀ w ∈ kv.2, w ≠ []) →
      List.Pairwise (fun a b => a.1 ≠ b.1)
        (List.foldl (fun dd p => insertAppend dd p.1 p.2) acc ps) ∧
      ∀ kv ∈ List.foldl (fun dd p => insertAppend dd p.1 p.2) acc ps,
        kv.2 ≠ [] ∧ ∀ w ∈ kv.2, w ≠ [] := by
  induction ps with
  | nil =>
      intro acc h1 h2
      exact ⟨h1, h2⟩
  | cons p ps ih =>
      intro acc h1 h2
      rw [List.foldl_cons]
      obtain ⟨h1', h2'⟩ := insertAppend_inv acc p.1 p.2
        (hv p (List.mem_cons_self _ _)) h1 h2
      exact ih (fun q hq => hv q (List.mem_cons_of_mem _ hq)) _ h1' h2'

theorem parseQs_inv (qs : BStr) :
    List.Pairwise (fun a b => a.1 ≠ b.1) (parseQs qs) ∧
    ∀ kv ∈ parseQs qs, kv.2 ≠ [] ∧ ∀ w ∈ kv.2, w ≠ [] := by
  unfold parseQs
  exact foldl_insertAppend_inv (parseQsl qs) (parseQsl_values qs) []
    List.Pairwise.nil (by intro kv h; cases h)

end UrlQ

namespace UrlQ

open Py

theorem leadsWith_append {α} [DecidableEq α] (p x y : List α)
    (h : leadsWith p x = true) : leadsWith p (x ++ y) = true := by
  induction p generalizing x with
  | nil => rfl
  | cons a as ih =>
      cases x with
      | nil => cases h
      | cons b bs =>
          rw [List.cons_append]
          rw [leadsWith, Bool.and_eq_true] at h ⊢
          exact ⟨h.1, ih bs h.2⟩

theorem hasSubList_nil_pat {α} [DecidableEq α] (s : List α) :
    hasSubList ([] : List α) s = true := by
  cases s with
  | nil => rfl
  | cons c t => rw [hasSubList]; rfl

theorem hasSubList_append_left {α} [DecidableEq α] (p a b : List α)
    (h : hasSubList p a = true) : hasSubList p (a ++ b) = true := by
  induction a with
  | nil =>
      cases p with
      | nil => exact hasSubList_nil_pat b
      | cons x xs => cases h
  | cons c a' ih =>
      rw [hasSubList, Bool.or_eq_true] at h
      rw [List.cons_append, hasSubList, Bool.or_eq_true]
      rcases h with h | h
      · exact Or.inl (by rw [← List.cons_append]; exact leadsWith_append p _ b h)
      · exact Or.inr (ih h)

theorem hasSubList_append_right {α} [DecidableEq α] (p a b : List α)
    (h : hasSubList p b = true) : hasSubList p (a ++ b) = true := by
  induction a with
  | nil => exact h
  | cons c a' ih =>
      rw [List.cons_append, hasSubList, Bool.or_eq_true]
      exact Or.inr ih

theorem hasSubList_suffix_false {α} [DecidableEq α] (p a b : List α)
    (h : hasSubList p (a ++ b) = false) : hasSubList p b = false := by
  cases hb : hasSubList p b with
  | false => rfl
  | true => rw [hasSubList_append_right p a b hb] at h; cases h

theorem hasSubList_cons_false {α} [DecidableEq α] (p : List α) (c : α) (t : List α)
    (h : hasSubList p (c :: t) = false) :
    leadsWith p (c :: t) = false ∧ hasSubList p t = false := by
  rw [hasSubList, Bool.or_eq_false_iff] at h
  exact h

theorem replB_no_match (pat rep : BStr) (s : BStr)
    (h : hasSubList pat s = false) : replB pat rep s = s := by
  induction s with
  | nil => rw [replB]
  | cons c rest ih =>
      obtain ⟨h1, h2⟩ := hasSubList_cons_false pat c rest h
      rw [replB, dif_neg (fun hcon => by rw [hcon.2] at h1; cases h1), ih h2]

theorem hasSub_replB_rep (pat rep tgt : BStr) (hpat : pat ≠ [])
    (htgt : hasSubList tgt rep = true) :
    ∀ s, hasSubList pat s = true → hasSubList tgt (replB pat rep s) = true := by
  intro s
  induction s with
  | nil =>
      intro hs
      cases pat with
      | nil => exact absurd rfl hpat
      | cons x xs => cases hs
  | cons c rest ih =>
      intro hs
      by_cases hm : leadsWith pat (c :: rest) = true
      · rw [replB, dif_pos ⟨hpat, hm⟩]
        exact hasSubList_append_left tgt rep _ htgt
      · rw [replB, dif_neg (fun hcon => hm hcon.2)]
        have hs' : hasSubList pat rest = true := by
          rw [hasSubList, Bool.or_eq_true] at hs
          rcases hs with h | h
          · exact absurd h hm
          · exact h
        rw [hasSubList, Bool.or_eq_true]
        exact Or.inr (ih hs')

theorem look1_e (rest2 : BStr) (h : leadsWith [(53 : Byte)] rest2 = false) :
    leadsWith [(53 : Byte)] (replB e15B e35B rest2) = false := by
  match rest2 with
  | [] => rw [replB]; rfl
  | q :: rest3 =>
      by_cases hmq : leadsWith e15B (q :: rest3) = true
      · rw [replB, dif_pos ⟨by decide, hmq⟩]
        rfl
      · rw [replB, dif_neg (fun hcon => hmq hcon.2)]
        exact h

theorem look2_e (rest : BStr) (h : leadsWith [(49 : Byte), (53 : Byte)] rest = false) :
    leadsWith [(49 : Byte), (53 : Byte)] (replB e15B e35B rest) = false := by
  match rest with
  | [] => rw [replB]; rfl
  | r :: rest2 =>
      by_cases hmr : leadsWith e15B (r :: rest2) = true
      · rw [replB, dif_pos ⟨by decide, hmr⟩]
        rfl
      · rw [replB, dif_neg (fun hcon => hmr hcon.2)]
        have hexp : ∀ X : BStr, leadsWith [(49 : Byte), (53 : Byte)] (r :: X) =
            (decide ((49 : Byte) = r) && leadsWith [(53 : Byte)] X) := fun X => rfl
        rw [hexp] at h ⊢
        by_cases hr : (49 : Byte) = r
        · rw [decide_eq_true hr, Bool.true_and] at h ⊢
          exact look1_e rest2 h
        · rw [decide_eq_false hr, Bool.false_and]

theorem head_no_e15 (c : Byte) (rest : BStr)
    (hm : leadsWith e15B (c :: rest) = false) :
    leadsWith e15B (c :: replB e15B e35B rest) = false := by
  have hexp : ∀ X : BStr, leadsWith e15B (c :: X) =
      (decide ((101 : Byte) = c) && leadsWith [(49 : Byte), (53 : Byte)] X) :=
    fun X => rfl
  rw [hexp] at hm ⊢
  by_cases hc : (101 : Byte) = c
  · rw [decide_eq_true hc, Bool.true_and] at hm ⊢
    exact look2_e rest hm
  · rw [decide_eq_false hc, Bool.false_and]

theorem replB_e15_no_e15_aux (n : Nat) : ∀ s : BStr, s.length ≤ n →
    hasSubList e15B (replB e15B e35B s) = false := by
  induction n with
  | zero =>
      intro s hs
      have := List.eq_nil_of_length_eq_zero (Nat.le_zero.mp hs)
      subst this
      rw [replB]
      rfl
  | succ n ih =>
      intro s hs
      match s with
      | [] => rw [replB]; rfl
      | c :: rest =>
          by_cases hm : leadsWith e15B (c :: rest) = true
          · rw [replB, dif_pos ⟨by decide, hm⟩]
            have hlen : ((c :: rest).drop e15B.length).length ≤ n := by
              rw [List.length_drop]
              have h3 : e15B.length = 3 := rfl
              rw [h3]
              simp only [List.length_cons] at hs ⊢
              omega
            calc hasSubList e15B
                  (e35B ++ replB e15B e35B ((c :: rest).drop e15B.length))
                = hasSubList e15B (replB e15B e35B ((c :: rest).drop e15B.length)) := rfl
              _ = false := ih _ hlen
          · rw [replB, dif_neg (fun hcon => hm hcon.2)]
            have h2 := ih rest (by
              simp only [List.length_cons] at hs
              omega)
            show (leadsWith e15B (c :: replB e15B e35B rest) ||
              hasSubList e15B (replB e15B e35B rest)) = false
            rw [h2, Bool.or_false]
            exact head_no_e15 c rest (by
              cases hle : leadsWith e15B (c :: rest) with
              | false => rfl
              | true => exact absurd hle hm)

theorem replB_e15_no_e15 (s : BStr) :
    hasSubList e15B (replB e15B e35B s) = false :=
  replB_e15_no_e15_aux s.length s le_rfl

end UrlQ

namespace UrlQ

open Py

theorem look1_dj (rest2 : BStr) (h : leadsWith [(53 : Byte)] rest2 = false) :
    leadsWith [(53 : Byte)] (replB djB djE35B rest2) = false := by
  match rest2 with
  | [] => rw [replB]; rfl
  | q :: rest3 =>
      by_cases hmq : leadsWith djB (q :: rest3) = true
      · rw [replB, dif_pos ⟨by decide, hmq⟩]
        rfl
      · rw [replB, dif_neg (fun hcon => hmq hcon.2)]
        exact h

theorem look2_dj (rest : BStr)
    (h : leadsWith [(49 : Byte), (53 : Byte)] rest = false) :
    leadsWith [(49 : Byte), (53 : Byte)] (replB djB djE35B rest) = false := by
  match rest with
  | [] => rw [replB]; rfl
  | r :: rest2 =>
      by_cases hmr : leadsWith djB (r :: rest2) = true
      · rw [replB, dif_pos ⟨by decide, hmr⟩]
        rfl
      · rw [replB, dif_neg (fun hcon => hmr hcon.2)]
        have hexp : ∀ X : BStr, leadsWith [(49 : Byte), (53 : Byte)] (r :: X) =
            (decide ((49 : Byte) = r) && leadsWith [(53 : Byte)] X) := fun X => rfl
        rw [hexp] at h ⊢
        by_cases hr : (49 : Byte) = r
        · rw [decide_eq_true hr, Bool.true_and] at h ⊢
          exact look1_dj rest2 h
        · rw [decide_eq_false hr, Bool.false_and]

theorem head_no_e15_dj (c : Byte) (rest : BStr)
    (hm : leadsWith e15B (c :: rest) = false) :
    leadsWith e15B (c :: replB djB djE35B rest) = false := by
  have hexp : ∀ X : BStr, leadsWith e15B (c :: X) =
      (decide ((101 : Byte) = c) && leadsWith [(49 : Byte), (53 : Byte)] X) :=
    fun X => rfl
  rw [hexp] at hm ⊢
  by_cases hc : (101 : Byte) = c
  · rw [decide_eq_true hc, Bool.true_and] at hm ⊢
    exact look2_dj rest hm
  · rw [decide_eq_false hc, Bool.false_and]

theorem replB_dj_no_e15_aux (n : Nat) : ∀ s : BStr, s.length ≤ n →
    hasSubList e15B s = false →
    hasSubList e15B (replB djB djE35B s) = false := by
  induction n with
  | zero =>
      intro s hs _
      have := List.eq_nil_of_length_eq_zero (Nat.le_zero.mp hs)
      subst this
      rw [replB]
      rfl
  | succ n ih =>
      intro s hs h15
      match s with
      | [] => rw [replB]; rfl
      | c :: rest =>
          by_cases hm : leadsWith djB (c :: rest) = true
          · rw [replB, dif_pos ⟨by decide, hm⟩]
            have hlen : ((c :: rest).drop djB.length).length ≤ n := by
              rw [List.length_drop]
              have h7 : djB.length = 7 := rfl
              rw [h7]
              simp only [List.length_cons] at hs ⊢
              omega
            have hsub : hasSubList e15B ((c :: rest).drop djB.length) = false := by
              apply hasSubList_suffix_false e15B ((c :: rest).take djB.length)
              rw [List.take_append_drop]
              exact h15
            calc hasSubList e15B
                  (djE35B ++ replB djB djE35B ((c :: rest).drop djB.length))
                = hasSubList e15B (replB djB djE35B ((c :: rest).drop djB.length)) := rfl
              _ = false := ih _ hlen hsub
          · rw [replB, dif_neg (fun hcon => hm hcon.2)]
            obtain ⟨hh, ht⟩ := hasSubList_cons_false e15B c rest h15
            have h2 := ih rest (by
              simp only [List.length_cons] at hs
              omega) ht
            show (leadsWith e15B (c :: replB djB djE35B rest) ||
              hasSubList e15B (replB djB djE35B rest)) = false
            rw [h2, Bool.or_false]
            exact head_no_e15_dj c rest hh

theorem replB_dj_no_e15 (s : BStr) (h15 : hasSubList e15B s = false) :
    hasSubList e15B (replB djB djE35B s) = false :=
  replB_dj_no_e15_aux s.length s le_rfl h15

theorem stpTransform_idem (v : BStr) : stpTransform (stpTransform v) = stpTransform v := by
  by_cases h15 : hasSubList e15B v = true
  · have hv1 : stpTransform v = replB e15B e35B v := by
      rw [stpTransform, if_pos h15]
    rw [hv1]
    have hA : hasSubList e15B (replB e15B e35B v) = false := replB_e15_no_e15 v
    have hB : hasSubList e35B (replB e15B e35B v) = true :=
      hasSub_replB_rep e15B e35B e35B (by decide) (by decide) v h15
    rw [stpTransform, if_neg (by rw [hA]; exact Bool.false_ne_true), if_pos hB]
  · by_cases h35 : hasSubList e35B v = true
    · have hv1 : stpTransform v = v := by
        rw [stpTransform, if_neg h15, if_pos h35]
      rw [hv1, stpTransform, if_neg h15, if_pos h35]
    · have hv1 : stpTransform v = replB djB djE35B v := by
        rw [stpTransform, if_neg h15, if_neg h35]
      rw [hv1]
      by_cases hdj : hasSubList djB v = true
      · have hC : hasSubList e15B (replB djB djE35B v) = false :=
          replB_dj_no_e15 v (by
            cases hx : hasSubList e15B v with
            | false => rfl
            | true => exact absurd hx h15)
        have hD : hasSubList e35B (replB djB djE35B v) = true :=
          hasSub_replB_rep djB djE35B e35B (by decide) (by decide) v hdj
        rw [stpTransform, if_neg (by rw [hC]; exact Bool.false_ne_true), if_pos hD]
      · have hid : replB djB djE35B v = v := replB_no_match djB djE35B v (by
          cases hx : hasSubList djB v with
          | false => rfl
          | true => exact absurd hx hdj)
        rw [hid, stpTransform, if_neg h15, if_neg h35]
        exact hid

end UrlQ

namespace UrlQ

open Py

theorem splitFirstB_decomp (d : Byte) (s a b : BStr)
    (h : splitFirstB d s = some (a, b)) : s = a ++ d :: b ∧ d ∉ a := by
  induction s generalizing a with
  | nil => cases h
  | cons c rest ih =>
      rw [splitFirstB] at h
      by_cases hc : c = d
      · rw [if_pos hc] at h
        obtain ⟨rfl, rfl⟩ := Prod.mk.inj (Option.some.inj h)
        subst hc
        exact ⟨rfl, by simp⟩
      · rw [if_neg hc] at h
        cases hsp : splitFirstB d rest with
        | none => rw [hsp] at h; cases h
        | some pr =>
            obtain ⟨pa, pb⟩ := pr
            rw [hsp] at h
            simp only [Option.map] at h
            obtain ⟨rfl, rfl⟩ := Prod.mk.inj (Option.some.inj h)
            obtain ⟨h1, h2⟩ := ih pa (by rw [hsp])
            refine ⟨?_, ?_⟩
            · rw [List.cons_append, ← h1]
            · intro hd
              rcases List.mem_cons.mp hd with rfl | hd
              · exact hc rfl
              · exact h2 hd

theorem splitFirstB_none_iff (d : Byte) (s : BStr) :
    splitFirstB d s = none ↔ d ∉ s := by
  constructor
  · intro h hd
    induction s with
    | nil => cases hd
    | cons c rest ih =>
        rw [splitFirstB] at h
        by_cases hc : c = d
        · rw [if_pos hc] at h; cases h
        · rw [if_neg hc] at h
          rcases List.mem_cons.mp hd with rfl | hd2
          · exact hc rfl
          · cases hsp : splitFirstB d rest with
            | none => exact ih (by rw [hsp]) hd2
            | some pr => rw [hsp] at h; cases h
  · exact splitFirstB_not_mem d s

theorem lastSplitB_none_iff (d : Byte) (s : BStr) :
    lastSplitB d s = none ↔ d ∉ s := by
  induction s with
  | nil => simp [lastSplitB]
  | cons c rest ih =>
      rw [lastSplitB]
      constructor
      · intro h hd
        cases hsp : lastSplitB d rest with
        | some pr => rw [hsp] at h; cases h
        | none =>
            rw [hsp] at h
            rcases List.mem_cons.mp hd with rfl | hd2
            · rw [if_pos rfl] at h; cases h
            · exact (ih.mp hsp) hd2
      · intro hd
        have hc : c ≠ d := fun h => hd (h ▸ List.mem_cons_self c rest)
        have hrest : d ∉ rest := fun h => hd (List.mem_cons_of_mem _ h)
        rw [ih.mpr hrest, if_neg hc]

theorem lastSplitB_decomp (d : Byte) (s a b : BStr)
    (h : lastSplitB d s = some (a, b)) : s = a ++ d :: b ∧ d ∉ b := by
  induction s generalizing a with
  | nil => cases h
  | cons c rest ih =>
      rw [lastSplitB] at h
      cases hsp : lastSplitB d rest with
      | some pr =>
          obtain ⟨pa, pb⟩ := pr
          rw [hsp] at h
          obtain ⟨rfl, rfl⟩ := Prod.mk.inj (Option.some.inj h)
          obtain ⟨h1, h2⟩ := ih pa (by rw [hsp])
          exact ⟨by rw [List.cons_append, ← h1], h2⟩
      | none =>
          rw [hsp] at h
          by_cases hc : c = d
          · rw [if_pos hc] at h
            obtain ⟨rfl, rfl⟩ := Prod.mk.inj (Option.some.inj h)
            exact ⟨by rw [hc, List.nil_append], (lastSplitB_none_iff d rest).mp hsp⟩
          · rw [if_neg hc] at h
            cases h

theorem lastSplitB_append (d : Byte) (a b : BStr) (hb : d ∉ b) :
    lastSplitB d (a ++ d :: b) = some (a, b) := by
  induction a with
  | nil =>
      rw [List.nil_append, lastSplitB, (lastSplitB_none_iff d b).mpr hb, if_pos rfl]
  | cons c a' ih =>
      rw [List.cons_append, lastSplitB, ih]

theorem drop_len_takeWhile (P : Byte → Bool) (l : BStr) :
    l.drop (l.takeWhile P).length = l.dropWhile P := by
  induction l with
  | nil => rfl
  | cons c rest ih =>
      rw [List.takeWhile, List.dropWhile]
      cases hP : P c with
      | true => simpa using ih
      | false => rfl

theorem takeWhile_append_all (P : Byte → Bool) (a b : BStr)
    (ha : ∀ x ∈ a, P x = true) :
    (a ++ b).takeWhile P = a ++ b.takeWhile P := by
  induction a with
  | nil => rfl
  | cons c a' ih =>
      rw [List.cons_append, List.takeWhile, ha c (List.mem_cons_self _ _)]
      rw [ih (fun x hx => ha x (List.mem_cons_of_mem _ hx))]
      rfl

theorem cleanUrl_eq_self (s : BStr)
    (h : ∀ b ∈ s, ¬(b = (9 : Byte) ∨ b = 10 ∨ b = 13)) : cleanUrl s = s := by
  unfold cleanUrl
  rw [List.filter_eq_self]
  intro b hb
  simpa using h b hb

theorem mem_cleanUrl (s : BStr) (b : Byte) (hb : b ∈ cleanUrl s) :
    ¬(b = (9 : Byte) ∨ b = 10 ∨ b = 13) := by
  unfold cleanUrl at hb
  have := List.of_mem_filter hb
  simpa using this

theorem schemeSplit_head_notalpha (c : Byte) (rs : BStr) (hc : isAlphaB c = false) :
    schemeSplit (c :: rs) = ([], c :: rs) := by
  unfold schemeSplit
  rw [splitFirstB]
  by_cases h58 : c = (58 : Byte)
  · rw [if_pos h58]
  · rw [if_neg h58]
    cases hsp : splitFirstB 58 rs with
    | none => rfl
    | some pr =>
        show (match (c :: pr.1, pr.2).1 with
          | [] => ([], c :: rs)
          | h :: t => if isAlphaB h && t.all isSchemeChar then
              (List.map lowerByte (h :: t), (c :: pr.1, pr.2).2) else ([], c :: rs)) = _
        rw [show (c :: pr.1, pr.2).1 = c :: pr.1 from rfl]
        simp [hc]

end UrlQ

namespace UrlQ

open Py

theorem joinParams_nil (X : BStr) : joinParams X [] = X := by
  simp [joinParams]

theorem joinParams_cons (X : BStr) (c : Byte) (r : BStr) :
    joinParams X (c :: r) = X ++ [(59 : Byte)] ++ (c :: r) := by
  simp [joinParams]

theorem resplit_no59 (Y : BStr) (h : (59 : Byte) ∉ Y) : resplit Y = (Y, []) := by
  unfold resplit
  rw [if_neg h]

theorem resplit_facts (Y : BStr) :
    (joinParams (resplit Y).1 (resplit Y).2 = Y ∨
     Y = joinParams (resplit Y).1 (resplit Y).2 ++ [(59 : Byte)]) ∧
    resplit (joinParams (resplit Y).1 (resplit Y).2) = resplit Y := by
  by_cases h59 : (59 : Byte) ∈ Y
  · cases h47 : lastSplitB 47 Y with
    | some pr =>
        obtain ⟨before, lastSeg⟩ := pr
        obtain ⟨hY, h47l⟩ := lastSplitB_decomp 47 Y before lastSeg h47
        cases h59l : splitFirstB 59 lastSeg with
        | none =>
            have hres : resplit Y = (Y, []) := by
              unfold resplit splitParams
              rw [if_pos h59, h47]
              dsimp only
              rw [h59l]
            rw [hres]
            exact ⟨Or.inl (joinParams_nil Y), by rw [joinParams_nil, hres]⟩
        | some ab =>
            obtain ⟨a2, b2⟩ := ab
            obtain ⟨hLS, h59a⟩ := splitFirstB_decomp 59 lastSeg a2 b2 h59l
            have h47a : (47 : Byte) ∉ a2 := fun h =>
              h47l (by rw [hLS]; exact List.mem_append_left _ h)
            have hres : resplit Y = (before ++ [(47 : Byte)] ++ a2, b2) := by
              unfold resplit splitParams
              rw [if_pos h59, h47]
              dsimp only
              rw [h59l]
            rw [hres]
            cases b2 with
            | nil =>
                constructor
                · refine Or.inr ?_
                  rw [joinParams_nil, hY, hLS]
                  simp
                · rw [joinParams_nil]
                  by_cases h59p : (59 : Byte) ∈ before ++ [(47 : Byte)] ++ a2
                  · have h1 : before ++ [(47 : Byte)] ++ a2 = before ++ (47 : Byte) :: a2 := by
                      simp
                    unfold resplit splitParams
                    rw [if_pos h59p, h1, lastSplitB_append 47 before a2 h47a]
                    dsimp only
                    rw [(splitFirstB_none_iff 59 a2).mpr h59a, ← h1]
                  · rw [resplit_no59 _ h59p]
            | cons c2 r2 =>
                have hXY : joinParams (before ++ [(47 : Byte)] ++ a2) (c2 :: r2) = Y := by
                  rw [joinParams_cons, hY, hLS]
                  simp
                exact ⟨Or.inl hXY, by rw [hXY, hres]⟩
    | none =>
        cases h59f : splitFirstB 59 Y with
        | none => exact absurd h59 ((splitFirstB_none_iff 59 Y).mp h59f)
        | some ab =>
            obtain ⟨a2, b2⟩ := ab
            obtain ⟨hYd, h59a⟩ := splitFirstB_decomp 59 Y a2 b2 h59f
            have hres : resplit Y = (a2, b2) := by
              unfold resplit splitParams
              rw [if_pos h59, h47]
              dsimp only
              rw [h59f]
            rw [hres]
            cases b2 with
            | nil =>
                constructor
                · refine Or.inr ?_
                  rw [joinParams_nil, hYd]
                · rw [joinParams_nil, resplit_no59 a2 h59a]
            | cons c2 r2 =>
                have hXY : joinParams a2 (c2 :: r2) = Y := by
                  rw [joinParams_cons, hYd]
                  simp
                exact ⟨Or.inl hXY, by rw [hXY, hres]⟩
  · rw [resplit_no59 Y h59]
    exact ⟨Or.inl (joinParams_nil Y), by rw [joinParams_nil, resplit_no59 Y h59]⟩

end UrlQ

namespace UrlQ

open Py

set_option maxRecDepth 8192 in
theorem lowerByte_idem : ∀ b : Byte, lowerByte (lowerByte b) = lowerByte b := by
  decide

set_option maxRecDepth 8192 in
theorem lowerByte_alpha : ∀ b : Byte, isAlphaB b = true →
    isAlphaB (lowerByte b) = true := by decide

set_option maxRecDepth 8192 in
theorem lowerByte_scheme : ∀ b : Byte, isSchemeChar b = true →
    isSchemeChar (lowerByte b) = true := by decide

set_option maxRecDepth 8192 in
theorem alpha_is_scheme : ∀ b : Byte, isAlphaB b = true →
    isSchemeChar b = true := by decide

set_option maxRecDepth 8192 in
theorem schemeChar_excl : ∀ b : Byte, isSchemeChar b = true →
    b ≠ 58 ∧ ¬(b = (9 : Byte) ∨ b = 10 ∨ b = 13) := by decide

set_option maxRecDepth 8192 in
theorem queryByteOk_excl2 : ∀ b : Byte, queryByteOk b = true →
    b ≠ 9 ∧ b ≠ 10 ∧ b ≠ 13 ∧ b ≠ 35 ∧ b ≠ 47 ∧ b ≠ 58 ∧ b ≠ 63 := by decide

theorem schemeSplit_accept (h : Byte) (t : BStr) (rest : BStr)
    (hh : isAlphaB h = true) (ht : (h :: t).all isSchemeChar = true)
    (hmap : (h :: t).map lowerByte = h :: t) :
    schemeSplit ((h :: t) ++ (58 : Byte) :: rest) = (h :: t, rest) := by
  have h58 : (58 : Byte) ∉ h :: t := by
    intro hm
    have := List.all_eq_true.mp ht 58 hm
    exact absurd rfl (schemeChar_excl 58 this).1
  unfold schemeSplit
  rw [splitFirstB_append 58 (h :: t) rest h58]
  dsimp only
  rw [if_pos]
  · rw [hmap]
  · rw [Bool.and_eq_true]
    refine ⟨hh, ?_⟩
    rw [List.all_cons, Bool.and_eq_true] at ht
    exact ht.2

theorem schemeSplit_eq_nil_inv (s u1 : BStr) (h : schemeSplit s = ([], u1)) :
    u1 = s ∧
    (splitFirstB 58 s = none ∨
     ∃ pre post, splitFirstB 58 s = some (pre, post) ∧
       (pre = [] ∨ ∃ h0 t0, pre = h0 :: t0 ∧
         ¬(isAlphaB h0 && t0.all isSchemeChar) = true)) := by
  unfold schemeSplit at h
  cases hsp : splitFirstB 58 s with
  | none =>
      rw [hsp] at h
      obtain ⟨-, rfl⟩ := Prod.mk.inj h
      exact ⟨rfl, Or.inl rfl⟩
  | some pr =>
      obtain ⟨pre, post⟩ := pr
      rw [hsp] at h
      cases pre with
      | nil =>
          dsimp only at h
          obtain ⟨-, rfl⟩ := Prod.mk.inj h
          exact ⟨rfl, Or.inr ⟨[], post, rfl, Or.inl rfl⟩⟩
      | cons h0 t0 =>
          dsimp only at h
          by_cases hacc : (isAlphaB h0 && t0.all isSchemeChar) = true
          · rw [if_pos hacc] at h
            obtain ⟨hmap, -⟩ := Prod.mk.inj h
            cases hmap
          · rw [if_neg hacc] at h
            obtain ⟨-, rfl⟩ := Prod.mk.inj h
            exact ⟨rfl, Or.inr ⟨h0 :: t0, post, rfl, Or.inr ⟨h0, t0, rfl, hacc⟩⟩⟩

theorem schemeSplit_cons_inv (c : Byte) (sc u1 s : BStr)
    (h : schemeSplit s = (c :: sc, u1)) :
    isAlphaB c = true ∧ (c :: sc).all isSchemeChar = true ∧
    (c :: sc).map lowerByte = c :: sc ∧ ∃ pre, s = pre ++ (58 : Byte) :: u1 := by
  unfold schemeSplit at h
  cases hsp : splitFirstB 58 s with
  | none =>
      rw [hsp] at h
      obtain ⟨h1, -⟩ := Prod.mk.inj h
      cases h1
  | some pr =>
      obtain ⟨pre, post⟩ := pr
      rw [hsp] at h
      cases pre with
      | nil =>
          dsimp only at h
          obtain ⟨h1, -⟩ := Prod.mk.inj h
          cases h1
      | cons h0 t0 =>
          dsimp only at h
          by_cases hacc : (isAlphaB h0 && t0.all isSchemeChar) = true
          · rw [if_pos hacc] at h
            obtain ⟨hmap, rfl⟩ := Prod.mk.inj h
            rw [Bool.and_eq_true] at hacc
            have hallpre : ∀ x ∈ h0 :: t0, isSchemeChar x = true := by
              intro x hx
              rcases List.mem_cons.mp hx with rfl | hx
              · exact alpha_is_scheme x hacc.1
              · exact List.all_eq_true.mp hacc.2 x hx
            have hc : c = lowerByte h0 := by
              rw [List.map_cons] at hmap
              exact ((List.cons.inj hmap).1).symm
            refine ⟨?_, ?_, ?_, ?_⟩
            · rw [hc]
              exact lowerByte_alpha h0 hacc.1
            · rw [← hmap, List.all_eq_true]
              intro x hx
              rcases List.mem_map.mp hx with ⟨y, hy, rfl⟩
              exact lowerByte_scheme y (hallpre y hy)
            · rw [← hmap, List.map_map]
              exact List.map_congr_left (fun a _ => lowerByte_idem a)
            · exact ⟨h0 :: t0, (splitFirstB_decomp 58 s (h0 :: t0) post hsp).1⟩
          · rw [if_neg hacc] at h
            obtain ⟨h1, -⟩ := Prod.mk.inj h
            cases h1

end UrlQ

namespace UrlQ

open Py

theorem dropWhile_cases (P : Byte → Bool) (l : BStr) :
    l.dropWhile P = [] ∨
    ∃ h t, l.dropWhile P = h :: t ∧ P h = false := by
  induction l with
  | nil => exact Or.inl rfl
  | cons c rest ih =>
      rw [List.dropWhile]
      cases hP : P c with
      | true => simpa using ih
      | false => exact Or.inr ⟨c, rest, rfl, hP⟩

theorem head_of_split_pre (d c : Byte) (t pre post : BStr)
    (h : splitFirstB d (c :: t) = some (pre, post)) :
    pre = [] ∨ ∃ t2, pre = c :: t2 := by
  obtain ⟨hdec, -⟩ := splitFirstB_decomp d (c :: t) pre post h
  cases pre with
  | nil => exact Or.inl rfl
  | cons q pre2 =>
      rw [List.cons_append] at hdec
      exact Or.inr ⟨pre2, by rw [(List.cons.inj hdec).1]⟩

theorem splitFirstB_left_none (d : Byte) (A B : BStr) (hA : d ∉ A) :
    splitFirstB d (A ++ B) =
      (splitFirstB d B).map fun pr => (A ++ pr.1, pr.2) := by
  induction A with
  | nil =>
      rw [List.nil_append]
      cases splitFirstB d B with
      | none => rfl
      | some pr => rfl
  | cons c A' ih =>
      have hc : c ≠ d := fun h => hA (h ▸ List.mem_cons_self _ _)
      rw [List.cons_append, splitFirstB, if_neg hc,
        ih (fun h => hA (List.mem_cons_of_mem _ h))]
      cases splitFirstB d B with
      | none => rfl
      | some pr => rfl

theorem bad_of_63 (pre : BStr) (h63 : (63 : Byte) ∈ pre) :
    pre = [] ∨ ∃ h0 t0, pre = h0 :: t0 ∧
      ¬(isAlphaB h0 && t0.all isSchemeChar) = true := by
  cases pre with
  | nil => exact Or.inl rfl
  | cons h0 t0 =>
      refine Or.inr ⟨h0, t0, rfl, ?_⟩
      rw [Bool.and_eq_true]
      rintro ⟨ha, hall⟩
      rcases List.mem_cons.mp h63 with rfl | h63t
      · exact absurd ha (by decide)
      · have := List.all_eq_true.mp hall _ h63t
        exact absurd this (by decide)

theorem schemeSplit_none (s : BStr) (hsp : splitFirstB 58 s = none) :
    schemeSplit s = ([], s) := by
  unfold schemeSplit
  rw [hsp]

theorem schemeSplit_bad (s pre post : BStr)
    (hsp : splitFirstB 58 s = some (pre, post))
    (hbad : pre = [] ∨ ∃ h0 t0, pre = h0 :: t0 ∧
      ¬(isAlphaB h0 && t0.all isSchemeChar) = true) :
    schemeSplit s = ([], s) := by
  unfold schemeSplit
  rw [hsp]
  rcases hbad with rfl | ⟨h0, t0, rfl, hbad2⟩
  · rfl
  · dsimp only
    rw [if_neg hbad2]

theorem leadsWith_cons_47 (t : BStr) :
    leadsWith [(47 : Byte)] ((47 : Byte) :: t) = true := rfl

end UrlQ

namespace UrlQ

open Py

theorem splitmatch_facts (d : Byte) (s : BStr) :
    ∃ a b T,
      (match splitFirstB d s with | some p => p | none => (s, [])) = (a, b) ∧
      s = a ++ T ∧ d ∉ a ∧ (T = [] ∨ T = d :: b) ∧ (∀ x ∈ b, x ∈ s) := by
  cases h : splitFirstB d s with
  | some pr =>
      obtain ⟨a, b⟩ := pr
      obtain ⟨hdec, hna⟩ := splitFirstB_decomp d s a b h
      refine ⟨a, b, d :: b, rfl, hdec, hna, Or.inr rfl, ?_⟩
      intro x hx
      rw [hdec]
      exact List.mem_append_right _ (List.mem_cons_of_mem _ hx)
  | none =>
      refine ⟨s, [], [], rfl, by simp, (splitFirstB_none_iff d s).mp h, Or.inl rfl, ?_⟩
      intro x hx
      cases hx

end UrlQ

namespace UrlQ

open Py

theorem urlparse_ok_facts (u : BStr) (p : UrlParts) (hp : urlparseE u = .ok p) :
    (p.scheme = [] ∨ ∃ c sc, p.scheme = c :: sc ∧ isAlphaB c = true ∧
      (c :: sc).all isSchemeChar = true ∧ (c :: sc).map lowerByte = c :: sc) ∧
    (∀ b ∈ p.netloc, isNetlocDelim b = false ∧ ¬(b = (9 : Byte) ∨ b = 10 ∨ b = 13)) ∧
    (((91 : Byte) ∈ p.netloc) = ((93 : Byte) ∈ p.netloc)) ∧
    (∀ b ∈ joinParams p.path p.params,
      b ≠ (63 : Byte) ∧ b ≠ (35 : Byte) ∧ ¬(b = (9 : Byte) ∨ b = 10 ∨ b = 13)) ∧
    resplit (joinParams p.path p.params) = (p.path, p.params) ∧
    (∀ b ∈ p.fragment, ¬(b = (9 : Byte) ∨ b = 10 ∨ b = 13)) ∧
    (p.netloc ≠ [] → (joinParams p.path p.params = [] ∨
      leadsWith [(47 : Byte)] (joinParams p.path p.params) = true)) ∧
    (p.scheme = [] →
      ((joinParams p.path p.params = [] ∨
        leadsWith [(47 : Byte)] (joinParams p.path p.params) = true) ∨
       (∃ T, cleanUrl u = joinParams p.path p.params ++ T ∧
         schemeSplit (cleanUrl u) = ([], cleanUrl u)))) := by
  unfold urlparseE parseRest at hp
  dsimp only at hp
  cases hss : schemeSplit (cleanUrl u) with
  | mk scheme u1 =>
  rw [hss] at hp
  dsimp only at hp
  cases hnet : (if leadsWith [(47 : Byte), 47] u1 = true then
      ((u1.drop 2).takeWhile fun b => ¬ isNetlocDelim b,
       (u1.drop 2).drop ((u1.drop 2).takeWhile fun b => ¬ isNetlocDelim b).length)
    else (([] : BStr), u1)) with
  | mk netloc u2 =>
  rw [hnet] at hp
  dsimp only at hp
  by_cases hbr : (((91 : Byte) ∈ netloc)) ≠ (((93 : Byte) ∈ netloc))
  · rw [if_pos hbr] at hp
    cases hp
  rw [if_neg hbr] at hp
  obtain ⟨u3, fragment, Tf, hm35, hdec35, hni35, hTf, hmemf⟩ := splitmatch_facts 35 u2
  rw [hm35] at hp
  dsimp only at hp
  obtain ⟨u4, query, Tq, hm63, hdec63, hni63, hTq, hmemq⟩ := splitmatch_facts 63 u3
  rw [hm63] at hp
  dsimp only at hp
  cases hre : resplit u4 with
  | mk path params =>
  rw [hre] at hp
  dsimp only at hp
  obtain rfl : p = ⟨scheme, netloc, path, params, query, fragment⟩ :=
    (Except.ok.inj hp).symm
  dsimp only
  -- scheme facts
  have hschemecase :
      (scheme = [] ∧ u1 = cleanUrl u) ∨
      (∃ c sc, scheme = c :: sc ∧ isAlphaB c = true ∧
        (c :: sc).all isSchemeChar = true ∧ (c :: sc).map lowerByte = c :: sc ∧
        ∃ pre, cleanUrl u = pre ++ (58 : Byte) :: u1) := by
    cases hsc : scheme with
    | nil =>
        rw [hsc] at hss
        exact Or.inl ⟨rfl, (schemeSplit_eq_nil_inv _ _ hss).1⟩
    | cons c sc =>
        rw [hsc] at hss
        obtain ⟨h1, h2, h3, h4⟩ := schemeSplit_cons_inv c sc u1 (cleanUrl u) hss
        exact Or.inr ⟨c, sc, rfl, h1, h2, h3, h4⟩
  have hsub1 : ∀ b ∈ u1, b ∈ cleanUrl u := by
    rcases hschemecase with ⟨-, h⟩ | ⟨c, sc, -, -, -, -, pre, h⟩
    · intro b hb
      rw [← h]
      exact hb
    · intro b hb
      rw [h]
      exact List.mem_append_right _ (List.mem_cons_of_mem _ hb)
  have hclean1 : ∀ b ∈ u1, ¬(b = (9 : Byte) ∨ b = 10 ∨ b = 13) :=
    fun b hb => mem_cleanUrl u b (hsub1 b hb)
  -- netloc branch facts
  have hnetfacts :
      (netloc = [] ∧ u2 = u1) ∨
      (netloc = (u1.drop 2).takeWhile (fun b => ¬ isNetlocDelim b) ∧
       u2 = (u1.drop 2).dropWhile (fun b => ¬ isNetlocDelim b)) := by
    by_cases hlead : leadsWith [(47 : Byte), 47] u1 = true
    · rw [if_pos hlead] at hnet
      obtain ⟨h1, h2⟩ := Prod.mk.inj hnet
      right
      refine ⟨h1.symm, ?_⟩
      rw [← h2, drop_len_takeWhile]
    · rw [if_neg hlead] at hnet
      obtain ⟨h1, h2⟩ := Prod.mk.inj hnet
      exact Or.inl ⟨h1.symm, h2.symm⟩
  have hsub2 : ∀ b ∈ u2, b ∈ u1 := by
    rcases hnetfacts with ⟨-, h⟩ | ⟨-, h⟩
    · intro b hb
      rw [h] at hb
      exact hb
    · intro b hb
      rw [h] at hb
      exact List.drop_subset 2 u1 ((List.dropWhile_sublist _).subset hb)
  have hsub4 : ∀ b ∈ u4, b ∈ u2 := by
    intro b hb
    rw [hdec35]
    exact List.mem_append_left _ (by rw [hdec63]; exact List.mem_append_left _ hb)
  -- join facts
  have hjoin := (resplit_facts u4).1
  have hstab := (resplit_facts u4).2
  rw [hre] at hjoin hstab
  dsimp only at hjoin hstab
  have hsubX : ∀ b ∈ joinParams path params, b ∈ u4 := by
    rcases hjoin with h | h
    · intro b hb
      rw [← h]
      exact hb
    · intro b hb
      rw [h]
      exact List.mem_append_left _ hb
  -- the head-based fact for branch-taken
  have hX47 : u2 = (u1.drop 2).dropWhile (fun b => ¬ isNetlocDelim b) →
      (joinParams path params = [] ∨
       leadsWith [(47 : Byte)] (joinParams path params) = true) := by
    intro hu2
    rcases dropWhile_cases (fun b => ¬ isNetlocDelim b) (u1.drop 2) with hdw | ⟨h2, t2, hdw, hP⟩
    · -- u2 = []
      rw [hdw] at hu2
      have hu3 : u3 = [] := by
        have := hu2 ▸ hdec35
        exact (List.append_eq_nil.mp this.symm).1
      have hu4 : u4 = [] := by
        rw [hu3] at hdec63
        exact (List.append_eq_nil.mp hdec63.symm).1
      rcases hjoin with h | h
      · rw [h, hu4]
        exact Or.inl rfl
      · rw [hu4] at h
        exact absurd h.symm (by simp)
    · rw [hdw] at hu2
      have hdelim : isNetlocDelim h2 = true := by
        simpa using hP
      have hu3h : u3 = [] ∨ ∃ t3, u3 = h2 :: t3 := by
        cases hu3c : u3 with
        | nil => exact Or.inl rfl
        | cons q t3 =>
            rw [hu3c] at hdec35
            rw [hu2, List.cons_append] at hdec35
            exact Or.inr ⟨t3, by rw [(List.cons.inj hdec35).1]⟩
      have hu4h : u4 = [] ∨ ∃ t4, u4 = h2 :: t4 := by
        rcases hu3h with h | ⟨t3, h⟩
        · rw [h] at hdec63
          exact Or.inl (List.append_eq_nil.mp hdec63.symm).1
        · cases hu4c : u4 with
          | nil => exact Or.inl rfl
          | cons q t4 =>
              rw [hu4c, List.cons_append] at hdec63
              rw [h] at hdec63
              exact Or.inr ⟨t4, by rw [← (List.cons.inj hdec63).1]⟩
      have hd3 : h2 = (47 : Byte) ∨ h2 = 63 ∨ h2 = 35 := by
        have := hdelim
        unfold isNetlocDelim at this
        simpa [or_assoc] using this
      have hu4fin : u4 = [] ∨ ∃ t4, u4 = (47 : Byte) :: t4 := by
        rcases hd3 with rfl | rfl | rfl
        · exact hu4h
        · rcases hu4h with h | ⟨t4, h⟩
          · exact Or.inl h
          · exact absurd (h ▸ List.mem_cons_self _ _) hni63
        · rcases hu3h with h | ⟨t3, h⟩
          · rw [h] at hdec63
            exact Or.inl (List.append_eq_nil.mp hdec63.symm).1
          · exact absurd (h ▸ List.mem_cons_self _ _) hni35
      rcases hu4fin with hu4 | ⟨t4, hu4⟩
      · rcases hjoin with h | h
        · rw [h, hu4]
          exact Or.inl rfl
        · rw [hu4] at h
          exact absurd h.symm (by simp)
      · rcases hjoin with h | h
        · rw [h, hu4]
          exact Or.inr rfl
        · cases hXc : joinParams path params with
          | nil => exact Or.inl rfl
          | cons x0 X0 =>
              rw [hXc, hu4, List.cons_append] at h
              refine Or.inr ?_
              rw [← (List.cons.inj h).1]
              rfl
  refine ⟨?_, ?_, ?_, ?_, hstab, ?_, ?_, ?_⟩
  · rcases hschemecase with ⟨h, -⟩ | ⟨c, sc, h1, h2, h3, h4, -⟩
    · exact Or.inl h
    · exact Or.inr ⟨c, sc, h1, h2, h3, h4⟩
  · intro b hb
    rcases hnetfacts with ⟨hn, -⟩ | ⟨hn, -⟩
    · rw [hn] at hb
      cases hb
    · rw [hn] at hb
      have hP := List.mem_takeWhile_imp hb
      have hmem : b ∈ u1 :=
        List.drop_subset 2 u1 ((List.takeWhile_prefix _).subset hb)
      exact ⟨by simpa using hP, hclean1 b hmem⟩
  · exact not_ne_iff.mp hbr
  · intro b hb
    have hb4 := hsubX b hb
    have hb3 : b ∈ u3 := by
      rw [hdec63]
      exact List.mem_append_left _ hb4
    refine ⟨fun h => hni63 (h ▸ hb4), fun h => hni35 (h ▸ hb3), ?_⟩
    exact hclean1 b (hsub2 b (hsub4 b hb4))
  · intro b hb
    exact hclean1 b (hsub2 b (hmemf b hb))
  · intro hne
    rcases hnetfacts with ⟨hn, -⟩ | ⟨-, hu2⟩
    · exact absurd hn hne
    · exact hX47 hu2
  · intro hsc
    rcases hnetfacts with ⟨-, hu2⟩ | ⟨-, hu2⟩
    · refine Or.inr ?_
      rcases hschemecase with ⟨-, hu1⟩ | ⟨c, sc2, hcs, -⟩
      · rcases hjoin with hXu4 | hu4X
        · refine ⟨Tq ++ Tf, ?_, ?_⟩
          · rw [← hu1, ← hu2, hdec35, hdec63, hXu4, List.append_assoc]
          · rw [hsc, hu1]
        · refine ⟨(59 : Byte) :: (Tq ++ Tf), ?_, ?_⟩
          · rw [← hu1, ← hu2, hdec35, hdec63, hu4X]
            simp
          · rw [hsc, hu1]
      · rw [hcs] at hsc
        cases hsc
    · exact Or.inl (hX47 hu2)

end UrlQ

namespace UrlQ

open Py

theorem leads2_to_leads1 (X : BStr) (h : leadsWith [(47 : Byte), 47] X = true) :
    leadsWith [(47 : Byte)] X = true := by
  match X with
  | [] => cases h
  | [x0] =>
      exfalso
      have : leadsWith [(47 : Byte), 47] [x0] =
          (decide ((47 : Byte) = x0) && false) := rfl
      rw [this, Bool.and_false] at h
      cases h
  | x0 :: x1 :: t =>
      have hx : leadsWith [(47 : Byte), 47] (x0 :: x1 :: t) =
          (decide ((47 : Byte) = x0) && leadsWith [(47 : Byte)] (x1 :: t)) := rfl
      rw [hx, Bool.and_eq_true] at h
      show (decide ((47 : Byte) = x0) && true) = true
      rw [Bool.and_true, decide_eq_true_eq]
      have := h.1
      rwa [decide_eq_true_eq] at this

theorem leads2_append_63 (X R : BStr)
    (hx : leadsWith [(47 : Byte), 47] X = false) :
    leadsWith [(47 : Byte), 47] (X ++ (63 : Byte) :: R) = false := by
  match X with
  | [] =>
      rw [List.nil_append]
      rfl
  | [x0] =>
      show (decide ((47 : Byte) = x0) && leadsWith [(47 : Byte)] ((63 : Byte) :: R)) = false
      rw [show leadsWith [(47 : Byte)] ((63 : Byte) :: R) = false from rfl, Bool.and_false]
  | x0 :: x1 :: t =>
      show (decide ((47 : Byte) = x0) &&
        (decide ((47 : Byte) = x1) && leadsWith ([] : BStr) (t ++ (63 : Byte) :: R))) = false
      have hx2 : (decide ((47 : Byte) = x0) &&
          (decide ((47 : Byte) = x1) && leadsWith ([] : BStr) t)) = false := hx
      rw [show leadsWith ([] : BStr) (t ++ (63 : Byte) :: R) = true from rfl]
      rw [show leadsWith ([] : BStr) t = true from rfl] at hx2
      exact hx2

theorem takeWhile_delim_head (b : Byte) (hb : isNetlocDelim b = true) (t : BStr) :
    (b :: t).takeWhile (fun x => ¬ isNetlocDelim x) = [] := by
  rw [List.takeWhile]
  simp [hb]

end UrlQ

namespace UrlQ

open Py

theorem parseRest_noFrag (scheme netloc X q path params : BStr)
    (hbr : (((91 : Byte) ∈ netloc)) = (((93 : Byte) ∈ netloc)))
    (h63X : (63 : Byte) ∉ X) (h35X : (35 : Byte) ∉ X) (hq35 : (35 : Byte) ∉ q)
    (hre : resplit X = (path, params)) :
    parseRest scheme netloc (X ++ (63 : Byte) :: q) =
      .ok ⟨scheme, netloc, path, params, q, []⟩ := by
  unfold parseRest
  rw [if_neg (not_ne_iff.mpr hbr)]
  have h35 : splitFirstB 35 (X ++ (63 : Byte) :: q) = none := by
    apply splitFirstB_not_mem
    intro hm
    rcases List.mem_append.mp hm with h | h
    · exact h35X h
    · rcases List.mem_cons.mp h with h | h
      · cases h
      · exact hq35 h
  rw [h35]
  dsimp only
  rw [splitFirstB_append 63 X q h63X]
  dsimp only
  rw [hre]

theorem parseRest_frag (scheme netloc X q frag path params : BStr)
    (hbr : (((91 : Byte) ∈ netloc)) = (((93 : Byte) ∈ netloc)))
    (h63X : (63 : Byte) ∉ X) (h35X : (35 : Byte) ∉ X) (hq35 : (35 : Byte) ∉ q)
    (hre : resplit X = (path, params)) :
    parseRest scheme netloc ((X ++ (63 : Byte) :: q) ++ (35 : Byte) :: frag) =
      .ok ⟨scheme, netloc, path, params, q, frag⟩ := by
  unfold parseRest
  rw [if_neg (not_ne_iff.mpr hbr)]
  have h35 : splitFirstB 35 ((X ++ (63 : Byte) :: q) ++ (35 : Byte) :: frag) =
      some (X ++ (63 : Byte) :: q, frag) := by
    apply splitFirstB_append
    intro hm
    rcases List.mem_append.mp hm with h | h
    · exact h35X h
    · rcases List.mem_cons.mp h with h | h
      · cases h
      · exact hq35 h
  rw [h35]
  dsimp only
  rw [splitFirstB_append 63 X q h63X]
  dsimp only
  rw [hre]

end UrlQ

namespace UrlQ

open Py

theorem clean_app (a b : BStr)
    (ha : ∀ x ∈ a, ¬(x = (9 : Byte) ∨ x = 10 ∨ x = 13))
    (hb : ∀ x ∈ b, ¬(x = (9 : Byte) ∨ x = 10 ∨ x = 13)) :
    ∀ x ∈ a ++ b, ¬(x = (9 : Byte) ∨ x = 10 ∨ x = 13) := by
  intro x hx
  rcases List.mem_append.mp hx with h | h
  · exact ha x h
  · exact hb x h

theorem clean_cons (c : Byte) (b : BStr)
    (hc : ¬(c = (9 : Byte) ∨ c = 10 ∨ c = 13))
    (hb : ∀ x ∈ b, ¬(x = (9 : Byte) ∨ x = 10 ∨ x = 13)) :
    ∀ x ∈ c :: b, ¬(x = (9 : Byte) ∨ x = 10 ∨ x = 13) := by
  intro x hx
  rcases List.mem_cons.mp hx with rfl | h
  · exact hc
  · exact hb x h

theorem leads47_head (X : BStr) (h : leadsWith [(47 : Byte)] X = true) :
    ∃ X2, X = (47 : Byte) :: X2 := by
  cases X with
  | nil => cases h
  | cons x0 X2 =>
      refine ⟨X2, ?_⟩
      have h2 : (decide ((47 : Byte) = x0) && true) = true := h
      rw [Bool.and_true, decide_eq_true_eq] at h2
      rw [← h2]

theorem parseRest_frag2 (scheme netloc X q frag path params : BStr)
    (hbr : (((91 : Byte) ∈ netloc)) = (((93 : Byte) ∈ netloc)))
    (h63X : (63 : Byte) ∉ X) (h35X : (35 : Byte) ∉ X) (hq35 : (35 : Byte) ∉ q)
    (hre : resplit X = (path, params)) :
    parseRest scheme netloc (X ++ (63 : Byte) :: (q ++ (35 : Byte) :: frag)) =
      .ok ⟨scheme, netloc, path, params, q, frag⟩ := by
  rw [show X ++ (63 : Byte) :: (q ++ (35 : Byte) :: frag) =
      (X ++ (63 : Byte) :: q) ++ (35 : Byte) :: frag by simp]
  exact parseRest_frag scheme netloc X q frag path params hbr h63X h35X hq35 hre

end UrlQ
namespace UrlQ

open Py

theorem netSplit_app (netloc X W : BStr)
    (hnl : ∀ b ∈ netloc, isNetlocDelim b = false)
    (hX : X = [] ∨ ∃ X2, X = (47 : Byte) :: X2) :
    (if leadsWith [(47 : Byte), 47]
          ((47 : Byte) :: (47 : Byte) :: (netloc ++ (X ++ (63 : Byte) :: W))) = true then
        ((((47 : Byte) :: (47 : Byte) :: (netloc ++ (X ++ (63 : Byte) :: W))).drop 2).takeWhile
            (fun b => ¬ isNetlocDelim b),
          (((47 : Byte) :: (47 : Byte) :: (netloc ++ (X ++ (63 : Byte) :: W))).drop 2).drop
            ((((47 : Byte) :: (47 : Byte) :: (netloc ++ (X ++ (63 : Byte) :: W))).drop 2).takeWhile
              (fun b => ¬ isNetlocDelim b)).length)
      else ([], (47 : Byte) :: (47 : Byte) :: (netloc ++ (X ++ (63 : Byte) :: W)))) =
      (netloc, X ++ (63 : Byte) :: W) := by
  have htw : ((netloc ++ (X ++ (63 : Byte) :: W)).takeWhile fun b => ¬ isNetlocDelim b)
      = netloc := by
    rw [takeWhile_append_all _ netloc _ (fun x hx => by simp [hnl x hx])]
    rcases hX with rfl | ⟨X2, rfl⟩
    · rw [List.nil_append, takeWhile_delim_head 63 (by decide) W, List.append_nil]
    · rw [List.cons_append, takeWhile_delim_head 47 (by decide), List.append_nil]
  rw [if_pos (show leadsWith [(47 : Byte), 47]
      ((47 : Byte) :: (47 : Byte) :: (netloc ++ (X ++ (63 : Byte) :: W))) = true from rfl)]
  rw [show (((47 : Byte) :: (47 : Byte) :: (netloc ++ (X ++ (63 : Byte) :: W))).drop 2)
      = netloc ++ (X ++ (63 : Byte) :: W) from rfl]
  rw [htw, List.drop_left]

theorem scheme_reject_transfer (X T W U : BStr)
    (hT : U = X ++ T) (hrej : schemeSplit U = ([], U)) :
    schemeSplit (X ++ (63 : Byte) :: W) = ([], X ++ (63 : Byte) :: W) := by
  cases hc58 : splitFirstB 58 X with
  | none =>
      have h58X : (58 : Byte) ∉ X := (splitFirstB_none_iff 58 X).mp hc58
      have hsp := splitFirstB_left_none 58 X ((63 : Byte) :: W) h58X
      cases hin : splitFirstB 58 ((63 : Byte) :: W) with
      | none =>
          rw [hin] at hsp
          simp only [Option.map] at hsp
          exact schemeSplit_none _ hsp
      | some pr =>
          obtain ⟨pb, qb⟩ := pr
          rw [hin] at hsp
          simp only [Option.map] at hsp
          obtain ⟨hdec, -⟩ := splitFirstB_decomp 58 ((63 : Byte) :: W) pb qb hin
          cases pb with
          | nil =>
              rw [List.nil_append] at hdec
              exact absurd (List.cons.inj hdec).1 (by decide)
          | cons p0 pt =>
              rw [List.cons_append] at hdec
              obtain ⟨hp0, -⟩ := List.cons.inj hdec
              have h63mem : (63 : Byte) ∈ X ++ p0 :: pt := by
                apply List.mem_append_right
                rw [← hp0]
                exact List.mem_cons_self _ _
              exact schemeSplit_bad _ _ _ hsp (bad_of_63 _ h63mem)
  | some pr =>
      obtain ⟨preX, postX⟩ := pr
      obtain ⟨hXd, h58p⟩ := splitFirstB_decomp 58 X preX postX hc58
      have hspU : splitFirstB 58 U = some (preX, postX ++ T) := by
        rw [hT, hXd, List.append_assoc, List.cons_append]
        exact splitFirstB_append 58 preX (postX ++ T) h58p
      obtain ⟨-, hdis⟩ := schemeSplit_eq_nil_inv U U hrej
      rcases hdis with hnone | ⟨pre, post, hsome, hbad⟩
      · rw [hspU] at hnone; cases hnone
      · rw [hspU] at hsome
        obtain ⟨hpre, -⟩ := Prod.mk.inj (Option.some.inj hsome)
        have hspW : splitFirstB 58 (X ++ (63 : Byte) :: W) =
            some (preX, postX ++ (63 : Byte) :: W) := by
          rw [hXd, List.append_assoc, List.cons_append]
          exact splitFirstB_append 58 preX _ h58p
        exact schemeSplit_bad _ _ _ hspW (by rw [hpre]; exact hbad)

end UrlQ

namespace UrlQ

open Py

theorem reparse_b1_nil (netloc X W : BStr) (out : UrlParts)
    (hnl : ∀ b ∈ netloc, isNetlocDelim b = false)
    (hcn : ∀ b ∈ netloc, ¬(b = (9 : Byte) ∨ b = 10 ∨ b = 13))
    (hXh : X = [] ∨ ∃ X2, X = (47 : Byte) :: X2)
    (hcX : ∀ b ∈ X, ¬(b = (9 : Byte) ∨ b = 10 ∨ b = 13))
    (hcW : ∀ b ∈ W, ¬(b = (9 : Byte) ∨ b = 10 ∨ b = 13))
    (hpr : parseRest [] netloc (X ++ (63 : Byte) :: W) = .ok out) :
    urlparseE ((47 : Byte) :: (47 : Byte) :: (netloc ++ (X ++ (63 : Byte) :: W))) =
      .ok out := by
  have hclean : ∀ x ∈ (47 : Byte) :: (47 : Byte) :: (netloc ++ (X ++ (63 : Byte) :: W)),
      ¬(x = (9 : Byte) ∨ x = 10 ∨ x = 13) :=
    clean_cons 47 _ (by decide) (clean_cons 47 _ (by decide)
      (clean_app netloc _ hcn (clean_app X _ hcX (clean_cons 63 _ (by decide) hcW))))
  unfold urlparseE
  dsimp only
  rw [cleanUrl_eq_self _ hclean]
  rw [schemeSplit_head_notalpha 47 _ (by decide)]
  dsimp only
  rw [netSplit_app netloc X W hnl hXh]
  dsimp only
  exact hpr

theorem reparse_b1_cons (c : Byte) (sc netloc X W : BStr) (out : UrlParts)
    (hha : isAlphaB c = true) (hall : (c :: sc).all isSchemeChar = true)
    (hmap : (c :: sc).map lowerByte = c :: sc)
    (hnl : ∀ b ∈ netloc, isNetlocDelim b = false)
    (hcn : ∀ b ∈ netloc, ¬(b = (9 : Byte) ∨ b = 10 ∨ b = 13))
    (hXh : X = [] ∨ ∃ X2, X = (47 : Byte) :: X2)
    (hcX : ∀ b ∈ X, ¬(b = (9 : Byte) ∨ b = 10 ∨ b = 13))
    (hcW : ∀ b ∈ W, ¬(b = (9 : Byte) ∨ b = 10 ∨ b = 13))
    (hpr : parseRest (c :: sc) netloc (X ++ (63 : Byte) :: W) = .ok out) :
    urlparseE ((c :: sc) ++ (58 : Byte) ::
      ((47 : Byte) :: (47 : Byte) :: (netloc ++ (X ++ (63 : Byte) :: W)))) = .ok out := by
  have hcs : ∀ b ∈ c :: sc, ¬(b = (9 : Byte) ∨ b = 10 ∨ b = 13) :=
    fun b hb => (schemeChar_excl b (List.all_eq_true.mp hall b hb)).2
  have hclean : ∀ x ∈ (c :: sc) ++ (58 : Byte) ::
      ((47 : Byte) :: (47 : Byte) :: (netloc ++ (X ++ (63 : Byte) :: W))),
      ¬(x = (9 : Byte) ∨ x = 10 ∨ x = 13) :=
    clean_app (c :: sc) _ hcs (clean_cons 58 _ (by decide)
      (clean_cons 47 _ (by decide) (clean_cons 47 _ (by decide)
        (clean_app netloc _ hcn
          (clean_app X _ hcX (clean_cons 63 _ (by decide) hcW))))))
  unfold urlparseE
  dsimp only
  rw [cleanUrl_eq_self _ hclean]
  rw [schemeSplit_accept c sc _ hha hall hmap]
  dsimp only
  rw [netSplit_app netloc X W hnl hXh]
  dsimp only
  exact hpr

theorem reparse_b2_nil (X W : BStr) (out : UrlParts)
    (hXf : leadsWith [(47 : Byte), 47] X = false)
    (hcX : ∀ b ∈ X, ¬(b = (9 : Byte) ∨ b = 10 ∨ b = 13))
    (hcW : ∀ b ∈ W, ¬(b = (9 : Byte) ∨ b = 10 ∨ b = 13))
    (hss : schemeSplit (X ++ (63 : Byte) :: W) = ([], X ++ (63 : Byte) :: W))
    (hpr : parseRest [] [] (X ++ (63 : Byte) :: W) = .ok out) :
    urlparseE (X ++ (63 : Byte) :: W) = .ok out := by
  have hclean : ∀ x ∈ X ++ (63 : Byte) :: W, ¬(x = (9 : Byte) ∨ x = 10 ∨ x = 13) :=
    clean_app X _ hcX (clean_cons 63 _ (by decide) hcW)
  unfold urlparseE
  dsimp only
  rw [cleanUrl_eq_self _ hclean]
  rw [hss]
  dsimp only
  rw [if_neg (show ¬(leadsWith [(47 : Byte), 47] (X ++ (63 : Byte) :: W) = true) by
    rw [leads2_append_63 X W hXf]; exact fun h => Bool.noConfusion h)]
  dsimp only
  exact hpr

theorem reparse_b2_cons (c : Byte) (sc X W : BStr) (out : UrlParts)
    (hha : isAlphaB c = true) (hall : (c :: sc).all isSchemeChar = true)
    (hmap : (c :: sc).map lowerByte = c :: sc)
    (hXf : leadsWith [(47 : Byte), 47] X = false)
    (hcX : ∀ b ∈ X, ¬(b = (9 : Byte) ∨ b = 10 ∨ b = 13))
    (hcW : ∀ b ∈ W, ¬(b = (9 : Byte) ∨ b = 10 ∨ b = 13))
    (hpr : parseRest (c :: sc) [] (X ++ (63 : Byte) :: W) = .ok out) :
    urlparseE ((c :: sc) ++ (58 : Byte) :: (X ++ (63 : Byte) :: W)) = .ok out := by
  have hcs : ∀ b ∈ c :: sc, ¬(b = (9 : Byte) ∨ b = 10 ∨ b = 13) :=
    fun b hb => (schemeChar_excl b (List.all_eq_true.mp hall b hb)).2
  have hclean : ∀ x ∈ (c :: sc) ++ (58 : Byte) :: (X ++ (63 : Byte) :: W),
      ¬(x = (9 : Byte) ∨ x = 10 ∨ x = 13) :=
    clean_app (c :: sc) _ hcs (clean_cons 58 _ (by decide)
      (clean_app X _ hcX (clean_cons 63 _ (by decide) hcW)))
  unfold urlparseE
  dsimp only
  rw [cleanUrl_eq_self _ hclean]
  rw [schemeSplit_accept c sc _ hha hall hmap]
  dsimp only
  rw [if_neg (show ¬(leadsWith [(47 : Byte), 47] (X ++ (63 : Byte) :: W) = true) by
    rw [leads2_append_63 X W hXf]; exact fun h => Bool.noConfusion h)]
  dsimp only
  exact hpr

end UrlQ

namespace UrlQ

open Py

theorem urlparse_unparse (u : BStr) (p : UrlParts) (hp : urlparseE u = .ok p)
    (q : BStr) (hq : ∀ b ∈ q, queryByteOk b = true) (hqne : q ≠ []) :
    urlparseE (urlunparseQ p q) =
      .ok ⟨p.scheme, p.netloc, p.path, p.params, q, p.fragment⟩ := by
  obtain ⟨F1, F2, F3, F4, F5, F6, F7, F8⟩ := urlparse_ok_facts u p hp
  set X := joinParams p.path p.params with hXdef
  have hnl : ∀ b ∈ p.netloc, isNetlocDelim b = false := fun b hb => (F2 b hb).1
  have hcn : ∀ b ∈ p.netloc, ¬(b = (9 : Byte) ∨ b = 10 ∨ b = 13) := fun b hb => (F2 b hb).2
  have hcX : ∀ b ∈ X, ¬(b = (9 : Byte) ∨ b = 10 ∨ b = 13) := fun b hb => (F4 b hb).2.2
  have h63X : (63 : Byte) ∉ X := fun hm => (F4 _ hm).1 rfl
  have h35X : (35 : Byte) ∉ X := fun hm => (F4 _ hm).2.1 rfl
  have hcq : ∀ b ∈ q, ¬(b = (9 : Byte) ∨ b = 10 ∨ b = 13) := by
    intro b hb
    obtain ⟨h9, h10, h13, -, -, -, -⟩ := queryByteOk_excl2 b (hq b hb)
    rintro (h | h | h)
    exacts [h9 h, h10 h, h13 h]
  have hq35 : (35 : Byte) ∉ q := fun hm => (queryByteOk_excl2 _ (hq _ hm)).2.2.2.1 rfl
  have hqie : q.isEmpty = false := by
    cases hqq : q with
    | nil => exact absurd hqq hqne
    | cons a l => rfl
  by_cases hfr : p.fragment = []
  · -- no fragment
    have hfie : p.fragment.isEmpty = true := by rw [hfr]; rfl
    by_cases hb1 : ¬ p.netloc.isEmpty = true ∨
        (¬ X.isEmpty = true ∧ leadsWith [(47 : Byte), 47] X = true)
    · have hXh : X = [] ∨ ∃ X2, X = (47 : Byte) :: X2 := by
        rcases hb1 with h | ⟨hne, hl⟩
        · have h7 := F7 (fun hnil => h (by rw [hnil]; rfl))
          rcases h7 with h7 | h7
          · exact Or.inl h7
          · exact Or.inr (leads47_head X h7)
        · exact Or.inr (leads47_head X (leads2_to_leads1 X hl))
      have hprep : (if ¬ X.isEmpty = true ∧ ¬ leadsWith [(47 : Byte)] X = true
          then (47 : Byte) :: X else X) = X := by
        rcases hXh with hx0 | ⟨X2, hx2⟩
        · rw [if_neg]; rintro ⟨h1, -⟩; apply h1; rw [hx0]; rfl
        · rw [if_neg]; rintro ⟨-, h2⟩; apply h2; rw [hx2]; rfl
      have hpr : parseRest p.scheme p.netloc (X ++ (63 : Byte) :: q) =
          .ok ⟨p.scheme, p.netloc, p.path, p.params, q, []⟩ :=
        parseRest_noFrag p.scheme p.netloc X q p.path p.params F3 h63X h35X hq35 F5
      rcases F1 with hsch | ⟨c, sc, hsch, hha, hall, hmap⟩
      · have hr : urlunparseQ p q =
            (47 : Byte) :: (47 : Byte) :: (p.netloc ++ (X ++ (63 : Byte) :: q)) := by
          unfold urlunparseQ urlunsplit
          dsimp only
          rw [← hXdef]
          rw [if_pos hb1, hprep,
            if_pos (show p.scheme.isEmpty = true by rw [hsch]; rfl),
            if_neg (show ¬(q.isEmpty = true) by
              rw [hqie]; exact fun h => Bool.noConfusion h),
            if_pos hfie]
          simp
        rw [hsch] at hpr
        rw [hr, hfr, hsch]
        exact reparse_b1_nil p.netloc X q _ hnl hcn hXh hcX hcq hpr
      · have hr : urlunparseQ p q = (c :: sc) ++ (58 : Byte) ::
            ((47 : Byte) :: (47 : Byte) :: (p.netloc ++ (X ++ (63 : Byte) :: q))) := by
          unfold urlunparseQ urlunsplit
          dsimp only
          rw [← hXdef]
          rw [if_pos hb1, hprep,
            if_neg (show ¬(p.scheme.isEmpty = true) by
              rw [hsch]; exact fun h => Bool.noConfusion h),
            if_neg (show ¬(q.isEmpty = true) by
              rw [hqie]; exact fun h => Bool.noConfusion h),
            if_pos hfie]
          rw [hsch]
          simp
        rw [hsch] at hpr
        rw [hr, hfr, hsch]
        exact reparse_b1_cons c sc p.netloc X q _ hha hall hmap hnl hcn hXh hcX hcq hpr
    · have hb1a : ¬¬(p.netloc.isEmpty = true) := fun h => hb1 (Or.inl h)
      have hb1b : ¬(¬ X.isEmpty = true ∧ leadsWith [(47 : Byte), 47] X = true) :=
        fun h => hb1 (Or.inr h)
      have hn0 : p.netloc = [] := by
        have h := not_not.mp hb1a
        cases hnn : p.netloc with
        | nil => rfl
        | cons a l => rw [hnn] at h; exact absurd h (fun hh => Bool.noConfusion hh)
      have hXf : leadsWith [(47 : Byte), 47] X = false := by
        cases hl : leadsWith [(47 : Byte), 47] X with
        | false => rfl
        | true =>
            exfalso
            apply hb1b
            obtain ⟨X2, hX2⟩ := leads47_head X (leads2_to_leads1 X hl)
            refine ⟨?_, hl⟩
            rw [hX2]
            exact fun h => Bool.noConfusion h
      have hbr0 : ((91 : Byte) ∈ ([] : BStr)) = ((93 : Byte) ∈ ([] : BStr)) := by simp
      have hpr : parseRest p.scheme [] (X ++ (63 : Byte) :: q) =
          .ok ⟨p.scheme, [], p.path, p.params, q, []⟩ :=
        parseRest_noFrag p.scheme [] X q p.path p.params hbr0 h63X h35X hq35 F5
      rcases F1 with hsch | ⟨c, sc, hsch, hha, hall, hmap⟩
      · have hss : schemeSplit (X ++ (63 : Byte) :: q) =
            ([], X ++ (63 : Byte) :: q) := by
          rcases F8 hsch with hx | ⟨T, hT, hrej⟩
          · rcases hx with hx0 | hx1
            · rw [hx0, List.nil_append]
              exact schemeSplit_head_notalpha 63 q (by decide)
            · obtain ⟨X2, hX2⟩ := leads47_head X hx1
              rw [hX2, List.cons_append]
              exact schemeSplit_head_notalpha 47 _ (by decide)
          · exact scheme_reject_transfer X T q (cleanUrl u) hT hrej
        have hr : urlunparseQ p q = X ++ (63 : Byte) :: q := by
          unfold urlunparseQ urlunsplit
          dsimp only
          rw [← hXdef]
          rw [if_neg hb1,
            if_pos (show p.scheme.isEmpty = true by rw [hsch]; rfl),
            if_neg (show ¬(q.isEmpty = true) by
              rw [hqie]; exact fun h => Bool.noConfusion h),
            if_pos hfie]
          simp
        rw [hsch] at hpr
        rw [hr, hfr, hsch, hn0]
        exact reparse_b2_nil X q _ hXf hcX hcq hss hpr
      · have hr : urlunparseQ p q =
            (c :: sc) ++ (58 : Byte) :: (X ++ (63 : Byte) :: q) := by
          unfold urlunparseQ urlunsplit
          dsimp only
          rw [← hXdef]
          rw [if_neg hb1,
            if_neg (show ¬(p.scheme.isEmpty = true) by
              rw [hsch]; exact fun h => Bool.noConfusion h),
            if_neg (show ¬(q.isEmpty = true) by
              rw [hqie]; exact fun h => Bool.noConfusion h),
            if_pos hfie]
          rw [hsch]
          simp
        rw [hsch] at hpr
        rw [hr, hfr, hsch, hn0]
        exact reparse_b2_cons c sc X q _ hha hall hmap hXf hcX hcq hpr
  · -- fragment present
    have hfie : p.fragment.isEmpty = false := by
      cases hff : p.fragment with
      | nil => exact absurd hff hfr
      | cons a l => rfl
    have hcW : ∀ b ∈ q ++ (35 : Byte) :: p.fragment,
        ¬(b = (9 : Byte) ∨ b = 10 ∨ b = 13) :=
      clean_app q _ hcq (clean_cons 35 _ (by decide) F6)
    by_cases hb1 : ¬ p.netloc.isEmpty = true ∨
        (¬ X.isEmpty = true ∧ leadsWith [(47 : Byte), 47] X = true)
    · have hXh : X = [] ∨ ∃ X2, X = (47 : Byte) :: X2 := by
        rcases hb1 with h | ⟨hne, hl⟩
        · have h7 := F7 (fun hnil => h (by rw [hnil]; rfl))
          rcases h7 with h7 | h7
          · exact Or.inl h7
          · exact Or.inr (leads47_head X h7)
        · exact Or.inr (leads47_head X (leads2_to_leads1 X hl))
      have hprep : (if ¬ X.isEmpty = true ∧ ¬ leadsWith [(47 : Byte)] X = true
          then (47 : Byte) :: X else X) = X := by
        rcases hXh with hx0 | ⟨X2, hx2⟩
        · rw [if_neg]; rintro ⟨h1, -⟩; apply h1; rw [hx0]; rfl
        · rw [if_neg]; rintro ⟨-, h2⟩; apply h2; rw [hx2]; rfl
      have hpr : parseRest p.scheme p.netloc
          (X ++ (63 : Byte) :: (q ++ (35 : Byte) :: p.fragment)) =
          .ok ⟨p.scheme, p.netloc, p.path, p.params, q, p.fragment⟩ :=
        parseRest_frag2 p.scheme p.netloc X q p.fragment p.path p.params
          F3 h63X h35X hq35 F5
      rcases F1 with hsch | ⟨c, sc, hsch, hha, hall, hmap⟩
      · have hr : urlunparseQ p q = (47 : Byte) :: (47 : Byte) ::
            (p.netloc ++ (X ++ (63 : Byte) :: (q ++ (35 : Byte) :: p.fragment))) := by
          unfold urlunparseQ urlunsplit
          dsimp only
          rw [← hXdef]
          rw [if_pos hb1, hprep,
            if_pos (show p.scheme.isEmpty = true by rw [hsch]; rfl),
            if_neg (show ¬(q.isEmpty = true) by
              rw [hqie]; exact fun h => Bool.noConfusion h),
            if_neg (show ¬(p.fragment.isEmpty = true) by
              rw [hfie]; exact fun h => Bool.noConfusion h)]
          simp
        rw [hsch] at hpr
        rw [hr, hsch]
        exact reparse_b1_nil p.netloc X (q ++ (35 : Byte) :: p.fragment) _
          hnl hcn hXh hcX hcW hpr
      · have hr : urlunparseQ p q = (c :: sc) ++ (58 : Byte) :: ((47 : Byte) :: (47 : Byte) ::
            (p.netloc ++ (X ++ (63 : Byte) :: (q ++ (35 : Byte) :: p.fragment)))) := by
          unfold urlunparseQ urlunsplit
          dsimp only
          rw [← hXdef]
          rw [if_pos hb1, hprep,
            if_neg (show ¬(p.scheme.isEmpty = true) by
              rw [hsch]; exact fun h => Bool.noConfusion h),
            if_neg (show ¬(q.isEmpty = true) by
              rw [hqie]; exact fun h => Bool.noConfusion h),
            if_neg (show ¬(p.fragment.isEmpty = true) by
              rw [hfie]; exact fun h => Bool.noConfusion h)]
          rw [hsch]
          simp
        rw [hsch] at hpr
        rw [hr, hsch]
        exact reparse_b1_cons c sc p.netloc X (q ++ (35 : Byte) :: p.fragment) _
          hha hall hmap hnl hcn hXh hcX hcW hpr
    · have hb1a : ¬¬(p.netloc.isEmpty = true) := fun h => hb1 (Or.inl h)
      have hb1b : ¬(¬ X.isEmpty = true ∧ leadsWith [(47 : Byte), 47] X = true) :=
        fun h => hb1 (Or.inr h)
      have hn0 : p.netloc = [] := by
        have h := not_not.mp hb1a
        cases hnn : p.netloc with
        | nil => rfl
        | cons a l => rw [hnn] at h; exact absurd h (fun hh => Bool.noConfusion hh)
      have hXf : leadsWith [(47 : Byte), 47] X = false := by
        cases hl : leadsWith [(47 : Byte), 47] X with
        | false => rfl
        | true =>
            exfalso
            apply hb1b
            obtain ⟨X2, hX2⟩ := leads47_head X (leads2_to_leads1 X hl)
            refine ⟨?_, hl⟩
            rw [hX2]
            exact fun h => Bool.noConfusion h
      have hbr0 : ((91 : Byte) ∈ ([] : BStr)) = ((93 : Byte) ∈ ([] : BStr)) := by simp
      have hpr : parseRest p.scheme []
          (X ++ (63 : Byte) :: (q ++ (35 : Byte) :: p.fragment)) =
          .ok ⟨p.scheme, [], p.path, p.params, q, p.fragment⟩ :=
        parseRest_frag2 p.scheme [] X q p.fragment p.path p.params
          hbr0 h63X h35X hq35 F5
      rcases F1 with hsch | ⟨c, sc, hsch, hha, hall, hmap⟩
      · have hss : schemeSplit (X ++ (63 : Byte) :: (q ++ (35 : Byte) :: p.fragment)) =
            ([], X ++ (63 : Byte) :: (q ++ (35 : Byte) :: p.fragment)) := by
          rcases F8 hsch with hx | ⟨T, hT, hrej⟩
          · rcases hx with hx0 | hx1
            · rw [hx0, List.nil_append]
              exact schemeSplit_head_notalpha 63 _ (by decide)
            · obtain ⟨X2, hX2⟩ := leads47_head X hx1
              rw [hX2, List.cons_append]
              exact schemeSplit_head_notalpha 47 _ (by decide)
          · exact scheme_reject_transfer X T (q ++ (35 : Byte) :: p.fragment)
              (cleanUrl u) hT hrej
        have hr : urlunparseQ p q =
            X ++ (63 : Byte) :: (q ++ (35 : Byte) :: p.fragment) := by
          unfold urlunparseQ urlunsplit
          dsimp only
          rw [← hXdef]
          rw [if_neg hb1,
            if_pos (show p.scheme.isEmpty = true by rw [hsch]; rfl),
            if_neg (show ¬(q.isEmpty = true) by
              rw [hqie]; exact fun h => Bool.noConfusion h),
            if_neg (show ¬(p.fragment.isEmpty = true) by
              rw [hfie]; exact fun h => Bool.noConfusion h)]
          simp
        rw [hsch] at hpr
        rw [hr, hsch, hn0]
        exact reparse_b2_nil X (q ++ (35 : Byte) :: p.fragment) _ hXf hcX hcW hss hpr
      · have hr : urlunparseQ p q = (c :: sc) ++ (58 : Byte) ::
            (X ++ (63 : Byte) :: (q ++ (35 : Byte) :: p.fragment)) := by
          unfold urlunparseQ urlunsplit
          dsimp only
          rw [← hXdef]
          rw [if_neg hb1,
            if_neg (show ¬(p.scheme.isEmpty = true) by
              rw [hsch]; exact fun h => Bool.noConfusion h),
            if_neg (show ¬(q.isEmpty = true) by
              rw [hqie]; exact fun h => Bool.noConfusion h),
            if_neg (show ¬(p.fragment.isEmpty = true) by
              rw [hfie]; exact fun h => Bool.noConfusion h)]
          rw [hsch]
          simp
        rw [hsch] at hpr
        rw [hr, hsch, hn0]
        exact reparse_b2_cons c sc X (q ++ (35 : Byte) :: p.fragment) _
          hha hall hmap hXf hcX hcW hpr

end UrlQ

namespace UrlQ

open Py

set_option maxRecDepth 8192 in
theorem hexUC_ok : ∀ m : Fin 16, qByteOk (hexUC m.val) = true := by decide

theorem quotePlusB_bytes (x : BStr) : ∀ b ∈ quotePlusB x, qByteOk b = true := by
  intro b hb
  rcases List.mem_flatMap.mp hb with ⟨c, hc, hbc⟩
  by_cases h1 : isSafeByte c = true
  · rw [if_pos h1] at hbc
    rcases List.mem_singleton.mp hbc with rfl
    simp [qByteOk, h1]
  · rw [if_neg h1] at hbc
    by_cases h2 : c = (32 : Byte)
    · rw [if_pos h2] at hbc
      rcases List.mem_singleton.mp hbc with rfl
      decide
    · rw [if_neg h2] at hbc
      rcases List.mem_cons.mp hbc with rfl | hbc
      · decide
      · rcases List.mem_cons.mp hbc with rfl | hbc
        · exact hexUC_ok ⟨c.val / 16, by omega⟩
        · rcases List.mem_singleton.mp hbc with rfl
          exact hexUC_ok ⟨c.val % 16, by omega⟩

theorem joinAllB_bytes (d : Byte) (P : Byte → Bool) (hd : P d = true) :
    ∀ ps : List BStr, (∀ p ∈ ps, ∀ b ∈ p, P b = true) →
      ∀ b ∈ joinAllB d ps, P b = true := by
  intro ps
  induction ps with
  | nil => intro _ b hb; cases hb
  | cons p rest ih =>
      intro hps b hb
      cases rest with
      | nil => exact hps p (List.mem_cons_self _ _) b hb
      | cons p2 r2 =>
          have hj : joinAllB d (p :: p2 :: r2) = p ++ [d] ++ joinAllB d (p2 :: r2) := rfl
          rw [hj] at hb
          rcases List.mem_append.mp hb with hb | hb
          · rcases List.mem_append.mp hb with hb | hb
            · exact hps p (List.mem_cons_self _ _) b hb
            · rcases List.mem_singleton.mp hb with rfl; exact hd
          · exact ih (fun w hw => hps w (List.mem_cons_of_mem _ hw)) b hb

theorem urlencodeDoseq_bytes (dd : List (BStr × List BStr)) :
    ∀ b ∈ urlencodeDoseq dd, queryByteOk b = true := by
  unfold urlencodeDoseq
  apply joinAllB_bytes 38 queryByteOk (by decide)
  intro pc hpc b hb
  rcases List.mem_flatMap.mp hpc with ⟨kv, hkv, hpc2⟩
  rcases List.mem_map.mp hpc2 with ⟨v, hv, rfl⟩
  rcases List.mem_append.mp hb with hb | hb
  · rcases List.mem_append.mp hb with hb | hb
    · have := quotePlusB_bytes kv.1 b hb
      simp [queryByteOk, this]
    · rcases List.mem_singleton.mp hb with rfl
      decide
  · have := quotePlusB_bytes v b hb
    simp [queryByteOk, this]

theorem joinAllB_cons_ne_nil (d : Byte) (p : BStr) (ps : List BStr) (hp : p ≠ []) :
    joinAllB d (p :: ps) ≠ [] := by
  cases ps with
  | nil => exact hp
  | cons p2 r =>
      show p ++ [d] ++ joinAllB d (p2 :: r) ≠ []
      simp

theorem pieces_ne_nil (dd : List (BStr × List BStr)) (hd : dd ≠ [])
    (hnev : ∀ kv ∈ dd, kv.2 ≠ []) :
    (dd.flatMap fun kv => kv.2.map fun v =>
      quotePlusB kv.1 ++ [(61 : Byte)] ++ quotePlusB v) ≠ [] := by
  cases dd with
  | nil => exact absurd rfl hd
  | cons kv rest =>
      cases hv : kv.2 with
      | nil => exact absurd hv (hnev kv (List.mem_cons_self _ _))
      | cons v vs =>
          rw [List.flatMap_cons, hv, List.map_cons, List.cons_append]
          simp

theorem urlencodeDoseq_ne_nil (dd : List (BStr × List BStr)) (hd : dd ≠ [])
    (hnev : ∀ kv ∈ dd, kv.2 ≠ []) : urlencodeDoseq dd ≠ [] := by
  unfold urlencodeDoseq
  cases dd with
  | nil => exact absurd rfl hd
  | cons kv rest =>
      cases hv : kv.2 with
      | nil => exact absurd hv (hnev kv (List.mem_cons_self _ _))
      | cons v vs =>
          rw [List.flatMap_cons, hv, List.map_cons, List.cons_append]
          exact joinAllB_cons_ne_nil 38 _ _ (by simp)

theorem replB_ne_nil (pat rep s : BStr) (hs : s ≠ []) (hrep : rep ≠ []) :
    replB pat rep s ≠ [] := by
  cases s with
  | nil => exact absurd rfl hs
  | cons c rest =>
      rw [replB]
      split
      · intro h
        rcases List.append_eq_nil.mp h with ⟨h1, -⟩
        exact hrep h1
      · exact List.cons_ne_nil _ _

theorem stpTransform_ne_nil (v : BStr) (hv : v ≠ []) : stpTransform v ≠ [] := by
  unfold stpTransform
  split
  · exact replB_ne_nil _ _ v hv (by decide)
  · split
    · exact hv
    · exact replB_ne_nil _ _ v hv (by decide)

theorem lookupQ_none_keys (d : List (BStr × List BStr)) (k : BStr)
    (h : lookupQ d k = none) : ∀ kv ∈ d, kv.1 ≠ k := by
  intro kv hkv he
  unfold lookupQ at h
  cases hf : List.find? (fun kv => kv.1 = k) d with
  | some x => rw [hf] at h; simp only [Option.map] at h; cases h
  | none =>
      have := List.find?_eq_none.mp hf kv hkv
      simp [he] at this

theorem lookupQ_some_ne_nil (d : List (BStr × List BStr)) (k : BStr)
    (vs : List BStr) (h : lookupQ d k = some vs) : d ≠ [] := by
  intro hd
  subst hd
  unfold lookupQ at h
  simp at h

theorem lookupQ_append_self (d : List (BStr × List BStr)) (k : BStr) (vs : List BStr)
    (hk : ∀ kv ∈ d, kv.1 ≠ k) : lookupQ (d ++ [(k, vs)]) k = some vs := by
  unfold lookupQ
  rw [find?_key_append d k vs hk]
  rfl

theorem lookupQ_append_none (d : List (BStr × List BStr)) (k k2 : BStr) (vs : List BStr)
    (h : lookupQ d k = none) (hne2 : k2 ≠ k) :
    lookupQ (d ++ [(k2, vs)]) k = none := by
  have hk : ∀ kv ∈ d ++ [(k2, vs)], kv.1 ≠ k := by
    intro kv hkv
    rcases List.mem_append.mp hkv with h1 | h1
    · exact lookupQ_none_keys d k h kv h1
    · rcases List.mem_singleton.mp h1 with rfl
      exact hne2
  unfold lookupQ
  rw [find?_key_none _ k hk]
  rfl

theorem lookupQ_append_left : ∀ (d : List (BStr × List BStr))
    (d2 : List (BStr × List BStr)) (k : BStr) (vs : List BStr),
    lookupQ d k = some vs → lookupQ (d ++ d2) k = some vs := by
  intro d
  induction d with
  | nil =>
      intro d2 k vs h
      unfold lookupQ at h
      simp at h
  | cons e rest ih =>
      intro d2 k vs h
      unfold lookupQ at h ⊢
      rw [List.cons_append]
      by_cases he : e.1 = k
      · rw [List.find?_cons_of_pos _ (by simp [he])] at h ⊢
        exact h
      · rw [List.find?_cons_of_neg _ (by simp [he])] at h ⊢
        exact ih d2 k vs h

theorem lookupQ_setVal_self : ∀ (d : List (BStr × List BStr)) (k : BStr)
    (vs0 vs : List BStr),
    lookupQ d k = some vs0 → lookupQ (setVal d k vs) k = some vs := by
  intro d
  induction d with
  | nil =>
      intro k vs0 vs h
      unfold lookupQ at h
      simp at h
  | cons e rest ih =>
      intro k vs0 vs h
      unfold lookupQ at h
      unfold lookupQ setVal
      by_cases he : e.1 = k
      · rw [List.map_cons, if_pos he]
        rw [List.find?_cons_of_pos _ (by simp [he])]
        rfl
      · rw [List.map_cons, if_neg he]
        rw [List.find?_cons_of_neg _ (by simp [he])] at h
        rw [List.find?_cons_of_neg _ (by simp [he])]
        exact ih k vs0 vs h

theorem map_setval_id (rest : List (BStr × List BStr)) (k : BStr) (vs : List BStr)
    (hk : ∀ kv ∈ rest, kv.1 ≠ k) :
    rest.map (fun kv => if kv.1 = k then (kv.1, vs) else kv) = rest := by
  induction rest with
  | nil => rfl
  | cons e r ih =>
      rw [List.map_cons, if_neg (hk e (List.mem_cons_self _ _)),
        ih (fun kv h => hk kv (List.mem_cons_of_mem _ h))]

theorem setVal_self : ∀ (d : List (BStr × List BStr)) (k : BStr) (vs : List BStr),
    List.Pairwise (fun a b => a.1 ≠ b.1) d → lookupQ d k = some vs →
    setVal d k vs = d := by
  intro d
  induction d with
  | nil => intro k vs _ _; rfl
  | cons e rest ih =>
      intro k vs hpw hlk
      by_cases he : e.1 = k
      · have hvs : vs = e.2 := by
          unfold lookupQ at hlk
          rw [List.find?_cons_of_pos _ (by simp [he])] at hlk
          simp only [Option.map] at hlk
          exact (Option.some.inj hlk).symm
        unfold setVal
        rw [List.map_cons, if_pos he, map_setval_id rest k vs
          (fun kv hkv hk2 => (List.pairwise_cons.mp hpw).1 kv hkv (he.trans hk2.symm)),
          hvs]
      · have hlk2 : lookupQ rest k = some vs := by
          unfold lookupQ at hlk ⊢
          rw [List.find?_cons_of_neg _ (by simp [he])] at hlk
          exact hlk
        have hr := ih k vs (List.pairwise_cons.mp hpw).2 hlk2
        unfold setVal at hr ⊢
        rw [List.map_cons, if_neg he, hr]

theorem setVal_inv (d : List (BStr × List BStr)) (k : BStr) (w : BStr) (hw : w ≠ [])
    (hpw : List.Pairwise (fun a b => a.1 ≠ b.1) d)
    (hvals : ∀ kv ∈ d, kv.2 ≠ [] ∧ ∀ x ∈ kv.2, x ≠ []) :
    List.Pairwise (fun a b => a.1 ≠ b.1) (setVal d k [w]) ∧
    ∀ kv ∈ setVal d k [w], kv.2 ≠ [] ∧ ∀ x ∈ kv.2, x ≠ [] := by
  unfold setVal
  constructor
  · refine (List.pairwise_map).mpr (hpw.imp ?_)
    intro a b hab
    split <;> split <;> exact hab
  · intro kv hkv
    rcases List.mem_map.mp hkv with ⟨kv0, hkv0, rfl⟩
    split
    · refine ⟨by simp, ?_⟩
      intro x hx
      rcases List.mem_singleton.mp hx with rfl
      exact hw
    · exact hvals kv0 hkv0

theorem append_kv_inv (d : List (BStr × List BStr)) (k : BStr) (w : BStr) (hw : w ≠ [])
    (hpw : List.Pairwise (fun a b => a.1 ≠ b.1) d)
    (hvals : ∀ kv ∈ d, kv.2 ≠ [] ∧ ∀ x ∈ kv.2, x ≠ [])
    (hknew : ∀ kv ∈ d, kv.1 ≠ k) :
    List.Pairwise (fun a b => a.1 ≠ b.1) (d ++ [(k, [w])]) ∧
    ∀ kv ∈ d ++ [(k, [w])], kv.2 ≠ [] ∧ ∀ x ∈ kv.2, x ≠ [] := by
  constructor
  · rw [List.pairwise_append]
    refine ⟨hpw, List.pairwise_singleton _ _, ?_⟩
    intro a ha b hb
    rcases List.mem_singleton.mp hb with rfl
    exact hknew a ha
  · intro kv hkv
    rcases List.mem_append.mp hkv with h | h
    · exact hvals kv h
    · rcases List.mem_singleton.mp h with rfl
      refine ⟨by simp, ?_⟩
      intro x hx
      rcases List.mem_singleton.mp hx with rfl
      exact hw

end UrlQ

namespace UrlQ

open Py

theorem enhance_unparse_generic (u : BStr) (p : UrlParts) (hp : urlparseE u = .ok p)
    (qp3 : List (BStr × List BStr))
    (hpw3 : List.Pairwise (fun a b => a.1 ≠ b.1) qp3)
    (hvals3 : ∀ kv ∈ qp3, kv.2 ≠ [] ∧ ∀ x ∈ kv.2, x ≠ [])
    (hefg3 : ∃ evs, lookupQ qp3 efgK = some evs)
    (hstp3 : lookupQ qp3 stpK = none ∨
      ∃ w, lookupQ qp3 stpK = some [w] ∧ stpTransform w = w) :
    enhance_image_url_quality (urlunparseQ p (urlencodeDoseq qp3)) =
      urlunparseQ p (urlencodeDoseq qp3) := by
  have hd3 : qp3 ≠ [] := by
    obtain ⟨evs, he⟩ := hefg3
    exact lookupQ_some_ne_nil qp3 efgK evs he
  have hnev3 : ∀ kv ∈ qp3, kv.2 ≠ [] := fun kv h => (hvals3 kv h).1
  have hvv3 : ∀ kv ∈ qp3, ∀ x ∈ kv.2, x ≠ [] := fun kv h => (hvals3 kv h).2
  have hround : parseQs (urlencodeDoseq qp3) = qp3 :=
    parseQs_urlencodeDoseq qp3 hvv3 hnev3 hpw3 (pieces_ne_nil qp3 hd3 hnev3)
  have hup' := urlparse_unparse u p hp (urlencodeDoseq qp3) (urlencodeDoseq_bytes qp3)
    (urlencodeDoseq_ne_nil qp3 hd3 hnev3)
  by_cases hmk : hasSubList scB (urlunparseQ p (urlencodeDoseq qp3)) = true ∧
      hasSubList igB (urlunparseQ p (urlencodeDoseq qp3)) = true
  · unfold enhance_image_url_quality
    rw [if_neg (not_not_intro hmk)]
    rw [hup']
    dsimp only
    rw [hround]
    obtain ⟨evs, hef⟩ := hefg3
    rcases hstp3 with hn | ⟨w, hs, hidem⟩
    · rw [hn]
      dsimp only
      unfold finishQuery
      dsimp only
      rw [hround, hn]
      dsimp only
      rw [if_pos (show (lookupQ qp3 efgK).isSome = true by rw [hef]; rfl)]
      rfl
    · rw [hs]
      dsimp only
      unfold finishQuery
      dsimp only
      rw [hround, hs]
      dsimp only
      rw [hidem]
      rw [setVal_self qp3 stpK [w] hpw3 hs]
      rw [if_pos (show (lookupQ qp3 efgK).isSome = true by rw [hef]; rfl)]
      rfl
  · unfold enhance_image_url_quality
    rw [if_pos hmk]

theorem finishQuery_stable (u : BStr) (p : UrlParts) (hp : urlparseE u = .ok p) :
    enhance_image_url_quality (finishQuery p) = finishQuery p := by
  obtain ⟨hpw, hvals⟩ := parseQs_inv p.query
  cases hlk : lookupQ (parseQs p.query) stpK with
  | none =>
      cases hefg : lookupQ (parseQs p.query) efgK with
      | some evs =>
          have hfq : finishQuery p =
              urlunparseQ p (urlencodeDoseq (parseQs p.query)) := by
            unfold finishQuery
            dsimp only
            rw [hlk]
            dsimp only
            rw [if_pos (show (lookupQ (parseQs p.query) efgK).isSome = true by
              rw [hefg]; rfl)]
          rw [hfq]
          exact enhance_unparse_generic u p hp (parseQs p.query) hpw hvals
            ⟨evs, hefg⟩ (Or.inl hlk)
      | none =>
          have hfq : finishQuery p = urlunparseQ p
              (urlencodeDoseq (parseQs p.query ++ [(efgK, [efgV])])) := by
            unfold finishQuery
            dsimp only
            rw [hlk]
            dsimp only
            rw [if_neg (show ¬((lookupQ (parseQs p.query) efgK).isSome = true) by
              rw [hefg]; exact fun h => Bool.noConfusion h)]
          obtain ⟨hpw3, hvals3⟩ := append_kv_inv (parseQs p.query) efgK efgV
            (by decide) hpw hvals (lookupQ_none_keys _ _ hefg)
          rw [hfq]
          exact enhance_unparse_generic u p hp _ hpw3 hvals3
            ⟨[efgV], lookupQ_append_self _ _ _ (lookupQ_none_keys _ _ hefg)⟩
            (Or.inl (lookupQ_append_none _ _ _ _ hlk (by decide)))
  | some vl =>
      cases vl with
      | nil =>
          exfalso
          unfold lookupQ at hlk
          cases hf : List.find? (fun kv => kv.1 = stpK) (parseQs p.query) with
          | none => rw [hf] at hlk; simp only [Option.map] at hlk; cases hlk
          | some kv =>
              rw [hf] at hlk
              simp only [Option.map] at hlk
              have hmem := List.mem_of_find?_eq_some hf
              exact (hvals kv hmem).1 (Option.some.inj hlk)
      | cons v vrest =>
          have hvne : v ≠ [] := by
            unfold lookupQ at hlk
            cases hf : List.find? (fun kv => kv.1 = stpK) (parseQs p.query) with
            | none => rw [hf] at hlk; simp only [Option.map] at hlk; cases hlk
            | some kv =>
                rw [hf] at hlk
                simp only [Option.map] at hlk
                have hmem := List.mem_of_find?_eq_some hf
                have h2 := (hvals kv hmem).2
                rw [Option.some.inj hlk] at h2
                exact h2 v (List.mem_cons_self _ _)
          have hwne : stpTransform v ≠ [] := stpTransform_ne_nil v hvne
          obtain ⟨hpw2, hvals2⟩ := setVal_inv (parseQs p.query) stpK
            (stpTransform v) hwne hpw hvals
          have hlk2 : lookupQ (setVal (parseQs p.query) stpK [stpTransform v]) stpK =
              some [stpTransform v] :=
            lookupQ_setVal_self _ stpK (v :: vrest) [stpTransform v] hlk
          cases hefg : lookupQ (setVal (parseQs p.query) stpK [stpTransform v]) efgK with
          | some evs =>
              have hfq : finishQuery p = urlunparseQ p
                  (urlencodeDoseq (setVal (parseQs p.query) stpK [stpTransform v])) := by
                unfold finishQuery
                dsimp only
                rw [hlk]
                dsimp only
                rw [if_pos (show (lookupQ (setVal (parseQs p.query) stpK
                    [stpTransform v]) efgK).isSome = true by rw [hefg]; rfl)]
              rw [hfq]
              exact enhance_unparse_generic u p hp _ hpw2 hvals2 ⟨evs, hefg⟩
                (Or.inr ⟨stpTransform v, hlk2, stpTransform_idem v⟩)
          | none =>
              have hfq : finishQuery p = urlunparseQ p
                  (urlencodeDoseq (setVal (parseQs p.query) stpK [stpTransform v] ++
                    [(efgK, [efgV])])) := by
                unfold finishQuery
                dsimp only
                rw [hlk]
                dsimp only
                rw [if_neg (show ¬((lookupQ (setVal (parseQs p.query) stpK
                    [stpTransform v]) efgK).isSome = true) by
                  rw [hefg]; exact fun h => Bool.noConfusion h)]
              obtain ⟨hpw3, hvals3⟩ := append_kv_inv _ efgK efgV (by decide)
                hpw2 hvals2 (lookupQ_none_keys _ _ hefg)
              rw [hfq]
              exact enhance_unparse_generic u p hp _ hpw3 hvals3
                ⟨[efgV], lookupQ_append_self _ _ _ (lookupQ_none_keys _ _ hefg)⟩
                (Or.inr ⟨stpTransform v, lookupQ_append_left _ _ _ _ hlk2,
                  stpTransform_idem v⟩)

end UrlQ

namespace UrlQ

open Py

/-- C6: the URL quality enhancer is idempotent: for every input string
`u`, `enhance_image_url_quality (enhance_image_url_quality u) =
enhance_image_url_quality u`; re-applying it to an already-enhanced URL
does not change it further. -/
theorem enhance_idempotent (u : BStr) :
    enhance_image_url_quality (enhance_image_url_quality u) =
      enhance_image_url_quality u := by
  by_cases hmk : hasSubList scB u = true ∧ hasSubList igB u = true
  · cases hup : urlparseE u with
    | error e =>
        have h1 : enhance_image_url_quality u = u := by
          unfold enhance_image_url_quality
          rw [if_neg (not_not_intro hmk), hup]
        rw [h1, h1]
    | ok p =>
        cases hlk : lookupQ (parseQs p.query) stpK with
        | none =>
            have h1 : enhance_image_url_quality u = finishQuery p := by
              unfold enhance_image_url_quality
              rw [if_neg (not_not_intro hmk), hup]
              dsimp only
              rw [hlk]
            rw [h1]
            exact finishQuery_stable u p hup
        | some vl =>
            cases vl with
            | nil =>
                have h1 : enhance_image_url_quality u = u := by
                  unfold enhance_image_url_quality
                  rw [if_neg (not_not_intro hmk), hup]
                  dsimp only
                  rw [hlk]
                rw [h1, h1]
            | cons v vrest =>
                have h1 : enhance_image_url_quality u = finishQuery p := by
                  unfold enhance_image_url_quality
                  rw [if_neg (not_not_intro hmk), hup]
                  dsimp only
                  rw [hlk]
                rw [h1]
                exact finishQuery_stable u p hup
  · have h1 : enhance_image_url_quality u = u := by
      unfold enhance_image_url_quality
      rw [if_pos hmk]
    rw [h1, h1]

end UrlQ
